import Mathlib

/-!
# kalu-dbus: the privileged updater broker

A shallow embedding of `src/kalu-dbus/kalu-dbus.c`.

* C strings are lists of characters (`Str`); the terminating NUL is implicit, so
  a `Char` of the model always stands for a non-NUL byte.
* `size_t` values are naturals, every `size_t` operation is reduced modulo `2 ^ 64`.
* The globals `is_init`, `client`, `choice` and the observable part of the engine
  handle are the fields of `World`; the signals emitted on the bus are appended to
  `World.out` in emission order.
* Calls into libalpm, polkit and the C library whose result the broker cannot
  predict are parameters of the handlers (an `Ext` record or an explicit outcome).
* Memory allocation is assumed to succeed.
-/

namespace Kalu

/-- A C string, without its terminating NUL. -/
abbrev Str := List Char

/-! ## String helpers (`strstr`, `strreplace`) -/

/-- The modulus of `size_t` arithmetic. -/
def SIZE_MOD : Nat := 2 ^ 64

/-- Addition of two `size_t`. -/
def size_add (a b : Nat) : Nat := (a + b) % SIZE_MOD

/-- Subtraction of two `size_t`, wrapping around below zero. -/
def size_sub (a b : Nat) : Nat := (a % SIZE_MOD + (SIZE_MOD - b % SIZE_MOD)) % SIZE_MOD

/-- Multiplication of two `size_t`. -/
def size_mul (a b : Nat) : Nat := (a * b) % SIZE_MOD

/-- C `strstr (hay, needle)`: the offset in `hay` of the first occurrence of
`needle`, `none` for a NULL result. -/
def strstr : Str → Str → Option Nat
  | [], needle => if needle.isPrefixOf [] then some 0 else none
  | c :: cs, needle =>
    if needle.isPrefixOf (c :: cs) then some 0 else (strstr cs needle).map (· + 1)

/-- First loop of `strreplace`: starting with `p` at offset `p` of `str`, collect the
offsets `q` of the occurrences of `needle`, moving `p` to `q + needlesz` after each.
One unit of fuel is one evaluation of the loop condition; `none` when the fuel
runs out before the loop ends. -/
def strreplace_scan : Nat → Str → Str → Nat → Option (List Nat)
  | 0, _, _, _ => none
  | fuel + 1, str, needle, p =>
    match strstr (str.drop p) needle with
    | none => some []
    | some k =>
      (strreplace_scan fuel str needle (p + k + needle.length)).map ((p + k) :: ·)

/-- A `memcpy`/`strcpy` of `src` at the write cursor of a zero-filled buffer of `newsz`
bytes of which `newp` have been written: `none` when the copy would pass the end
of the buffer. -/
def buf_write (newsz : Nat) (newp src : Str) : Option Str :=
  if newp.length + src.length ≤ newsz then some (newp ++ src) else none

/-- Second loop of `strreplace` (`FOR_LIST (i, list)`): for each occurrence `q`, copy
the characters between `p` and `q`, then `replace`, and move `p` past the needle.
Returns the final `p` and the bytes written. -/
def strreplace_fill (newsz : Nat) (str replace : Str) (needlesz : Nat) :
    List Nat → Nat → Str → Option (Nat × Str)
  | [], p, newp => some (p, newp)
  | q :: rest, p, newp =>
    match (if q > p then buf_write newsz newp ((str.drop p).take (q - p)) else some newp) with
    | none => none
    | some newp1 =>
      match buf_write newsz newp1 replace with
      | none => none
      | some newp2 => strreplace_fill newsz str replace needlesz rest (q + needlesz) newp2

/-- The size `strreplace` allocates:
`strlen (str) + 1 + alpm_list_count (list) * (replacesz - needlesz)` in `size_t`. -/
def strreplace_newsz (str needle replace : Str) (count : Nat) : Nat :=
  size_add (size_add str.length 1) (size_mul count (size_sub replace.length needle.length))

/-- `strreplace (str, needle, replace)` for a non-NULL `str`, with `fuel` evaluations
of the condition of the occurrence loop. `none`: the loop did not end within the
fuel, or a write passed the end of the allocated buffer, or the buffer was left
without a terminating NUL. -/
def strreplace_fuel (fuel : Nat) (str needle replace : Str) : Option Str :=
  match strreplace_scan fuel str needle 0 with
  | none => none
  | some [] => some str
  | some (q :: rest) =>
    let newsz := strreplace_newsz str needle replace (q :: rest).length
    match strreplace_fill newsz str replace needle.length (q :: rest) 0 [] with
    | none => none
    | some (p, newp) =>
      if str.drop p ≠ [] then
        -- strcpy (newp, p): the rest of the string and its NUL
        if newp.length + (str.drop p).length + 1 ≤ newsz then some (newp ++ str.drop p) else none
      else
        -- the NUL after the last byte written comes from the zero fill
        if newp.length < newsz then some newp else none

/-- `strreplace` with the fuel that any terminating run needs: the loop condition is
evaluated at most `strlen (str) + 1` times when `needle` is not empty. -/
def strreplace (str needle replace : Str) : Option Str :=
  strreplace_fuel (str.length + 1) str needle replace

/-- Reference substitution: scanning `str` from left to right, each occurrence of
`needle` becomes `replace` and the scan resumes after it (`skip` characters of
the occurrence are still to be passed over); any other character is kept. -/
def substFrom (needle replace : Str) : Nat → Str → Str
  | _, [] => []
  | skip + 1, _ :: cs => substFrom needle replace skip cs
  | 0, c :: cs =>
    if needle.isPrefixOf (c :: cs) then
      replace ++ substFrom needle replace (needle.length - 1) cs
    else c :: substFrom needle replace 0 cs

/-- The string `str` with every occurrence of `needle` replaced by `replace`. -/
def replaceEvery (str needle replace : Str) : Str := substFrom needle replace 0 str

/-! ## Messages -/

/-- The message catalogue lookup written `_ (msgid)` in the source; no catalogue is
loaded in the model, so a message is its own translation. -/
def gettext (msgid : Str) : Str := msgid

/-- The part of `printf` formatting the broker uses: each `%s` takes the next
argument; a directive without a string argument is left as written. -/
def sprintf : Str → List Str → Str
  | [], _ => []
  | [c], _ => [c]
  | c :: d :: rest, args =>
    if c = '%' ∧ d = 's' then
      match args with
      | a :: more => a ++ sprintf rest more
      | [] => c :: sprintf (d :: rest) []
    else c :: sprintf (d :: rest) args

/-- How `printf` shows a string argument that may be NULL. -/
def show_nullable : Option Str → Str
  | some s => s
  | none => "(null)".toList

/-! ## Data model -/

/-- The fields of `alpm_depend_t` the broker reads. -/
structure Depend where
  name : Str
  version : Option Str
  desc : Option Str
  mod : Int
  deriving DecidableEq, Repr

/-- What the broker reads of an `alpm_pkg_t`: `alpm_pkg_get_name`,
`alpm_pkg_get_version` and `alpm_db_get_name (alpm_pkg_get_db (pkg))`. -/
structure Pkg where
  name : Str
  version : Str
  db : Str
  deriving DecidableEq, Repr

/-- The fields of `alpm_pgpkey_t` the broker reads. -/
structure PgpKey where
  fingerprint : Str
  uid : Str
  created : Int
  deriving DecidableEq, Repr

/-- Library functions whose result is computed outside the broker. -/
structure Ext where
  /-- Result of `alpm_dep_compute_string`. -/
  dep_compute_string : Depend → Str
  /-- Result of `alpm_strerror`. -/
  strerror : Int → Str
  /-- Result of `strftime (created, 12, "%Y-%m-%d", localtime (&t))`. -/
  strftime_ymd : Int → Str

/-- One entry of the array of `GetPackagesFinished`, a `(ssssuuu)` tuple: name,
description, old version, new version, download size, old installed size, new
installed size. -/
structure PkgRow where
  name : Str
  desc : Str
  old_version : Str
  new_version : Str
  dl_size : Nat
  old_size : Nat
  new_size : Nat
  deriving DecidableEq, Repr

/-- A value carried by a signal. -/
inductive Arg where
  | s (v : Str)
  | i (v : Int)
  | as (v : List Str)
  | aas (v : List (List Str))
  | u (v : Nat)
  | pkgs (v : List PkgRow)
  deriving DecidableEq, Repr

/-- One `g_dbus_connection_emit_signal`: destination bus name (`client` at the time
of the call, NULL for a broadcast), signal name and arguments. -/
structure Signal where
  dest : Option Str
  name : Str
  args : List Arg
  deriving DecidableEq, Repr

/-- A sync database of the engine handle: name, signature level and the servers
added to it with `alpm_db_add_server`, in order. -/
structure SyncDb where
  name : Str
  siglevel : Int
  servers : List Str
  deriving DecidableEq, Repr

/-- The calls into libalpm that the model keeps a record of. -/
inductive AlpmCall where
  | logaction (text : Str)
  | db_update (name : Str)
  | trans_init
  | sync_sysupgrade
  | trans_prepare
  | trans_commit
  | trans_release
  | release
  deriving DecidableEq, Repr

/-- The globals of the broker and what the model observes of its surroundings. -/
structure World where
  /-- Global `is_init`. -/
  is_init : Bool
  /-- Global `client`, NULL until a session is authorized. -/
  client : Option Str
  /-- Global `choice`. -/
  choice : Int
  /-- Result of `alpm_option_get_arch (handle)`, NULL when no architecture is set. -/
  arch : Option Str
  /-- The sync databases registered in the engine handle. -/
  syncdbs : List SyncDb
  /-- The bus names for which the polkit authority has been consulted. -/
  auth_checks : List Str
  /-- Whether `g_main_loop_quit (loop)` has been called. -/
  quit : Bool
  /-- Signals emitted so far, oldest first. -/
  out : List Signal
  /-- Whether the global `handle` is not NULL. -/
  handle : Bool
  /-- Whether the engine handle holds a transaction: one has been opened by an
  `alpm_trans_init` that did not return `-1` and no `alpm_trans_release` has
  followed. -/
  trans : Bool
  /-- The recorded calls into libalpm, oldest first. -/
  calls : List AlpmCall
  deriving DecidableEq, Repr

def CHOICE_FREE : Int := -1

def CHOICE_WAITING : Int := -2

/-- Macro `emit_signal (name, fmt, ...)`. -/
def emit_signal (w : World) (name : Str) (args : List Arg) : World :=
  { w with out := w.out ++ [⟨w.client, name, args⟩] }

/-- Macro `debug (...)`: a `Debug` signal with the text. Directives whose arguments
are addresses or enumeration codes are not expanded by the model. -/
def debug (w : World) (text : Str) : World :=
  emit_signal w "Debug".toList [Arg.s text]

/-- `method_failed (name, fmt, ...)`: a `MethodFailed (name, message)` signal; a message
of 1024 bytes or more is rendered in a larger buffer, so it is never cut. -/
def method_failed (w : World) (name : Str) (message : Str) : World :=
  emit_signal w "MethodFailed".toList [Arg.s name, Arg.s message]

/-- Macro `method_finished (name)`. -/
def method_finished (w : World) (name : Str) : World :=
  emit_signal w "MethodFinished".toList [Arg.s name]

/-! ## Decision bridge (`question_cb`, `answer`) -/

/-- The questions libalpm asks, with the data the callback reads from
`data1`, `data2`, `data3`. -/
inductive Question where
  | install_ignorepkg (pkg : Pkg)
  | replace_pkg (data1 data2 : Pkg) (data3 : Str)
  | conflict_pkg (data1 data2 data3 : Str)
  | remove_pkgs (data1 : List Pkg)
  | select_provider (data1 : List Pkg) (data2 : Depend)
  | corrupted_pkg (data1 : Str) (data2 : Int)
  | import_key (key : PgpKey)
  | unknown
  deriving DecidableEq, Repr

/-- The `FOR_LIST` loop of `ALPM_QUESTION_REMOVE_PKGS`, adding each name to `builder`. -/
def remove_pkgs_builder : List Pkg → List Str → List Str
  | [], builder => builder
  | p :: rest, builder => remove_pkgs_builder rest (builder ++ [p.name])

/-- The `FOR_LIST` loop of `ALPM_QUESTION_SELECT_PROVIDER`: for each candidate a
`builder2` of repo, pkg, version is added to `builder`. -/
def select_provider_builder : List Pkg → List (List Str) → List (List Str)
  | [], builder => builder
  | p :: rest, builder =>
    let builder2 : List Str := (([] ++ [p.db]) ++ [p.name]) ++ [p.version]
    select_provider_builder rest (builder ++ [builder2])

/-- The `switch (event)` of `question_cb`: the prompt signal of a recognised question,
`none` for the `default:` case. -/
def question_prompt (X : Ext) (w : World) : Question → Option World
  | .install_ignorepkg pkg =>
    some (emit_signal w "AskInstallIgnorePkg".toList [Arg.s pkg.name])
  | .replace_pkg data1 data2 data3 =>
    some (emit_signal w "AskReplacePkg".toList
      [Arg.s data1.db, Arg.s data1.name, Arg.s data3, Arg.s data2.name])
  | .conflict_pkg data1 data2 data3 =>
    let reason : Str := if data3 = data1 ∨ data3 = data2 then [] else data3
    some (emit_signal w "AskConflictPkg".toList [Arg.s data1, Arg.s data2, Arg.s reason])
  | .remove_pkgs data1 =>
    some (emit_signal w "AskRemovePkgs".toList [Arg.as (remove_pkgs_builder data1 [])])
  | .select_provider data1 data2 =>
    let pkg := X.dep_compute_string data2
    some (emit_signal w "AskSelectProvider".toList
      [Arg.s pkg, Arg.aas (select_provider_builder data1 [])])
  | .corrupted_pkg data1 data2 =>
    some (emit_signal w "AskCorruptedPkg".toList [Arg.s data1, Arg.s (X.strerror data2)])
  | .import_key key =>
    some (emit_signal w "AskImportKey".toList
      [Arg.s key.fingerprint, Arg.s key.uid, Arg.s (X.strftime_ymd key.created)])
  | .unknown => none

/-- The loop `while (choice == CHOICE_WAITING) g_main_context_iteration (NULL, TRUE);`.
Each element of the list is the effect on the globals of one iteration of the
main context, in the order they happen; `none` when the list is used up while
the question is still waiting (the call stays blocked). -/
def question_wait : List (World → World) → World → Option World
  | [], w => if w.choice = CHOICE_WAITING then none else some w
  | f :: rest, w => if w.choice = CHOICE_WAITING then question_wait rest (f w) else some w

/-- `question_cb (event, data1, data2, data3, response)`. The `Int` argument is the
value `*response` holds on entry, the `Int` of the result its value on return. -/
def question_cb (X : Ext) (iters : List (World → World)) (w : World) (event : Question)
    (response : Int) : Option (World × Int) :=
  let w0 := debug w "question %d (%p -- %p -- %p)\n".toList
  if w0.choice ≠ CHOICE_FREE then
    some (debug w0 "Received question (%d) while already busy".toList, response)
  else
    let w1 := { w0 with choice := CHOICE_WAITING }
    match question_prompt X w1 event with
    | none =>
      some (debug { w1 with choice := CHOICE_FREE }
        "Received unknown question-event: %d".toList, response)
    | some w2 =>
      match question_wait iters w2 with
      | none => none
      | some w3 => some ({ w3 with choice := CHOICE_FREE }, w3.choice)

/-- Handler `answer`, with the `response` of its `(i)` parameter. -/
def answer (w : World) (response : Int) : World :=
  if w.choice ≠ CHOICE_WAITING then
    method_failed w "Answer".toList
      (sprintf (gettext "Invalid call to Answer, no Question pending.\n".toList) [])
  else
    let w1 :=
      if response ≥ 0 then { w with choice := response }
      else { debug w "Invalid answer, defaulting to no (0)".toList with choice := 0 }
    method_finished w1 "Answer".toList

/-! ## Session gate (`init`) -/

/-- What `polkit_authority_check_authorization_sync` answers: a NULL result with an
error message, or a result that is authorized or not. -/
inductive Verdict where
  | error (message : Str)
  | denied
  | granted
  deriving DecidableEq, Repr

/-- Handler `init`, with the `sender` of its `(s)` parameter and the authority. -/
def init (authority : Str → Verdict) (w : World) (sender : Str) : World :=
  if w.is_init then
    method_failed w "Init".toList (sprintf (gettext "Session already initialized\n".toList) [])
  else
    let w1 := { w with auth_checks := w.auth_checks ++ [sender] }
    match authority sender with
    | .error message =>
      { method_failed w1 "Init".toList (sprintf message []) with quit := true }
    | .denied =>
      { method_failed w1 "Init".toList
          (sprintf (gettext "Authorization from PolicyKit failed\n".toList) []) with quit := true }
    | .granted =>
      let w2 := { w1 with is_init := true, client := some sender }
      method_finished (debug w2 (sprintf "client is %s".toList [show_nullable w2.client]))
        "Init".toList

/-! ## Engine adapter (`add_db`) -/

/-- The answers of the engine to the calls `add_db` makes. -/
structure AddDbEngine where
  /-- Whether `alpm_register_syncdb` returned a database (not NULL). -/
  register_ok : Bool
  /-- Return value of `alpm_db_add_server (db, server)`, given the servers the
  database already has. -/
  add_server : List Str → Str → Int
  /-- Return value of `alpm_db_get_valid (db)`. -/
  get_valid : Int
  /-- Result of `alpm_strerror (alpm_errno (handle))`. -/
  strerror : Str

/-- How the server loop of `add_db` ended: it ran to the end, or left the handler
with a `method_failed` message. -/
inductive ServersEnd where
  | done
  | failed (message : Str)
  deriving DecidableEq, Repr

/-- The loop `FOR_LIST (i, servers)` of `add_db`. The third argument lists the servers
added to `db` so far; the result gives them with the globals and the way the
loop ended. `none` when a `strreplace` has no result. -/
def add_db_servers (E : AddDbEngine) (name : Str) (arch : Option Str) :
    List Str → World → List Str → Option (World × List Str × ServersEnd)
  | [], w, added => some (w, added, ServersEnd.done)
  | value :: rest, w, added =>
    match strreplace value "$repo".toList name with
    | none => none
    | some temp =>
      let server? : Option (Option Str) :=
        match arch with
        | some a => (strreplace temp "$arch".toList a).map some
        | none => if (strstr temp "$arch".toList).isSome then some none else some (some temp)
      match server? with
      | none => none
      | some none =>
        some (w, added, ServersEnd.failed (sprintf (gettext
          "Server %s contains the $arch variable, but no Architecture was defined.\n".toList)
          [value]))
      | some (some server) =>
        let w1 := debug w (sprintf "add server %s into %s".toList [server, name])
        if E.add_server added server ≠ 0 then
          some (w1, added, ServersEnd.failed (sprintf (gettext
            "Could not add server %s to database %s: %s\n".toList) [server, name, E.strerror]))
        else add_db_servers E name arch rest w1 (added ++ [server])

/-- Handler `add_db`, with the `name`, `siglevel` and `servers` of its `(sias)`
parameter. `none` when a `strreplace` has no result. -/
def add_db (E : AddDbEngine) (w : World) (name : Str) (siglevel : Int) (servers : List Str) :
    Option World :=
  if E.register_ok = false then
    some (method_failed w "AddDb".toList (sprintf (gettext
      "Could not register database %s: %s\n".toList) [name, E.strerror]))
  else
    match add_db_servers E name w.arch servers w [] with
    | none => none
    | some (w1, added, ending) =>
      -- the database registered at the start holds the servers added by the loop
      let w2 := { w1 with syncdbs := w1.syncdbs ++ [⟨name, siglevel, added⟩] }
      match ending with
      | ServersEnd.failed message => some (method_failed w2 "AddDb".toList message)
      | ServersEnd.done =>
        if E.get_valid ≠ 0 then
          some (method_failed w2 "AddDb".toList (sprintf (gettext
            "Database %s is not valid: %s\n".toList) [name, E.strerror]))
        else some (method_finished w2 "AddDb".toList)

/-! ## Request dispatcher (`handle_method_call`) -/

/-- The handlers `handle_method_call` can schedule with `g_timeout_add`. -/
inductive Handler where
  | init | init_alpm | free_alpm | add_db | sync_dbs | answer
  | get_packages | sysupgrade | no_sysupgrade
  deriving DecidableEq, Repr

/-- The `parameters` of a method call: the tuples of the methods modelled here, any
other tuple being kept as `other`. -/
inductive GVariant where
  | unit
  | s (v : Str)
  | i (v : Int)
  | sias (name : Str) (siglevel : Int) (servers : List Str)
  | other
  deriving DecidableEq, Repr

/-- What the caller gets back from `handle_method_call`:
`g_dbus_method_invocation_return_value (invocation, NULL)` or a D-Bus error. -/
inductive Reply where
  | value
  | error (name : Str) (message : Str)
  deriving DecidableEq, Repr

/-- Result of one `handle_method_call`. -/
structure Dispatch where
  world : World
  /-- The handler registered with `g_timeout_add`, with its parameters. -/
  scheduled : Option (Handler × GVariant)
  reply : Reply
  deriving DecidableEq, Repr

/-- Macro `send_error (error, ...)`: the message goes through `snprintf (buffer, 255, ...)`. -/
def send_error (w : World) (error : Str) (message : Str) : Dispatch :=
  ⟨w, none, Reply.error ("org.jjk.kalu.".toList ++ error) (message.take 254)⟩

/-- Macro `if_method (name, func)`, as the dispatch it performs when the name matches. -/
def if_method (method_name : Str) (name : Str) (func : Handler) (w : World)
    (parameters : GVariant) (otherwise : Dispatch) : Dispatch :=
  if method_name = name then ⟨w, some (func, parameters), Reply.value⟩ else otherwise

/-- `handle_method_call`, for a call of `method_name` by bus name `sender`. -/
def handle_method_call (w : World) (sender : Str) (method_name : Str) (parameters : GVariant) :
    Dispatch :=
  let w0 := debug w (sprintf "sender=%s -- client=%s -- method=%s".toList
    [sender, show_nullable w.client, method_name])
  if method_name = "Init".toList then
    ⟨w0, some (Handler.init, GVariant.s sender), Reply.value⟩
  else if w0.is_init = false then
    send_error w0 "NoInitError".toList (sprintf (gettext "Session not initialized\n".toList) [])
  else if some sender ≠ w0.client then
    send_error w0 "InvalidInitError".toList
      (sprintf (gettext "Session initialized for another client\n".toList) [])
  else
    if_method method_name "InitAlpm".toList Handler.init_alpm w0 parameters <|
    if_method method_name "FreeAlpm".toList Handler.free_alpm w0 parameters <|
    if_method method_name "AddDb".toList Handler.add_db w0 parameters <|
    if_method method_name "SyncDbs".toList Handler.sync_dbs w0 parameters <|
    if_method method_name "Answer".toList Handler.answer w0 parameters <|
    if_method method_name "GetPackages".toList Handler.get_packages w0 parameters <|
    if_method method_name "SysUpgrade".toList Handler.sysupgrade w0 parameters <|
    if_method method_name "NoSysUpgrade".toList Handler.no_sysupgrade w0 parameters <|
    send_error w0 "UnknownMethod".toList
      (sprintf (gettext "Unknown method: %s\n".toList) [method_name])

/-- Sample externals for concrete runs. -/
def sampleExt : Ext :=
  ⟨fun d => d.name, fun _ => "error".toList, fun _ => "2013-01-01".toList⟩

/-- A world in which no session has been authorized yet. -/
def freshWorld : World :=
  ⟨false, none, CHOICE_FREE, none, [], [], false, [], false, false, []⟩

/-- A world whose session is locked to the bus name `:1.7`. -/
def lockedWorld : World :=
  { freshWorld with is_init := true, client := some ":1.7".toList }

/-- An engine that accepts every database and server. -/
def acceptingEngine : AddDbEngine :=
  ⟨true, fun _ _ => 0, 0, "error".toList⟩

/-! ## Observations on a run -/

/-- The signals emitted between two states of the globals. -/
def emitted (before after : World) : List Signal := after.out.drop before.out.length

/-- The `MethodFailed` signals among `sigs`. -/
def failures (sigs : List Signal) : List Signal :=
  sigs.filter (fun sig => sig.name = "MethodFailed".toList)

/-- The `MethodFinished` signals among `sigs`. -/
def completions (sigs : List Signal) : List Signal :=
  sigs.filter (fun sig => sig.name = "MethodFinished".toList)

/-- The prompts (signals whose name starts with `Ask`) among `sigs`. -/
def prompts (sigs : List Signal) : List Signal :=
  sigs.filter (fun sig => "Ask".toList.isPrefixOf sig.name)

/-- The triple a provider candidate contributes to `AskSelectProvider`. -/
def provider_triple (p : Pkg) : List Str := [p.db, p.name, p.version]

/-! ## Reference description of a substitution -/

/-- The pieces `gaps` each followed by `sep`, then `last`:
`g₁ ++ sep ++ g₂ ++ sep ++ … ++ last`. -/
def joinWith (sep : Str) : List Str → Str → Str
  | [], last => last
  | g :: gaps, last => g ++ sep ++ joinWith sep gaps last

/-! ## Declarations from headers outside the sources at hand -/

/-- The members of `event_t` (`updater-dbus.h`) the broker sends. -/
inductive event_t where
  | EVENT_INSTALLING | EVENT_REINSTALLING | EVENT_UPGRADING | EVENT_DOWNGRADING
  | EVENT_REMOVING | EVENT_FILE_CONFLICTS | EVENT_CHECKING_DISKSPACE | EVENT_PKG_INTEGRITY
  | EVENT_LOAD_PKGFILES | EVENT_KEYRING | EVENT_RETRIEVING_PKGS | EVENT_CHECKING_DEPS
  | EVENT_RESOLVING_DEPS | EVENT_INTERCONFLICTS | EVENT_KEY_DOWNLOAD | EVENT_DELTA_INTEGRITY
  | EVENT_DELTA_PATCHES | EVENT_DELTA_PATCH_DONE | EVENT_DELTA_PATCH_FAILED
  deriving DecidableEq, Repr

/-- The members of `sync_db_results_t` (`updater-dbus.h`). -/
inductive sync_db_results_t where
  | SYNC_SUCCESS | SYNC_NOT_NEEDED | SYNC_FAILURE
  deriving DecidableEq, Repr

/-- Values fixed by headers that are not among the sources (`updater-dbus.h`,
`alpm.h`) and the list helper of libalpm the broker calls. -/
structure Alpm where
  /-- Integer value of a member of `event_t`. -/
  event_code : event_t → Int
  /-- Integer value of a member of `sync_db_results_t`. -/
  sync_code : sync_db_results_t → Int
  /-- Bit `ALPM_LOG_DEBUG` of a log level. -/
  ALPM_LOG_DEBUG : Nat
  /-- Bit `ALPM_LOG_FUNCTION` of a log level. -/
  ALPM_LOG_FUNCTION : Nat
  /-- Value `ALPM_DEP_MOD_ANY` of `alpm_depmod_t`. -/
  ALPM_DEP_MOD_ANY : Int
  /-- Result of `alpm_list_diff (lhs, rhs, fn)`, called as `list_diff fn lhs rhs`. -/
  list_diff : (Depend → Depend → Int) → List Depend → List Depend → List Depend

/-! ## Event relay (`event_cb`, `progress_cb`, `dl_total_cb`, `dl_progress_cb`, `log_cb`) -/

/-- C `strcmp`; C fixes only the sign of a non-zero result, the model returns `-1`
or `1`. -/
def strcmp : Str → Str → Int
  | [], [] => 0
  | [], _ :: _ => -1
  | _ :: _, [] => 1
  | a :: as, b :: bs =>
    if a = b then strcmp as bs else if a.toNat < b.toNat then -1 else 1

/-- `depend_cmp (dep1, dep2)`. -/
def depend_cmp (dep1 dep2 : Depend) : Int :=
  let ret := strcmp dep1.name dep2.name
  let ret := if ret = 0 then dep1.mod - dep2.mod else ret
  let ret :=
    if ret = 0 then
      match dep1.version, dep2.version with
      | some v1, some v2 => strcmp v1 v2
      | none, some _ => -1
      | some _, none => 1
      | none, none => ret
    else ret
  let ret :=
    if ret = 0 then
      match dep1.desc, dep2.desc with
      | some d1, some d2 => strcmp d1 d2
      | none, some _ => -1
      | some _, none => 1
      | none, none => ret
    else ret
  ret

/-- What `make_optstring` asks the engine: the names of the packages of the local
database and of the packages the transaction adds. -/
structure PkgSets where
  localdb : List Str
  trans_add : List Str
  deriving DecidableEq, Repr

/-- `make_optstring (optdep)`. -/
def make_optstring (X : Ext) (V : PkgSets) (optdep : Depend) : Str :=
  let optstring := X.dep_compute_string optdep
  let status : Option Str :=
    if optdep.name ∈ V.localdb then some (gettext " [installed]".toList)
    else if optdep.name ∈ V.trans_add then some (gettext " [pending]".toList)
    else none
  match status with
  | some st => optstring ++ st
  | none => optstring

/-- The `FOR_LIST` loops of `event_cb` that add `make_optstring` of each optional
dependency to `builder`. -/
def optdeps_builder (X : Ext) (V : PkgSets) : List Depend → List Str → List Str
  | [], builder => builder
  | d :: rest, builder => optdeps_builder X V rest (builder ++ [make_optstring X V d])

/-- What `event_cb` reads of an `alpm_pkg_t`: name, version and optional
dependencies. -/
structure EventPkg where
  name : Str
  version : Str
  optdepends : List Depend
  deriving DecidableEq, Repr

/-- The events of `alpm_event_t` with the data `event_cb` reads from `data1` and
`data2`; `other` stands for every event it ignores. -/
inductive AlpmEvent where
  | ADD_DONE (data1 : EventPkg)
  | REINSTALL_DONE (data1 : EventPkg)
  | REMOVE_DONE (data1 : EventPkg)
  | UPGRADE_DONE (data1 data2 : EventPkg)
  | DOWNGRADE_DONE (data1 data2 : EventPkg)
  | OPTDEP_REQUIRED (data1 : EventPkg) (data2 : Depend)
  | RETRIEVE_START
  | CHECKDEPS_START
  | RESOLVEDEPS_START
  | INTERCONFLICTS_START
  | SCRIPTLET_INFO (data1 : Str)
  | KEY_DOWNLOAD_START
  | DELTA_INTEGRITY_START
  | DELTA_PATCHES_START
  | DELTA_PATCH_START (data1 data2 : Str)
  | DELTA_PATCH_DONE
  | DELTA_PATCH_FAILED
  | other
  deriving DecidableEq, Repr

/-- `alpm_logaction (handle, PREFIX, fmt, ...)`, recorded with its rendered text. -/
def alpm_logaction (w : World) (text : Str) : World :=
  { w with calls := w.calls ++ [AlpmCall.logaction text] }

/-- `event_cb (event, data1, data2)`. -/
def event_cb (X : Ext) (K : Alpm) (V : PkgSets) (w : World) : AlpmEvent → World
  | .ADD_DONE data1 =>
    let w1 := alpm_logaction w (sprintf "installed %s (%s)\n".toList [data1.name, data1.version])
    emit_signal w1 "EventInstalled".toList
      [Arg.s data1.name, Arg.s data1.version, Arg.as (optdeps_builder X V data1.optdepends [])]
  | .REINSTALL_DONE data1 =>
    let w1 := alpm_logaction w
      (sprintf "reinstalled %s (%s)\n".toList [data1.name, data1.version])
    emit_signal w1 "EventReinstalled".toList [Arg.s data1.name, Arg.s data1.version]
  | .REMOVE_DONE data1 =>
    let w1 := alpm_logaction w (sprintf "removed %s (%s)\n".toList [data1.name, data1.version])
    emit_signal w1 "EventRemoved".toList [Arg.s data1.name, Arg.s data1.version]
  | .UPGRADE_DONE data1 data2 =>
    let w1 := alpm_logaction w
      (sprintf "upgraded %s (%s -> %s)\n".toList [data1.name, data2.version, data1.version])
    let old := data2.optdepends
    let new := data1.optdepends
    let optdeps := K.list_diff depend_cmp new old
    emit_signal w1 "EventUpgraded".toList
      [Arg.s data1.name, Arg.s data2.version, Arg.s data1.version,
       Arg.as (optdeps_builder X V optdeps [])]
  | .DOWNGRADE_DONE data1 data2 =>
    let w1 := alpm_logaction w
      (sprintf "downgraded %s (%s -> %s)\n".toList [data1.name, data2.version, data1.version])
    let old := data2.optdepends
    let new := data1.optdepends
    let optdeps := K.list_diff depend_cmp new old
    emit_signal w1 "EventDowngraded".toList
      [Arg.s data1.name, Arg.s data2.version, Arg.s data1.version,
       Arg.as (optdeps_builder X V optdeps [])]
  | .OPTDEP_REQUIRED data1 data2 =>
    emit_signal w "EventOptdepRequired".toList
      [Arg.s data1.name, Arg.s (X.dep_compute_string data2)]
  | .RETRIEVE_START =>
    emit_signal w "Event".toList [Arg.i (K.event_code event_t.EVENT_RETRIEVING_PKGS)]
  | .CHECKDEPS_START =>
    emit_signal w "Event".toList [Arg.i (K.event_code event_t.EVENT_CHECKING_DEPS)]
  | .RESOLVEDEPS_START =>
    emit_signal w "Event".toList [Arg.i (K.event_code event_t.EVENT_RESOLVING_DEPS)]
  | .INTERCONFLICTS_START =>
    emit_signal w "Event".toList [Arg.i (K.event_code event_t.EVENT_INTERCONFLICTS)]
  | .SCRIPTLET_INFO data1 => emit_signal w "EventScriptlet".toList [Arg.s data1]
  | .KEY_DOWNLOAD_START =>
    emit_signal w "Event".toList [Arg.i (K.event_code event_t.EVENT_KEY_DOWNLOAD)]
  | .DELTA_INTEGRITY_START =>
    emit_signal w "Event".toList [Arg.i (K.event_code event_t.EVENT_DELTA_INTEGRITY)]
  | .DELTA_PATCHES_START =>
    emit_signal w "Event".toList [Arg.i (K.event_code event_t.EVENT_DELTA_PATCHES)]
  | .DELTA_PATCH_START data1 data2 =>
    emit_signal w "EventDeltaGenerating".toList [Arg.s data2, Arg.s data1]
  | .DELTA_PATCH_DONE =>
    emit_signal w "Event".toList [Arg.i (K.event_code event_t.EVENT_DELTA_PATCH_DONE)]
  | .DELTA_PATCH_FAILED =>
    emit_signal w "Event".toList [Arg.i (K.event_code event_t.EVENT_DELTA_PATCH_FAILED)]
  | .other => w

/-- The cast `(guint)` of an `off_t` or `size_t` value. -/
def to_guint (v : Int) : Nat := (v % 2 ^ 32).toNat

/-- The progress kinds of `alpm_progress_t` that `progress_cb` tells apart. -/
inductive alpm_progress_t where
  | ADD_START | REINSTALL_START | UPGRADE_START | DOWNGRADE_START | REMOVE_START
  | CONFLICTS_START | DISKSPACE_START | INTEGRITY_START | LOAD_START | KEYRING_START
  | other
  deriving DecidableEq, Repr

/-- `progress_cb (_event, _pkgname, percent, _howmany, _current)`. -/
def progress_cb (K : Alpm) (w : World) (_event : alpm_progress_t) (_pkgname : Option Str)
    (percent : Int) (_howmany _current : Nat) : World :=
  let howmany := to_guint _howmany
  let current := to_guint _current
  let event? : Option event_t :=
    match _event with
    | .ADD_START => some event_t.EVENT_INSTALLING
    | .REINSTALL_START => some event_t.EVENT_REINSTALLING
    | .UPGRADE_START => some event_t.EVENT_UPGRADING
    | .DOWNGRADE_START => some event_t.EVENT_DOWNGRADING
    | .REMOVE_START => some event_t.EVENT_REMOVING
    | .CONFLICTS_START => some event_t.EVENT_FILE_CONFLICTS
    | .DISKSPACE_START => some event_t.EVENT_CHECKING_DISKSPACE
    | .INTEGRITY_START => some event_t.EVENT_PKG_INTEGRITY
    | .LOAD_START => some event_t.EVENT_LOAD_PKGFILES
    | .KEYRING_START => some event_t.EVENT_KEYRING
    | .other => none
  match event? with
  | none => w
  | some event =>
    let pkgname : Str := match _pkgname with
      | some p => p
      | none => []
    emit_signal w "Progress".toList
      [Arg.i (K.event_code event), Arg.s pkgname, Arg.i percent, Arg.u howmany, Arg.u current]

/-- `dl_total_cb (_total)`. -/
def dl_total_cb (w : World) (_total : Int) : World :=
  emit_signal w "TotalDownload".toList [Arg.u (to_guint _total)]

/-- `dl_progress_cb (filename, _xfered, _total)`. -/
def dl_progress_cb (w : World) (filename : Str) (_xfered _total : Int) : World :=
  emit_signal w "Downloading".toList
    [Arg.s filename, Arg.u (to_guint _xfered), Arg.u (to_guint _total)]

/-- `log_cb (level, fmt, args)`; `text` is what `g_strdup_vprintf (fmt, args)` renders. -/
def log_cb (K : Alpm) (w : World) (level : Nat) (fmt : Option Str) (text : Str) : World :=
  match fmt with
  | none => w
  | some f =>
    if f = [] then w
    else if level &&& K.ALPM_LOG_DEBUG ≠ 0 ∨ level &&& K.ALPM_LOG_FUNCTION ≠ 0 then w
    else emit_signal w "Log".toList [Arg.i level, Arg.s text]

/-- One call by the engine of a callback that returns without waiting (every
callback set in `init_alpm` but `question_cb`). -/
inductive Relay where
  | event (event : AlpmEvent)
  | progress (_event : alpm_progress_t) (_pkgname : Option Str) (percent : Int)
      (_howmany _current : Nat)
  | dl_total (_total : Int)
  | dl_progress (filename : Str) (_xfered _total : Int)
  | log (level : Nat) (fmt : Option Str) (text : Str)
  deriving DecidableEq, Repr

/-- The effect of one callback call. -/
def run_relay (X : Ext) (K : Alpm) (V : PkgSets) (w : World) : Relay → World
  | .event event => event_cb X K V w event
  | .progress e p pc h c => progress_cb K w e p pc h c
  | .dl_total t => dl_total_cb w t
  | .dl_progress f x t => dl_progress_cb w f x t
  | .log l f t => log_cb K w l f t

/-- The effect of the callback calls made during one call into the engine. -/
def run_relays (X : Ext) (K : Alpm) (V : PkgSets) (w : World) (calls : List Relay) : World :=
  calls.foldl (run_relay X K V) w

/-- A long-running call into the engine: its return value and the callbacks it
calls before it returns. A question asked during the call suspends it in
`question_cb`; what other handlers do meanwhile is part of their own runs and is
not included. -/
structure EngineCall where
  ret : Int
  callbacks : List Relay
  deriving DecidableEq, Repr

/-- The model keeps a record of the call `call` and runs the callbacks of `c`. -/
def engine_call (X : Ext) (K : Alpm) (V : PkgSets) (w : World) (call : AlpmCall)
    (c : EngineCall) : World :=
  run_relays X K V { w with calls := w.calls ++ [call] } c.callbacks

/-- `alpm_trans_release (handle)`: the handle holds no transaction afterwards. -/
def alpm_trans_release (w : World) : World :=
  { w with trans := false, calls := w.calls ++ [AlpmCall.trans_release] }

/-! ## Engine adapter (`sync_dbs`) -/

/-- The answers of the engine to the calls `sync_dbs` makes. -/
structure SyncEngine where
  /-- The call `alpm_db_update (0, db)` for each database. -/
  db_update : SyncDb → EngineCall
  /-- Result of `alpm_strerror (alpm_errno (handle))`. -/
  strerror : Str

/-- The body of the loop `FOR_LIST (i, syncdbs)` of `sync_dbs`, for the database `db`. -/
def sync_dbs_step (X : Ext) (K : Alpm) (V : PkgSets) (E : SyncEngine) (w : World)
    (db : SyncDb) : World :=
  let w1 := emit_signal w "SyncDbStart".toList [Arg.s db.name]
  let w2 := engine_call X K V w1 (AlpmCall.db_update db.name) (E.db_update db)
  let ret := (E.db_update db).ret
  let step : sync_db_results_t × World :=
    if ret < 0 then
      (sync_db_results_t.SYNC_FAILURE,
        alpm_logaction w2 (sprintf "Failed to synchronize database %s: %s\n".toList
          [db.name, E.strerror]))
    else if ret = 1 then (sync_db_results_t.SYNC_NOT_NEEDED, w2)
    else
      (sync_db_results_t.SYNC_SUCCESS,
        alpm_logaction w2 (sprintf "synchronized database %s\n".toList [db.name]))
  emit_signal step.2 "SyncDbEnd".toList [Arg.i (K.sync_code step.1)]

/-- The loop `FOR_LIST (i, syncdbs)` of `sync_dbs`. -/
def sync_dbs_loop (X : Ext) (K : Alpm) (V : PkgSets) (E : SyncEngine) :
    List SyncDb → World → World
  | [], w => w
  | db :: rest, w => sync_dbs_loop X K V E rest (sync_dbs_step X K V E w db)

/-- Handler `sync_dbs`. -/
def sync_dbs (X : Ext) (K : Alpm) (V : PkgSets) (E : SyncEngine) (w : World) : World :=
  let syncdbs := w.syncdbs
  let w1 := emit_signal w "SyncDbs".toList [Arg.i syncdbs.length]
  method_finished (sync_dbs_loop X K V E syncdbs w1) "SyncDbs".toList

/-- The sample values of the header constants: those of libalpm 4.0 for `alpm.h`,
the position in the enumeration for `updater-dbus.h`; the list difference keeps
the members of `lhs` that compare different from every member of `rhs`. -/
def sampleAlpm : Alpm :=
  { event_code := fun e => e.toCtorIdx
    sync_code := fun r => r.toCtorIdx
    ALPM_LOG_DEBUG := 4
    ALPM_LOG_FUNCTION := 8
    ALPM_DEP_MOD_ANY := 1
    list_diff := fun fn lhs rhs => lhs.filter (fun x => rhs.all (fun y => fn x y ≠ 0)) }

/-- Sample package sets: `bash` is installed, `zsh` is about to be. -/
def sampleSets : PkgSets := ⟨["bash".toList], ["zsh".toList]⟩

/-- The names of the signals the callbacks of the event relay emit. -/
def relay_signal_names : List Str :=
  ["EventInstalled".toList, "EventReinstalled".toList, "EventRemoved".toList,
   "EventUpgraded".toList, "EventDowngraded".toList, "EventOptdepRequired".toList,
   "Event".toList, "EventScriptlet".toList, "EventDeltaGenerating".toList,
   "Progress".toList, "TotalDownload".toList, "Downloading".toList, "Log".toList]

/-- The notifications of a synchronisation among `sigs`: `SyncDbStart`, `SyncDbEnd`
and the two completion signals. -/
def sync_notifications (sigs : List Signal) : List Signal :=
  sigs.filter (fun sig => sig.name ∈
    ["SyncDbStart".toList, "SyncDbEnd".toList, "MethodFinished".toList, "MethodFailed".toList])

/-- The outcome of one repository as the specification words it: failed when the
update result is negative, already current when it is `1`, synced otherwise. -/
def sync_outcome (ret : Int) : sync_db_results_t :=
  if ret < 0 then sync_db_results_t.SYNC_FAILURE
  else if ret = 1 then sync_db_results_t.SYNC_NOT_NEEDED
  else sync_db_results_t.SYNC_SUCCESS

/-- The `SyncDbStart` signal of a repository. -/
def sync_start_signal (client : Option Str) (db : SyncDb) : Signal :=
  ⟨client, "SyncDbStart".toList, [Arg.s db.name]⟩

/-- The `SyncDbEnd` signal carrying an outcome. -/
def sync_end_signal (K : Alpm) (client : Option Str) (result : sync_db_results_t) : Signal :=
  ⟨client, "SyncDbEnd".toList, [Arg.i (K.sync_code result)]⟩

/-- What `alpm_list_diff (lhs, rhs, depend_cmp)` of libalpm yields for lists without
duplicates: the members of `lhs` that compare different from every member of
`rhs` (in an order of its own). -/
def list_diff_contract (K : Alpm) : Prop :=
  ∀ lhs rhs : List Depend, lhs.Nodup → rhs.Nodup →
    ∀ x, x ∈ K.list_diff depend_cmp lhs rhs ↔ x ∈ lhs ∧ ∀ y ∈ rhs, depend_cmp x y ≠ 0

/-- Sample optional dependencies. -/
def depA : Depend := ⟨"python".toList, none, some "for scripts".toList, 1⟩

/-- A second sample optional dependency. -/
def depB : Depend := ⟨"gtk3".toList, some "3.0".toList, none, 3⟩

/-- A third sample optional dependency. -/
def depC : Depend := ⟨"zsh".toList, none, some "completion".toList, 1⟩

/-! ## Error formatter -/

/-- `snprintf (buf, size, fmt, ...)` as far as the content of `buf` goes: the rendered
text cut to `size - 1` characters. -/
def snprintf (size : Nat) (fmt : Str) (args : List Str) : Str :=
  (sprintf fmt args).take (size - 1)

/-- The fields of `alpm_depmissing_t` the broker reads. -/
structure DepMissing where
  target : Str
  depend : Depend
  deriving DecidableEq, Repr

/-- The fields of `alpm_conflict_t` the broker reads. -/
structure Conflict where
  package1 : Str
  package2 : Str
  reason : Depend
  deriving DecidableEq, Repr

/-- The values of `alpm_fileconflicttype_t`. -/
inductive alpm_fileconflicttype_t where
  | TARGET | FILESYSTEM | other
  deriving DecidableEq, Repr

/-- The fields of `alpm_fileconflict_t` the broker reads. -/
structure FileConflict where
  target : Str
  type : alpm_fileconflicttype_t
  file : Str
  ctarget : Str
  deriving DecidableEq, Repr

/-- The loops `FOR_LIST (i, alpm_data)` that render one line per record into `buf`,
add a copy to `details` and its length to `len`. The total length is assumed to
stay below `2 ^ 64`, so `len` is kept as a natural number. -/
def details_loop {α : Type} (render : α → Str) : List α → List Str × Nat → List Str × Nat
  | [], acc => acc
  | record :: rest, (details, len) =>
    let buf := render record
    details_loop render rest (details ++ [buf], len + buf.length)

/-- The loop `FOR_LIST (i, details) strcat (errmsg, i->data)`. -/
def strcat_all : List Str → Str → Str
  | [], errmsg => errmsg
  | line :: rest, errmsg => strcat_all rest (errmsg ++ line)

/-- The line `get_packages` renders for one conflict of `ALPM_ERR_CONFLICTING_DEPS`. -/
def get_packages_conflict_line (X : Ext) (K : Alpm) (conflict : Conflict) : Str :=
  if conflict.reason.mod = K.ALPM_DEP_MOD_ANY then
    snprintf 255 (gettext "- Packages %s and %s are in conflict\n".toList)
      [conflict.package1, conflict.package2]
  else
    let reason := X.dep_compute_string conflict.reason
    snprintf 255 (gettext "- Packages %s and %s are in conflict: %s\n".toList)
      [conflict.package1, conflict.package2, reason]

/-- What `alpm_errno` and `alpm_data` hold after a failed `alpm_trans_prepare`: the
categories `get_packages` itemises, each with its records, or any other error. -/
inductive PrepareError where
  | PKG_INVALID_ARCH (alpm_data : List Str)
  | UNSATISFIED_DEPS (alpm_data : List DepMissing)
  | CONFLICTING_DEPS (alpm_data : List Conflict)
  | other (alpm_data : List Str)
  deriving DecidableEq, Repr

/-- The `details` and `len` of `get_packages` after a failed prepare. -/
def get_packages_details (X : Ext) (K : Alpm) : PrepareError → List Str × Nat
  | .PKG_INVALID_ARCH alpm_data =>
    details_loop (fun pkg => snprintf 255
      (gettext "- Package %s does not have a valid architecture\n".toList) [pkg])
      alpm_data ([], 0)
  | .UNSATISFIED_DEPS alpm_data =>
    details_loop (fun miss => snprintf 255 (gettext "- Package %s requires %s\n".toList)
      [miss.target, X.dep_compute_string miss.depend]) alpm_data ([], 0)
  | .CONFLICTING_DEPS alpm_data =>
    details_loop (get_packages_conflict_line X K) alpm_data ([], 0)
  | .other _ => ([], 0)

/-- What `alpm_errno` and `alpm_data` hold after a failed `alpm_trans_commit`: file
conflicts, one of the four invalid-package errors, or any other error. -/
inductive CommitError where
  | FILE_CONFLICTS (alpm_data : List FileConflict)
  | PKG_INVALID (alpm_data : List Str)
  | other (alpm_data : List Str)
  deriving DecidableEq, Repr

/-- The line `sysupgrade` renders for one file conflict. -/
def sysupgrade_fileconflict_line (conflict : FileConflict) : Str :=
  match conflict.type with
  | .TARGET =>
    snprintf 255 (gettext "- %s exists in both %s and %s\n".toList)
      [conflict.file, conflict.target, conflict.ctarget]
  | .FILESYSTEM =>
    snprintf 255 (gettext "- %s exists in both %s and current filesystem\n".toList)
      [conflict.file, conflict.target]
  | .other =>
    snprintf 255 (gettext "- Unknown conflict for %s\n".toList) [conflict.target]

/-- The `details` and `len` of `sysupgrade` after a failed commit. -/
def sysupgrade_details : CommitError → List Str × Nat
  | .FILE_CONFLICTS alpm_data => details_loop sysupgrade_fileconflict_line alpm_data ([], 0)
  | .PKG_INVALID alpm_data =>
    details_loop (fun file => snprintf 255 (gettext "- %s in invalid or corrupted\n".toList)
      [file]) alpm_data ([], 0)
  | .other _ => ([], 0)

/-! ## Engine adapter (`get_packages`, `sysupgrade`, `no_sysupgrade`) -/

/-- What `get_packages` reads of a package of the transaction. -/
structure TransPkg where
  name : Str
  desc : Str
  version : Str
  download_size : Int
  isize : Int
  deriving DecidableEq, Repr

/-- What `get_packages` reads of a package of the local database. -/
structure LocalPkg where
  version : Str
  isize : Int
  deriving DecidableEq, Repr

/-- The answers of the engine to the calls `get_packages` makes. -/
structure GetPackagesEngine where
  /-- The call `alpm_trans_init (handle, 0)`. -/
  trans_init : EngineCall
  /-- The call `alpm_sync_sysupgrade (handle, 0)`. -/
  sync_sysupgrade : EngineCall
  /-- The call `alpm_trans_prepare (handle, &alpm_data)`. -/
  trans_prepare : EngineCall
  /-- Error and data left by a failed prepare. -/
  prepare_error : PrepareError
  /-- Result of `alpm_strerror (alpm_errno (handle))`. -/
  strerror : Str
  /-- Result of `alpm_trans_get_add (handle)`. -/
  trans_add : List TransPkg
  /-- Result of `alpm_trans_get_remove (handle)`. -/
  trans_remove : List TransPkg
  /-- Result of `alpm_db_get_pkg (localdb, name)`, `none` for NULL. -/
  localdb : Str → Option LocalPkg
  /-- Result of `alpm_pkg_get_isize (NULL)`. -/
  isize_null : Int

/-- The loop over `alpm_trans_get_add (handle)` of `get_packages`. -/
def get_packages_add (E : GetPackagesEngine) : List TransPkg → List PkgRow → List PkgRow
  | [], builder => builder
  | pkg :: rest, builder =>
    let name := pkg.name
    let localpkg := E.localdb name
    let row : PkgRow :=
      { name := name
        desc := pkg.desc
        old_version := match localpkg with
          | some l => l.version
          | none => "-".toList
        new_version := pkg.version
        dl_size := to_guint pkg.download_size
        old_size := to_guint (match localpkg with
          | some l => l.isize
          | none => E.isize_null)
        new_size := to_guint pkg.isize }
    get_packages_add E rest (builder ++ [row])

/-- The loop over `alpm_trans_get_remove (handle)` of `get_packages`. -/
def get_packages_remove : List TransPkg → List PkgRow → List PkgRow
  | [], builder => builder
  | pkg :: rest, builder =>
    let row : PkgRow :=
      { name := pkg.name
        desc := pkg.desc
        old_version := pkg.version
        new_version := "-".toList
        dl_size := 0
        old_size := to_guint pkg.isize
        new_size := 0 }
    get_packages_remove rest (builder ++ [row])

/-- Handler `get_packages`. An `alpm_trans_init` that does not return `-1` leaves a
transaction on the handle. -/
def get_packages (X : Ext) (K : Alpm) (V : PkgSets) (E : GetPackagesEngine) (w : World) :
    World :=
  let w1 := engine_call X K V w AlpmCall.trans_init E.trans_init
  if E.trans_init.ret = -1 then
    method_failed w1 "GetPackages".toList
      (sprintf (gettext "Failed to initiate transaction: %s\n".toList) [E.strerror])
  else
    let w2 := engine_call X K V { w1 with trans := true } AlpmCall.sync_sysupgrade
      E.sync_sysupgrade
    if E.sync_sysupgrade.ret = -1 then
      alpm_trans_release (method_failed w2 "GetPackages".toList
        (sprintf "%s".toList [E.strerror]))
    else
      let w3 := engine_call X K V w2 AlpmCall.trans_prepare E.trans_prepare
      if E.trans_prepare.ret = -1 then
        let details := (get_packages_details X K E.prepare_error).1
        let len := (get_packages_details X K E.prepare_error).2
        let w4 :=
          if len > 0 then
            let errmsg := strcat_all details []
            method_failed w3 "GetPackages".toList
              (sprintf (gettext "Failed to prepare transaction: %s :\n%s\n".toList)
                [E.strerror, errmsg])
          else
            method_failed w3 "GetPackages".toList
              (sprintf (gettext "Failed to prepare transaction: %s\n".toList) [E.strerror])
        alpm_trans_release w4
      else
        let builder := get_packages_add E E.trans_add []
        let builder := get_packages_remove E.trans_remove builder
        emit_signal w3 "GetPackagesFinished".toList [Arg.pkgs builder]

/-- The answers of the engine to the calls `sysupgrade` makes. -/
structure SysupgradeEngine where
  /-- The call `alpm_trans_commit (handle, &alpm_data)`. -/
  trans_commit : EngineCall
  /-- Error and data left by a failed commit. -/
  commit_error : CommitError
  /-- Result of `alpm_strerror (err)`. -/
  strerror : Str

/-- Handler `sysupgrade`. -/
def sysupgrade (X : Ext) (K : Alpm) (V : PkgSets) (E : SysupgradeEngine) (w : World) :
    World :=
  let w0 := alpm_logaction w "starting sysupgrade...\n".toList
  let w1 := engine_call X K V w0 AlpmCall.trans_commit E.trans_commit
  if E.trans_commit.ret = -1 then
    let details := (sysupgrade_details E.commit_error).1
    let len := (sysupgrade_details E.commit_error).2
    let w2 :=
      if len > 0 then
        let errmsg := strcat_all details []
        method_failed w1 "SysUpgrade".toList
          (sprintf (gettext "Failed to commit transaction: %s :\n%s\n".toList)
            [E.strerror, errmsg])
      else
        method_failed w1 "SysUpgrade".toList
          (sprintf (gettext "Failed to commit transaction: %s\n".toList) [E.strerror])
    let w3 := alpm_logaction w2
      (sprintf "Failed to commit sysupgrade transaction: %s\n".toList [E.strerror])
    alpm_trans_release w3
  else
    let w2 := alpm_trans_release w1
    let w3 := alpm_logaction w2 "sysupgrade completed\n".toList
    method_finished w3 "SysUpgrade".toList

/-- Handler `no_sysupgrade`. -/
def no_sysupgrade (w : World) : World :=
  method_finished (alpm_trans_release w) "NoSysUpgrade".toList

/-! ## Engine adapter (`init_alpm`, `free_alpm`) -/

/-- The answers of the engine to the calls `init_alpm` makes. -/
structure InitAlpmEngine where
  /-- Whether `alpm_initialize` returned a handle (not NULL). -/
  initialize_ok : Bool
  /-- Result of `alpm_strerror (err)` for the `err` set by `alpm_initialize`. -/
  initialize_strerror : Str
  /-- Whether `alpm_capabilities ()` has `ALPM_CAPABILITY_DOWNLOADER`. -/
  downloader : Bool
  /-- Return value of `alpm_option_set_logfile`. -/
  set_logfile : Int
  /-- Return value of `alpm_option_set_gpgdir`. -/
  set_gpgdir : Int
  /-- Return value of `alpm_option_set_cachedirs`. -/
  set_cachedirs : Int
  /-- Return value of `alpm_option_set_default_siglevel`. -/
  set_default_siglevel : Int
  /-- Result of `alpm_strerror (alpm_errno (handle))`. -/
  strerror : Str

/-- Handler `init_alpm`; of its parameters only `arch` is kept, the others are
handed to libalpm and not seen again. The handle returned by `alpm_initialize`
replaces the global one: it has no architecture, no sync database and no
transaction. -/
def init_alpm (E : InitAlpmEngine) (w : World) (arch : Str) : World :=
  let w1 := debug w "getting alpm params".toList
  let w2 := debug w1 "init alpm".toList
  let w3 := { w2 with handle := E.initialize_ok, arch := none, syncdbs := [], trans := false }
  if E.initialize_ok = false then
    method_failed w3 "InitAlpm".toList
      (sprintf (gettext "Failed to initialize alpm library: %s\n".toList)
        [E.initialize_strerror])
  else if E.downloader = false then
    method_failed w3 "InitAlpm".toList
      (sprintf (gettext "ALPM has no downloader capability\n".toList) [])
  else if E.set_logfile ≠ 0 then
    method_failed w3 "InitAlpm".toList
      (sprintf (gettext "Unable to set log file: %s\n".toList) [E.strerror])
  else if E.set_gpgdir ≠ 0 then
    method_failed w3 "InitAlpm".toList
      (sprintf (gettext "Unable to set gpgdir: %s\n".toList) [E.strerror])
  else if E.set_cachedirs ≠ 0 then
    method_failed w3 "InitAlpm".toList
      (sprintf (gettext "Unable to set cache dirs: %s\n".toList) [E.strerror])
  else if E.set_default_siglevel ≠ 0 then
    -- method_failed (_("Unable to set default siglevel: %s\n"), alpm_strerror (...)):
    -- the text is passed as `name`, the error string as `fmt`
    method_failed w3 (gettext "Unable to set default siglevel: %s\n".toList)
      (sprintf E.strerror [])
  else
    method_finished { w3 with arch := some arch } "InitAlpm".toList

/-- Handler `free_alpm`, with the return value of `alpm_release (handle)`, which is
called only when `handle` is not NULL. -/
def free_alpm (release : Int) (w : World) : World :=
  let w1 := { w with client := none }
  let w2 :=
    if w1.handle = true then
      let w1 := { w1 with calls := w1.calls ++ [AlpmCall.release] }
      if release = -1 then
        method_failed w1 "FreeAlpm".toList
          (sprintf (gettext "Failed to release alpm library\n".toList) [])
      else method_finished w1 "FreeAlpm".toList
    else method_finished w1 "FreeAlpm".toList
  { w2 with handle := false, arch := none, syncdbs := [], trans := false, quit := true }

/-! ## One run of a handler -/

/-- A scheduled handler with its parameters and the answers of its surroundings. -/
inductive Request where
  | init (authority : Str → Verdict) (sender : Str)
  | init_alpm (E : InitAlpmEngine) (arch : Str)
  | free_alpm (release : Int)
  | add_db (E : AddDbEngine) (name : Str) (siglevel : Int) (servers : List Str)
  | sync_dbs (E : SyncEngine)
  | answer (response : Int)
  | get_packages (E : GetPackagesEngine)
  | sysupgrade (E : SysupgradeEngine)
  | no_sysupgrade

/-- One run of the handler of a request; `none` when it has no result (only
`add_db` can, through `strreplace`). -/
def run_handler (X : Ext) (K : Alpm) (V : PkgSets) (w : World) : Request → Option World
  | .init authority sender => some (init authority w sender)
  | .init_alpm E arch => some (init_alpm E w arch)
  | .free_alpm release => some (free_alpm release w)
  | .add_db E name siglevel servers => add_db E w name siglevel servers
  | .sync_dbs E => some (sync_dbs X K V E w)
  | .answer response => some (answer w response)
  | .get_packages E => some (get_packages X K V E w)
  | .sysupgrade E => some (sysupgrade X K V E w)
  | .no_sysupgrade => some (no_sysupgrade w)

/-- The strings `add_db` builds, each with its NUL, fit in a `size_t`. -/
def strings_fit (w : World) : Request → Prop
  | .add_db _ name _ servers =>
    ∀ t ∈ servers, (replaceEvery t "$repo".toList name).length + 1 < SIZE_MOD ∧
      ∀ a, w.arch = some a →
        (replaceEvery (replaceEvery t "$repo".toList name) "$arch".toList a).length + 1
          < SIZE_MOD
  | _ => True

/-- The completion notifications among `sigs`: `MethodFinished`, `MethodFailed` and
the `GetPackagesFinished` with which `get_packages` reports success. -/
def completion_notifications (sigs : List Signal) : List Signal :=
  sigs.filter (fun sig => sig.name ∈
    ["MethodFinished".toList, "MethodFailed".toList, "GetPackagesFinished".toList])

/-- The calls to `alpm_trans_release` made between two states of the globals. -/
def releases (before after : World) : Nat :=
  (after.calls.drop before.calls.length).count AlpmCall.trans_release

/-- Whether the three engine calls of `get_packages` all succeed. -/
def get_packages_ok (E : GetPackagesEngine) : Prop :=
  E.trans_init.ret ≠ -1 ∧ E.sync_sysupgrade.ret ≠ -1 ∧ E.trans_prepare.ret ≠ -1

/-- A sample engine call that succeeds and reports a download. -/
def sampleCall : EngineCall :=
  ⟨0, [Relay.dl_total 1024, Relay.log 2 (some "%s".toList) "warning".toList]⟩

/-- A sample engine call that fails. -/
def failedCall : EngineCall := ⟨-1, []⟩

/-- A sample engine for `get_packages`: one package to upgrade. -/
def sampleGetPackages : GetPackagesEngine :=
  { trans_init := sampleCall
    sync_sysupgrade := sampleCall
    trans_prepare := sampleCall
    prepare_error := PrepareError.other []
    strerror := "error".toList
    trans_add := [⟨"vim".toList, "editor".toList, "9.1".toList, 100, 200⟩]
    trans_remove := []
    localdb := fun _ => none
    isize_null := -1 }

/-- A sample engine for `init_alpm` for which only `alpm_option_set_default_siglevel`
fails. -/
def siglevelEngine : InitAlpmEngine :=
  { initialize_ok := true
    initialize_strerror := [], downloader := true
    set_logfile := 0, set_gpgdir := 0, set_cachedirs := 0
    set_default_siglevel := -1
    strerror := "wrong or NULL argument passed".toList }

/-- The names of the signals that are not completion notifications: those of the
event relay, `Debug`, and the progress signals of `sync_dbs`. -/
def quiet_names : List Str :=
  relay_signal_names ++
    ["Debug".toList, "SyncDbs".toList, "SyncDbStart".toList, "SyncDbEnd".toList]

/-- The state `after` is `before` with the signals `sigs` emitted, the calls `logs`
made and the transaction flag `t`; nothing else differs. -/
def Frame (before after : World) (sigs : List Signal) (logs : List AlpmCall) (t : Bool) :
    Prop :=
  after = { before with out := before.out ++ sigs, calls := before.calls ++ logs, trans := t }

/-- The names of the completion notifications. -/
def completion_names : List Str :=
  ["MethodFinished".toList, "MethodFailed".toList, "GetPackagesFinished".toList]

/-- Between `before` and `after` only quiet signals are emitted and then, last, one
completion notification. -/
def completes_once (before after : World) : Prop :=
  ∃ pre sig, after.out = before.out ++ pre ++ [sig] ∧
    (∀ s ∈ pre, s.name ∈ quiet_names) ∧ sig.name ∈ completion_names

/-! ## Occurrences of a needle -/

/-- The number of occurrences of `needle` met when `str` is scanned from left to
right, the scan resuming after each occurrence (`skip` characters of the last one
are still to be passed over): the occurrences counted do not overlap. -/
def countFrom (needle : Str) : Nat → Str → Nat
  | _, [] => 0
  | skip + 1, _ :: cs => countFrom needle skip cs
  | 0, c :: cs =>
    if needle.isPrefixOf (c :: cs) then 1 + countFrom needle (needle.length - 1) cs
    else countFrom needle 0 cs

/-- The number of non-overlapping occurrences of `needle` in `str`. -/
def occurrences (str needle : Str) : Nat := countFrom needle 0 str

/-! ## Sample engines -/

/-- A sample engine for `get_packages` whose prepare fails with an error that is
not itemised, the engine having left two detail records. -/
def otherPrepare : GetPackagesEngine :=
  { sampleGetPackages with
    trans_prepare := failedCall
    prepare_error := PrepareError.other ["a".toList, "b".toList]
    strerror := "unexpected error".toList }

/-- A sample engine for `sysupgrade` whose commit fails with an error that is not
itemised. -/
def otherCommit : SysupgradeEngine :=
  ⟨failedCall, CommitError.other ["a".toList], "unexpected error".toList⟩

/-- A sample engine for `get_packages`: `vim` is installed locally, `vim-runtime` is
new. -/
def splitGetPackages : GetPackagesEngine :=
  { sampleGetPackages with
    trans_add := [⟨"vim".toList, "editor".toList, "9.1".toList, 100, 200⟩,
      ⟨"vim-runtime".toList, "runtime".toList, "9.1".toList, 300, 400⟩]
    localdb := fun name => if name = "vim".toList then some ⟨"9.0".toList, 150⟩ else none }

/-! ## The engine access of the updater (`kalu-alpm.c`) -/

/-- A value brought into the range of the C type `int` (32 bits, two's
complement). -/
def to_int (v : Int) : Int := (v + 2 ^ 31) % 2 ^ 32 - 2 ^ 31

/-- A `GError`: its code and its message. -/
structure GError where
  code : Int
  message : Str
  deriving DecidableEq, Repr

/-- C `strncat (dest, src, n)`: at most `n` characters of `src` are appended. -/
def strncat (dest src : Str) (n : Nat) : Str := dest ++ src.take n

/-- One call `snprintf (buf, size, fmt, ...)`: the content of `buf` and the value
returned, the length of the whole rendered text (taken to be at most `INT_MAX`). -/
def snprintf_call (size : Nat) (fmt : Str) (args : List Str) : Str × Int :=
  (snprintf size fmt args, ((sprintf fmt args).length : Int))

/-- The call of `snprintf` of `kalu_alpm_has_updates` for one conflict of
`ALPM_ERR_CONFLICTING_DEPS`; its `buf` is `has_updates_conflict_line`. -/
def has_updates_conflict_call (X : Ext) (K : Alpm) (conflict : Conflict) : Str × Int :=
  if conflict.reason.mod = K.ALPM_DEP_MOD_ANY then
    snprintf_call 255 (gettext "- %s and %s are in conflict\n".toList)
      [conflict.package1, conflict.package2]
  else
    let reason := X.dep_compute_string conflict.reason
    snprintf_call 255 (gettext "- %s and %s are in conflict (%s)\n".toList)
      [conflict.package1, conflict.package2, reason]

/-- The calls of `snprintf` made by the `switch (alpm_errno (alpm->handle))` of
`kalu_alpm_has_updates`, one per record of `data`, in the order of `data`. -/
def has_updates_lines (X : Ext) (K : Alpm) : PrepareError → List (Str × Int)
  | .PKG_INVALID_ARCH data =>
    data.map (fun pkg => snprintf_call 255
      (gettext "- Package %s does not have a valid architecture\n".toList) [pkg])
  | .UNSATISFIED_DEPS data =>
    data.map (fun miss => snprintf_call 255 (gettext "- %s requires %s\n".toList)
      [miss.target, X.dep_compute_string miss.depend])
  | .CONFLICTING_DEPS data => data.map (has_updates_conflict_call X K)
  | .other _ => []

/-- The statements `len -= snprintf (buf, 255, ...);
if (len >= 0) strncat (err, buf, (size_t) len);` on the pair `(err, len)`, for
one call of `snprintf`. -/
def has_updates_append (line : Str × Int) (st : Str × Int) : Str × Int :=
  let len := to_int (st.2 - line.2)
  if len ≥ 0 then (strncat st.1 line.1 len.toNat, len) else (st.1, len)

/-- The loops `FOR_LIST (i, data)` of the `switch`, on the pair `(err, len)`. -/
def has_updates_loop : List (Str × Int) → Str × Int → Str × Int
  | [], st => st
  | line :: rest, st => has_updates_loop rest (has_updates_append line st)

/-- The pair `(err, len)` after the `switch`: `err` is a buffer of 1024 bytes that
starts empty, `len` starts at 1023 (`int len = 1024; gchar err[len--];`). -/
def has_updates_details (X : Ext) (K : Alpm) (e : PrepareError) : Str × Int :=
  has_updates_loop (has_updates_lines X K e) ([], 1023)

/-- The fields of `kalu_package_t` (declared in `kalu.h`) that
`kalu_alpm_has_updates` fills. -/
structure kalu_package_t where
  name : Str
  desc : Str
  old_version : Str
  new_version : Str
  dl_size : Nat
  old_size : Nat
  new_size : Nat
  deriving DecidableEq, Repr

/-- The calls `kalu_alpm_has_updates` makes to the engine and to the helpers of
`util.c`. -/
inductive HasUpdatesCall where
  | check_syncdbs | trans_init | alpm_sync_sysupgrade | alpm_trans_prepare | trans_release
  deriving DecidableEq, Repr

/-- The answers of the engine and of the helpers declared outside the sources at
hand (`check_syncdbs`, `trans_init`) to the calls of `kalu_alpm_has_updates`. -/
structure HasUpdatesEngine where
  /-- Result of `check_syncdbs (alpm, 1, 1, &local_err)`. -/
  check_syncdbs : Bool
  /-- The `local_err` a failed `check_syncdbs` sets. -/
  check_error : GError
  /-- Value returned by `trans_init (alpm, alpm->flags, 1, &local_err)`. -/
  trans_init : Int
  /-- The `local_err` a failed `trans_init` sets. -/
  trans_init_error : GError
  /-- Value returned by `alpm_sync_sysupgrade (alpm->handle, 0)`. -/
  sync_sysupgrade : Int
  /-- Value returned by `alpm_trans_prepare (alpm->handle, &data)`. -/
  trans_prepare : Int
  /-- Error and data left by a failed prepare. -/
  prepare_error : PrepareError
  /-- Result of `alpm_strerror (alpm_errno (alpm->handle))`. -/
  strerror : Str
  /-- Result of `alpm_trans_get_add (alpm->handle)`. -/
  trans_add : List TransPkg
  /-- Result of `alpm_db_get_pkg (db_local, name)`, `none` for NULL. -/
  localdb : Str → Option LocalPkg

/-- What a run of `kalu_alpm_has_updates` leaves: the value returned, `*packages`,
`*error` (`none` when it was not set) and the calls made, in order. -/
structure HasUpdatesResult where
  ret : Bool
  packages : List kalu_package_t
  error : Option GError
  calls : List HasUpdatesCall
  deriving DecidableEq, Repr

/-- The loop over `alpm_trans_get_add (alpm->handle)` of `kalu_alpm_has_updates`. -/
def has_updates_add (E : HasUpdatesEngine) :
    List TransPkg → List kalu_package_t → List kalu_package_t
  | [], packages => packages
  | pkg :: rest, packages =>
    let old := E.localdb pkg.name
    let package : kalu_package_t :=
      { name := pkg.name
        desc := pkg.desc
        new_version := pkg.version
        dl_size := to_guint pkg.download_size
        new_size := to_guint pkg.isize
        old_version := match old with
          | some o => o.version
          | none => gettext "none".toList
        old_size := match old with
          | some o => to_guint o.isize
          | none => 0 }
    has_updates_add E rest (packages ++ [package])

/-- The label `cleanup` of `kalu_alpm_has_updates`: `trans_release (alpm, NULL)` and
`return (*packages != NULL)`. -/
def has_updates_cleanup (packages : List kalu_package_t) (error : Option GError)
    (calls : List HasUpdatesCall) : HasUpdatesResult :=
  ⟨!packages.isEmpty, packages, error, calls ++ [HasUpdatesCall.trans_release]⟩

/-- Function `kalu_alpm_has_updates (&packages, &error)`, with the list `*packages`
holds on entry. -/
def kalu_alpm_has_updates (X : Ext) (K : Alpm) (E : HasUpdatesEngine)
    (packages : List kalu_package_t) : HasUpdatesResult :=
  if E.check_syncdbs = false then
    ⟨false, packages, some E.check_error, [HasUpdatesCall.check_syncdbs]⟩
  else
    -- `!trans_init (...)`: 1 when the call returned 0, else 0
    let negated : Int := if E.trans_init = 0 then 1 else 0
    let calls := [HasUpdatesCall.check_syncdbs, HasUpdatesCall.trans_init]
    if negated = -1 then
      ⟨false, packages, some E.trans_init_error, calls⟩
    else
      let calls := calls ++ [HasUpdatesCall.alpm_sync_sysupgrade]
      if E.sync_sysupgrade = -1 then
        has_updates_cleanup packages (some ⟨1, sprintf "%s".toList [E.strerror]⟩) calls
      else
        let calls := calls ++ [HasUpdatesCall.alpm_trans_prepare]
        if E.trans_prepare = -1 then
          let err := (has_updates_details X K E.prepare_error).1
          has_updates_cleanup packages
            (some ⟨2, sprintf (gettext "Failed to prepare transaction: %s\n%s".toList)
              [E.strerror, err]⟩) calls
        else
          has_updates_cleanup (has_updates_add E E.trans_add packages) none calls

/-- The answers of the helper `check_syncdbs` and of `alpm_strerror` to
`kalu_alpm_syncdbs`. -/
structure SyncdbsEngine where
  /-- Result of `check_syncdbs (alpm, 1, 0, &local_err)`. -/
  check_syncdbs : Bool
  /-- The `local_err` a failed `check_syncdbs` sets. -/
  check_error : GError
  /-- Result of `alpm_strerror (alpm_errno (alpm->handle))`. -/
  strerror : Str

/-- What a run of `kalu_alpm_syncdbs` leaves: the value returned, `*nb_dbs_synced`,
`*error`, the names of the databases `alpm_db_update` was called on, in order, and
the texts of the `debug` calls. -/
structure SyncdbsResult where
  ret : Bool
  nb_dbs_synced : Int
  error : Option GError
  updated : List Str
  debugs : List Str
  deriving DecidableEq, Repr

/-- The loop `FOR_LIST (i, sync_dbs)` of `kalu_alpm_syncdbs`; a database is given by
its name and the value `alpm_db_update (0, db)` returns for it. -/
def kalu_alpm_syncdbs_loop (E : SyncdbsEngine) :
    List (Str × Int) → SyncdbsResult → SyncdbsResult
  | [], r => { r with ret := true }
  | (name, ret) :: rest, r =>
    let r := { r with updated := r.updated ++ [name] }
    if ret < 0 then
      { r with
        ret := false
        error := some ⟨1, sprintf (gettext "Failed to update %s: %s".toList)
          [name, E.strerror]⟩ }
    else if ret = 1 then
      kalu_alpm_syncdbs_loop E rest
        { r with debugs := r.debugs ++ [sprintf "%s is up to date".toList [name]] }
    else
      kalu_alpm_syncdbs_loop E rest
        { r with
          nb_dbs_synced := to_int (r.nb_dbs_synced + 1)
          debugs := r.debugs ++ [sprintf "%s was updated".toList [name]] }

/-- Function `kalu_alpm_syncdbs (&nb_dbs_synced, &error)` on the databases
`alpm_get_syncdbs (alpm->handle)` returns, with the value `*nb_dbs_synced` holds on
entry. -/
def kalu_alpm_syncdbs (E : SyncdbsEngine) (sync_dbs : List (Str × Int))
    (nb_dbs_synced : Int) : SyncdbsResult :=
  if E.check_syncdbs = false then
    ⟨false, nb_dbs_synced, some E.check_error, [], []⟩
  else
    kalu_alpm_syncdbs_loop E sync_dbs ⟨true, 0, none, [], []⟩

/-- A sample engine for `kalu_alpm_has_updates`: every call succeeds, `vim` is
installed locally, `vim-runtime` is new. -/
def sampleHasUpdates : HasUpdatesEngine :=
  { check_syncdbs := true
    check_error := ⟨1, "no repository".toList⟩
    trans_init := 1
    trans_init_error := ⟨1, "unable to lock database".toList⟩
    sync_sysupgrade := 0
    trans_prepare := 0
    prepare_error := PrepareError.other []
    strerror := "unexpected error".toList
    trans_add := [⟨"vim".toList, "editor".toList, "9.1".toList, 100, 200⟩,
      ⟨"vim-runtime".toList, "runtime".toList, "9.1".toList, 300, 400⟩]
    localdb := fun name => if name = "vim".toList then some ⟨"9.0".toList, 150⟩ else none }

/-- A sample prepare failure: four packages without a valid architecture, each
with a name of 204 characters, so that each rendered line has 250 characters. -/
def fourLongNames : PrepareError :=
  PrepareError.PKG_INVALID_ARCH (List.replicate 4 (List.replicate 204 'a'))

/-- A sample engine for `kalu_alpm_has_updates`: `trans_init` fails (it returns
FALSE and sets `local_err`), after which the engine has no transaction and
`alpm_sync_sysupgrade` fails too. -/
def failedInit : HasUpdatesEngine :=
  { sampleHasUpdates with
    trans_init := 0
    sync_sysupgrade := -1
    strerror := "transaction not initialized".toList }

/-- A sample engine for `kalu_alpm_syncdbs` whose `check_syncdbs` fails. -/
def uncheckedSyncdbs : SyncdbsEngine :=
  ⟨false, ⟨1, "No usable package repositories configured.".toList⟩, "error".toList⟩

/-- A sample engine for `kalu_alpm_syncdbs` whose `check_syncdbs` passes. -/
def checkedSyncdbs : SyncdbsEngine :=
  ⟨true, ⟨1, "No usable package repositories configured.".toList⟩,
    "download library error".toList⟩

/-- A sample engine for `kalu_alpm_has_updates`: the local `vim` has an installed
size of 5 GiB. -/
def largeLocal : HasUpdatesEngine :=
  { sampleHasUpdates with
    trans_add := [⟨"vim".toList, "editor".toList, "9.1".toList, 100, 200⟩]
    localdb := fun _ => some ⟨"9.0".toList, 5368709120⟩ }

theorem isPrefixOf_nil_right {n : Str} (hn : n ≠ []) : n.isPrefixOf ([] : Str) = false := by
  cases n with
  | nil => exact absurd rfl hn
  | cons a as => rfl

theorem substFrom_skip (needle replace : Str) (m : Nat) (s : Str) :
    substFrom needle replace m s = substFrom needle replace 0 (s.drop m) := by
  induction m generalizing s with
  | zero => simp
  | succ m ih =>
    cases s with
    | nil => simp [substFrom]
    | cons c cs => simp [substFrom, ih]

theorem substFrom_of_strstr_none (needle replace : Str) (s : Str)
    (h : strstr s needle = none) : substFrom needle replace 0 s = s := by
  induction s with
  | nil => simp [substFrom]
  | cons c cs ih =>
    unfold strstr at h
    split at h
    · simp at h
    · rename_i hp
      simp only [Option.map_eq_none'] at h
      simp [substFrom, hp, ih h]

theorem strstr_some_le (needle : Str) (s : Str) (k : Nat)
    (h : strstr s needle = some k) : k + needle.length ≤ s.length := by
  induction s generalizing k with
  | nil =>
    unfold strstr at h
    split at h
    · rename_i hp
      cases needle with
      | nil => simp at h; omega
      | cons a as => simp [List.isPrefixOf] at hp
    · simp at h
  | cons c cs ih =>
    unfold strstr at h
    split at h
    · rename_i hp
      simp at h
      subst h
      have := (List.isPrefixOf_iff_prefix.mp hp).length_le
      simpa using this
    · simp only [Option.map_eq_some'] at h
      obtain ⟨k', hk', rfl⟩ := h
      have := ih k' hk'
      simp; omega

theorem substFrom_of_strstr_some (needle replace : Str) (hn : needle ≠ []) (s : Str) (k : Nat)
    (h : strstr s needle = some k) :
    substFrom needle replace 0 s
      = s.take k ++ replace ++ substFrom needle replace 0 (s.drop (k + needle.length)) := by
  induction s generalizing k with
  | nil =>
    unfold strstr at h
    rw [isPrefixOf_nil_right hn] at h
    simp at h
  | cons c cs ih =>
    unfold strstr at h
    split at h
    · rename_i hp
      simp at h
      subst h
      obtain ⟨a, as, rfl⟩ := List.exists_cons_of_ne_nil hn
      simp only [substFrom, hp, if_true]
      rw [substFrom_skip]
      simp
    · rename_i hp
      simp only [Option.map_eq_some'] at h
      obtain ⟨k', hk', rfl⟩ := h
      have := ih k' hk'
      simp only [substFrom, hp]
      rw [this]
      simp [Nat.add_right_comm]


theorem strreplace_newsz_eq (str needle replace : Str) (k L : Nat)
    (hL : L + k * needle.length = str.length + k * replace.length)
    (hfit : L + 1 < SIZE_MOD) :
    strreplace_newsz str needle replace k = L + 1 := by
  unfold strreplace_newsz size_add size_mul size_sub
  have hM : 0 < SIZE_MOD := by unfold SIZE_MOD; positivity
  have hn : needle.length % SIZE_MOD < SIZE_MOD := Nat.mod_lt _ hM
  set M := SIZE_MOD with hMdef
  set d := (replace.length % M + (M - needle.length % M)) % M with hd
  have h1 : d + needle.length ≡ replace.length [MOD M] := by
    have e1 : d ≡ replace.length % M + (M - needle.length % M) [MOD M] := Nat.mod_modEq _ _
    have e2 : needle.length ≡ needle.length % M [MOD M] := (Nat.mod_modEq _ _).symm
    have e3 := e1.add e2
    have e4 : replace.length % M + (M - needle.length % M) + needle.length % M
        = replace.length % M + M := by omega
    rw [e4] at e3
    have e5 : replace.length % M + M ≡ replace.length [MOD M] := by
      have : replace.length % M + M ≡ replace.length % M [MOD M] := by
        simp [Nat.ModEq]
      exact this.trans (Nat.mod_modEq _ _)
    exact e3.trans e5
  have h2 : k * d + k * needle.length ≡ k * replace.length [MOD M] := by
    have := h1.mul_left k
    simpa [Nat.mul_add] using this
  have h3 : (str.length + 1 + k * d) + k * needle.length ≡ (L + 1) + k * needle.length [MOD M] := by
    have := h2.add_left (str.length + 1)
    have e : str.length + 1 + (k * d + k * needle.length)
        = str.length + 1 + k * d + k * needle.length := by ring
    rw [e] at this
    refine this.trans ?_
    have e2 : str.length + 1 + k * replace.length = L + 1 + k * needle.length := by omega
    rw [e2]
  have h4 : str.length + 1 + k * d ≡ L + 1 [MOD M] := Nat.ModEq.add_right_cancel' _ h3
  have h5 : (str.length + 1 + k * d) % M = L + 1 := by
    have := h4
    unfold Nat.ModEq at this
    rw [this, Nat.mod_eq_of_lt hfit]
  rw [← h5]
  exact (Nat.add_mod _ _ _).symm

theorem strreplace_scan_fill (str needle replace : Str) (hn : needle ≠ []) :
    ∀ (fuel p : Nat), p ≤ str.length → str.length - p < fuel →
      ∃ qs, strreplace_scan fuel str needle p = some qs ∧
        (replaceEvery (str.drop p) needle replace).length + qs.length * needle.length
          = (str.length - p) + qs.length * replace.length ∧
        ∀ (newsz : Nat) (newp : Str),
          newp.length + (replaceEvery (str.drop p) needle replace).length ≤ newsz →
          ∃ p1 out, strreplace_fill newsz str replace needle.length qs p newp = some (p1, out) ∧
            out ++ str.drop p1 = newp ++ replaceEvery (str.drop p) needle replace := by
  intro fuel
  induction fuel with
  | zero => intro p _ h; omega
  | succ fuel ih =>
    intro p hp hfuel
    unfold strreplace_scan
    cases hs : strstr (str.drop p) needle with
    | none =>
      refine ⟨[], rfl, ?_, ?_⟩
      · simp [replaceEvery, substFrom_of_strstr_none _ _ _ hs]
      · intro newsz newp _
        exact ⟨p, newp, rfl, by simp [replaceEvery, substFrom_of_strstr_none _ _ _ hs]⟩
    | some k =>
      have hle := strstr_some_le _ _ _ hs
      have hnl : 0 < needle.length := List.length_pos.mpr hn
      simp only [List.length_drop] at hle
      have hp' : p + k + needle.length ≤ str.length := by omega
      obtain ⟨qs, hscan, hlen, hfill⟩ := ih (p + k + needle.length) hp' (by omega)
      have hsub := substFrom_of_strstr_some needle replace hn _ _ hs
      have hdrop : (str.drop p).drop (k + needle.length) = str.drop (p + k + needle.length) := by
        rw [List.drop_drop]; congr 1; omega
      rw [hdrop] at hsub
      have htake : ((str.drop p).take k).length = k := by
        simp; omega
      refine ⟨(p + k) :: qs, by simp [hscan], ?_, ?_⟩
      · unfold replaceEvery at hlen ⊢
        rw [hsub]
        simp only [List.length_append, htake, List.length_cons]
        have e1 : (qs.length + 1) * needle.length = qs.length * needle.length + needle.length := by ring
        have e2 : (qs.length + 1) * replace.length = qs.length * replace.length + replace.length := by ring
        omega
      · intro newsz newp hfit
        unfold replaceEvery at hfit hfill ⊢
        rw [hsub] at hfit ⊢
        simp only [List.length_append, htake] at hfit
        unfold strreplace_fill
        have hw1 : (if p + k > p then buf_write newsz newp ((str.drop p).take (p + k - p))
            else some newp) = some (newp ++ (str.drop p).take k) := by
          by_cases hk : k = 0
          · subst hk; simp
          · have : p + k > p := by omega
            simp only [this, if_true, Nat.add_sub_cancel_left]
            unfold buf_write
            rw [if_pos (by rw [htake]; omega)]
        rw [hw1]
        simp only
        have hw2 : buf_write newsz (newp ++ (str.drop p).take k) replace
            = some (newp ++ (str.drop p).take k ++ replace) := by
          unfold buf_write
          rw [if_pos (by simp only [List.length_append, htake]; omega)]
        rw [hw2]
        simp only
        obtain ⟨p1, out, h1, h2⟩ := hfill newsz (newp ++ (str.drop p).take k ++ replace)
          (by simp only [List.length_append, htake]; omega)
        exact ⟨p1, out, h1, by rw [h2]; simp⟩

/-- `strreplace` computes the reference substitution, whenever the result and its
NUL fit in a `size_t`. -/
theorem strreplace_eq_replaceEvery (str needle replace : Str) (hn : needle ≠ [])
    (hfit : (replaceEvery str needle replace).length + 1 < SIZE_MOD) :
    strreplace str needle replace = some (replaceEvery str needle replace) := by
  obtain ⟨qs, hscan, hlen, hfill⟩ :=
    strreplace_scan_fill str needle replace hn (str.length + 1) 0 (Nat.zero_le _) (by omega)
  simp only [List.drop_zero, Nat.sub_zero] at hlen hfill
  unfold strreplace strreplace_fuel
  rw [hscan]
  cases qs with
  | nil =>
    obtain ⟨p1, out, h1, h2⟩ := hfill _ [] (Nat.le_refl _)
    simp only [strreplace_fill, Option.some.injEq, Prod.mk.injEq] at h1
    obtain ⟨rfl, rfl⟩ := h1
    simp at h2
    simp [← h2]
  | cons q rest =>
    simp only
    have hsz := strreplace_newsz_eq str needle replace (q :: rest).length _ hlen hfit
    rw [hsz]
    obtain ⟨p1, out, h1, h2⟩ := hfill ((replaceEvery str needle replace).length + 1) []
      (by simp)
    rw [h1]
    simp only [List.nil_append] at h2
    simp only
    have hl : out.length + (str.drop p1).length = (replaceEvery str needle replace).length := by
      rw [← h2, List.length_append]
    split
    · rw [if_pos (by omega), h2]
    · rename_i hnil
      simp only [ne_eq, not_not] at hnil
      rw [hnil] at h2 hl
      simp only [List.append_nil] at h2
      simp only [List.length_nil, Nat.add_zero] at hl
      rw [if_pos (by omega), h2]


/-! ## Session gate and dispatcher -/

theorem emitted_append (w w1 : World) (sigs : List Signal) (h : w1.out = w.out ++ sigs) :
    emitted w w1 = sigs := by
  simp [emitted, h]

/-- C1 (counterexample): with the session locked to `:1.7`, an `Init` call sent by
`:1.9` is not rejected: it is acknowledged and the handler `init` is scheduled. -/
theorem handle_method_call_init_from_other_sender :
    lockedWorld.is_init = true ∧ lockedWorld.client = some ":1.7".toList ∧
    ":1.9".toList ≠ ":1.7".toList ∧
    (handle_method_call lockedWorld ":1.9".toList "Init".toList GVariant.unit).reply
      = Reply.value ∧
    (handle_method_call lockedWorld ":1.9".toList "Init".toList GVariant.unit).scheduled
      = some (Handler.init, GVariant.s ":1.9".toList) := by
  decide

/-- C1 (amended): once the session is locked to a client `c`, every request whose
method name is not `Init` and whose sender differs from `c` is rejected with
`org.jjk.kalu.InvalidInitError`, no handler is scheduled and the session globals
are left as they were. -/
theorem handle_method_call_wrong_client (w : World) (c sender method_name : Str)
    (parameters : GVariant) (hinit : w.is_init = true) (hclient : w.client = some c)
    (hsender : sender ≠ c) (hmethod : method_name ≠ "Init".toList) :
    (handle_method_call w sender method_name parameters).reply
      = Reply.error "org.jjk.kalu.InvalidInitError".toList
          "Session initialized for another client\n".toList ∧
    (handle_method_call w sender method_name parameters).scheduled = none ∧
    (handle_method_call w sender method_name parameters).world.is_init = true ∧
    (handle_method_call w sender method_name parameters).world.client = some c ∧
    (handle_method_call w sender method_name parameters).world.choice = w.choice := by
  have hmsg : (sprintf (gettext "Session initialized for another client\n".toList) []).take 254
      = "Session initialized for another client\n".toList := by decide
  have hname : "org.jjk.kalu.".toList ++ "InvalidInitError".toList
      = "org.jjk.kalu.InvalidInitError".toList := by decide
  simp only [handle_method_call, if_neg hmethod, debug, emit_signal, hinit, hclient,
    send_error, hmsg, hname]
  simp [hsender]

theorem handle_method_call_wrong_client_witness :
    (handle_method_call lockedWorld ":1.9".toList "Answer".toList (GVariant.i 1)).reply
      = Reply.error "org.jjk.kalu.InvalidInitError".toList
          "Session initialized for another client\n".toList ∧
    (handle_method_call lockedWorld ":1.9".toList "Answer".toList (GVariant.i 1)).scheduled
      = none :=
  have h := handle_method_call_wrong_client lockedWorld ":1.7".toList ":1.9".toList
    "Answer".toList (GVariant.i 1) (by decide) (by decide) (by decide) (by decide)
  ⟨h.1, h.2.1⟩

/-- C2: when authorization has already succeeded (`is_init` set, `client = c`), the
handler `init` emits exactly one signal, `MethodFailed ("Init", "Session already
initialized")`, consults the authority for nobody, does not ask the main loop to
quit, and leaves `is_init` and `client` as they were, whoever the sender is. -/
theorem init_already_initialized (authority : Str → Verdict) (w : World) (c sender : Str)
    (hinit : w.is_init = true) (hclient : w.client = some c) :
    emitted w (init authority w sender)
      = [⟨some c, "MethodFailed".toList,
          [Arg.s "Init".toList, Arg.s "Session already initialized\n".toList]⟩] ∧
    (init authority w sender).auth_checks = w.auth_checks ∧
    (init authority w sender).is_init = true ∧
    (init authority w sender).client = some c ∧
    (init authority w sender).quit = w.quit := by
  have hmsg : sprintf (gettext "Session already initialized\n".toList) []
      = "Session already initialized\n".toList := by decide
  simp only [init, hinit, if_true, method_failed, emit_signal, emitted, hmsg, hclient]
  simp

theorem init_already_initialized_witness :
    emitted lockedWorld (init (fun _ => Verdict.granted) lockedWorld ":1.9".toList)
      = [⟨some ":1.7".toList, "MethodFailed".toList,
          [Arg.s "Init".toList, Arg.s "Session already initialized\n".toList]⟩] ∧
    (init (fun _ => Verdict.granted) lockedWorld ":1.9".toList).client = some ":1.7".toList :=
  have h := init_already_initialized (fun _ => Verdict.granted) lockedWorld ":1.7".toList
    ":1.9".toList (by decide) (by decide)
  ⟨h.1, h.2.2.2.1⟩

/-- C3: while authorization has not succeeded (`is_init` false), every request whose
method name is not `Init`, from any sender, is rejected with
`org.jjk.kalu.NoInitError`; no handler is scheduled, and the globals are left as
they were but for the `Debug` signal `handle_method_call` starts with. -/
theorem handle_method_call_not_initialized (w : World) (sender method_name : Str)
    (parameters : GVariant) (hinit : w.is_init = false) (hmethod : method_name ≠ "Init".toList) :
    (handle_method_call w sender method_name parameters).reply
      = Reply.error "org.jjk.kalu.NoInitError".toList "Session not initialized\n".toList ∧
    (handle_method_call w sender method_name parameters).scheduled = none ∧
    (handle_method_call w sender method_name parameters).world
      = debug w (sprintf "sender=%s -- client=%s -- method=%s".toList
          [sender, show_nullable w.client, method_name]) ∧
    (handle_method_call w sender method_name parameters).world.is_init = false ∧
    (handle_method_call w sender method_name parameters).world.client = w.client ∧
    (handle_method_call w sender method_name parameters).world.choice = w.choice ∧
    (handle_method_call w sender method_name parameters).world.syncdbs = w.syncdbs ∧
    (handle_method_call w sender method_name parameters).world.arch = w.arch := by
  have hmsg : (sprintf (gettext "Session not initialized\n".toList) []).take 254
      = "Session not initialized\n".toList := by decide
  have hname : "org.jjk.kalu.".toList ++ "NoInitError".toList
      = "org.jjk.kalu.NoInitError".toList := by decide
  simp only [handle_method_call, if_neg hmethod, debug, emit_signal, hinit,
    send_error, hmsg, hname]
  simp

theorem handle_method_call_not_initialized_witness :
    (handle_method_call freshWorld ":1.9".toList "SysUpgrade".toList GVariant.unit).reply
      = Reply.error "org.jjk.kalu.NoInitError".toList "Session not initialized\n".toList ∧
    (handle_method_call freshWorld ":1.9".toList "SysUpgrade".toList GVariant.unit).scheduled
      = none :=
  have h := handle_method_call_not_initialized freshWorld ":1.9".toList "SysUpgrade".toList
    GVariant.unit (by decide) (by decide)
  ⟨h.1, h.2.1⟩


/-! ## Decision bridge -/

theorem handle_method_call_world (w : World) (sender method_name : Str)
    (parameters : GVariant) :
    (handle_method_call w sender method_name parameters).world
      = debug w (sprintf "sender=%s -- client=%s -- method=%s".toList
          [sender, show_nullable w.client, method_name]) := by
  simp only [handle_method_call, if_method, send_error, apply_ite Dispatch.world, ite_self]

theorem question_wait_done (iters : List (World → World)) (w : World)
    (h : w.choice ≠ CHOICE_WAITING) : question_wait iters w = some w := by
  cases iters <;> simp [question_wait, h]

theorem question_wait_append (pre rest : List (World → World)) (w : World)
    (hpre : ∀ f ∈ pre, ∀ v : World, (f v).choice = v.choice) (hw : w.choice = CHOICE_WAITING) :
    ∃ v, v.choice = CHOICE_WAITING ∧ question_wait (pre ++ rest) w = question_wait rest v := by
  induction pre generalizing w with
  | nil => exact ⟨w, hw, rfl⟩
  | cons f fs ih =>
    have hf : (f w).choice = CHOICE_WAITING := by
      rw [hpre f (List.mem_cons_self _ _), hw]
    obtain ⟨v, hv, hq⟩ := ih (f w) (fun g hg => hpre g (List.mem_cons_of_mem _ hg)) hf
    exact ⟨v, hv, by simp [question_wait, hw, hq]⟩

theorem answer_choice (w : World) (n : Int) (hw : w.choice = CHOICE_WAITING) :
    (answer w n).choice = if 0 ≤ n then n else 0 := by
  by_cases hn : 0 ≤ n <;>
    simp [answer, hw, hn, method_finished, emit_signal, debug]

theorem question_prompt_choice (X : Ext) (w : World) (event : Question)
    (hev : event ≠ Question.unknown) :
    ∃ w2, question_prompt X w event = some w2 ∧ w2.choice = w.choice := by
  cases event <;> first
    | exact absurd rfl hev
    | exact ⟨_, rfl, rfl⟩

theorem question_cb_answered (X : Ext) (pre rest : List (World → World)) (w : World)
    (event : Question) (response n : Int) (hfree : w.choice = CHOICE_FREE)
    (hev : event ≠ Question.unknown)
    (hpre : ∀ f ∈ pre, ∀ v : World, (f v).choice = v.choice) :
    ∃ w1, question_cb X (pre ++ (fun v => answer v n) :: rest) w event response
        = some (w1, if 0 ≤ n then n else 0) ∧ w1.choice = CHOICE_FREE := by
  obtain ⟨w2, hw2, hc2⟩ := question_prompt_choice X
    { debug w "question %d (%p -- %p -- %p)\n".toList with choice := CHOICE_WAITING } event hev
  obtain ⟨v, hv, hq⟩ := question_wait_append pre ((fun v => answer v n) :: rest) w2 hpre hc2
  have hans : (answer v n).choice ≠ CHOICE_WAITING := by
    rw [answer_choice v n hv]
    split
    · simp only [CHOICE_WAITING]; omega
    · simp [CHOICE_WAITING]
  have hwait : question_wait (pre ++ (fun v => answer v n) :: rest) w2 = some (answer v n) := by
    rw [hq]
    simp only [question_wait, hv, if_true]
    exact question_wait_done rest _ hans
  have hdbg : (debug w "question %d (%p -- %p -- %p)\n".toList).choice = CHOICE_FREE := by
    simpa [debug, emit_signal] using hfree
  refine ⟨{ answer v n with choice := CHOICE_FREE }, ?_, rfl⟩
  unfold question_cb
  simp only [hdbg, ne_eq, not_true_eq_false, if_false, hw2, hwait, answer_choice v n hv]

/-- C4: with a question pending (`choice = CHOICE_WAITING`), `answer` called with a
negative `n` sets `choice` to `0` and emits `MethodFinished ("Answer")` (after a
`Debug` signal); the waiting loop of `question_cb` then ends, and a `question_cb`
suspended on any recognised question returns `0` as the engine's response. -/
theorem answer_negative_defaults_to_zero (n : Int) (hn : n < 0) (w : World)
    (hw : w.choice = CHOICE_WAITING) :
    (answer w n).choice = 0 ∧
    emitted w (answer w n)
      = [⟨w.client, "Debug".toList, [Arg.s "Invalid answer, defaulting to no (0)".toList]⟩,
         ⟨w.client, "MethodFinished".toList, [Arg.s "Answer".toList]⟩] ∧
    (∀ rest, question_wait ((fun v => answer v n) :: rest) w = some (answer w n)) ∧
    (∀ (X : Ext) (rest : List (World → World)) (w0 : World) (event : Question) (response : Int),
      w0.choice = CHOICE_FREE → event ≠ Question.unknown →
      ∃ w1, question_cb X ((fun v => answer v n) :: rest) w0 event response = some (w1, 0)) := by
  have hn0 : ¬ 0 ≤ n := by omega
  have hc : (answer w n).choice = 0 := by rw [answer_choice w n hw, if_neg hn0]
  refine ⟨hc, ?_, ?_, ?_⟩
  · simp [answer, hw, hn0, method_finished, emit_signal, debug, emitted]
  · intro rest
    simp only [question_wait, hw, if_true]
    exact question_wait_done rest _ (by rw [hc]; decide)
  · intro X rest w0 event response hfree hev
    obtain ⟨w1, h1, _⟩ := question_cb_answered X [] rest w0 event response n hfree hev
      (by simp)
    rw [if_neg hn0] at h1
    exact ⟨w1, h1⟩

theorem answer_negative_defaults_to_zero_witness :
    (answer { freshWorld with choice := CHOICE_WAITING } (-1)).choice = 0 ∧
    emitted { freshWorld with choice := CHOICE_WAITING }
        (answer { freshWorld with choice := CHOICE_WAITING } (-1))
      = [⟨none, "Debug".toList, [Arg.s "Invalid answer, defaulting to no (0)".toList]⟩,
         ⟨none, "MethodFinished".toList, [Arg.s "Answer".toList]⟩] :=
  have h := answer_negative_defaults_to_zero (-1) (by decide)
    { freshWorld with choice := CHOICE_WAITING } (by decide)
  ⟨h.1, h.2.1⟩

/-- C5: with no question pending (`choice` is not `CHOICE_WAITING`), `answer` called
with any `n` emits exactly one signal, `MethodFailed ("Answer", "Invalid call to
Answer, no Question pending.")`, hence no `MethodFinished`, and leaves `choice`
as it was. -/
theorem answer_without_question (n : Int) (w : World) (hw : w.choice ≠ CHOICE_WAITING) :
    emitted w (answer w n)
      = [⟨w.client, "MethodFailed".toList,
          [Arg.s "Answer".toList,
           Arg.s "Invalid call to Answer, no Question pending.\n".toList]⟩] ∧
    completions (emitted w (answer w n)) = [] ∧
    (answer w n).choice = w.choice := by
  have hmsg : sprintf (gettext "Invalid call to Answer, no Question pending.\n".toList) []
      = "Invalid call to Answer, no Question pending.\n".toList := by decide
  have hout : emitted w (answer w n)
      = [⟨w.client, "MethodFailed".toList,
          [Arg.s "Answer".toList,
           Arg.s "Invalid call to Answer, no Question pending.\n".toList]⟩] := by
    simp only [answer, hw, ne_eq, not_false_eq_true, if_true, method_failed, emit_signal,
      emitted, hmsg]
    simp
  refine ⟨hout, ?_, ?_⟩
  · rw [hout]
    have hne : ¬ ("MethodFailed".toList = "MethodFinished".toList) := by decide
    simp [completions, hne]
  · simp [answer, hw, method_failed, emit_signal]

theorem answer_without_question_witness :
    emitted freshWorld (answer freshWorld 3)
      = [⟨none, "MethodFailed".toList,
          [Arg.s "Answer".toList,
           Arg.s "Invalid call to Answer, no Question pending.\n".toList]⟩] ∧
    (answer freshWorld 3).choice = CHOICE_FREE :=
  have h := answer_without_question 3 freshWorld (by decide)
  ⟨h.1, h.2.2⟩

/-- C6: for every `n ≥ 0` and every recognised question, if `choice` is `CHOICE_FREE`
when `question_cb` is called and the `answer` handler runs with `n` while it
waits (after any main-loop iterations that leave `choice` alone), `question_cb`
returns, writes exactly `n` into the engine's response and leaves
`choice = CHOICE_FREE`. -/
theorem question_cb_returns_answer (X : Ext) (pre rest : List (World → World)) (w : World)
    (event : Question) (response n : Int) (hn : 0 ≤ n) (hfree : w.choice = CHOICE_FREE)
    (hev : event ≠ Question.unknown)
    (hpre : ∀ f ∈ pre, ∀ v : World, (f v).choice = v.choice) :
    ∃ w1, question_cb X (pre ++ (fun v => answer v n) :: rest) w event response = some (w1, n) ∧
      w1.choice = CHOICE_FREE := by
  obtain ⟨w1, h1, h2⟩ := question_cb_answered X pre rest w event response n hfree hev hpre
  rw [if_pos hn] at h1
  exact ⟨w1, h1, h2⟩

theorem question_cb_returns_answer_witness :
    ∃ w1, question_cb sampleExt
        ([fun v => (handle_method_call v ":1.7".toList "Answer".toList (GVariant.i 1)).world]
          ++ (fun v => answer v 1) :: [])
        lockedWorld
        (Question.select_provider
          [⟨"pkg".toList, "1.0".toList, "repoA".toList⟩,
           ⟨"pkg".toList, "1.1".toList, "repoB".toList⟩]
          ⟨"pkg".toList, none, none, 1⟩) 0 = some (w1, 1) ∧
      w1.choice = CHOICE_FREE :=
  question_cb_returns_answer sampleExt _ [] lockedWorld _ 0 1 (by decide) (by decide)
    (by decide)
    (by
      intro f hf v
      simp only [List.mem_singleton] at hf
      subst hf
      show (handle_method_call v _ _ _).world.choice = v.choice
      rw [handle_method_call_world]
      rfl)

/-- C7 (counterexample): called while a question is pending, with the engine's
response slot holding `1`, `question_cb` returns with the slot still `1`, not `0`. -/
theorem question_cb_busy_keeps_response :
    ({ lockedWorld with choice := CHOICE_WAITING } : World).choice ≠ CHOICE_FREE ∧
    (question_cb sampleExt [] { lockedWorld with choice := CHOICE_WAITING }
        (Question.corrupted_pkg "foo.pkg.tar.xz".toList 0) 1).map Prod.snd = some 1 ∧
    (question_cb sampleExt [] { lockedWorld with choice := CHOICE_WAITING }
        (Question.corrupted_pkg "foo.pkg.tar.xz".toList 0) 1).map Prod.snd ≠ some 0 := by
  decide

/-- C7 (amended): called while a question is already pending (`choice` is not
`CHOICE_FREE`), `question_cb` returns at once whatever the main loop would do,
emits two `Debug` signals and no prompt, leaves `choice` and the other globals
untouched, and writes nothing to the engine's response, which keeps the value it
had on entry. -/
theorem question_cb_busy (X : Ext) (iters : List (World → World)) (w : World)
    (event : Question) (response : Int) (hbusy : w.choice ≠ CHOICE_FREE) :
    ∃ w1, question_cb X iters w event response = some (w1, response) ∧
      w1 = { w with out := w.out ++
        [⟨w.client, "Debug".toList, [Arg.s "question %d (%p -- %p -- %p)\n".toList]⟩,
         ⟨w.client, "Debug".toList,
          [Arg.s "Received question (%d) while already busy".toList]⟩] } ∧
      prompts (emitted w w1) = [] ∧
      w1.choice = w.choice := by
  refine ⟨_, ?_, rfl, ?_, rfl⟩
  · simp [question_cb, debug, emit_signal, hbusy]
  · have hne : "Ask".toList.isPrefixOf "Debug".toList = false := by decide
    simp [emitted, prompts, hne]

theorem question_cb_busy_witness :
    ∃ w1, question_cb sampleExt [] { lockedWorld with choice := CHOICE_WAITING }
        (Question.corrupted_pkg "foo.pkg.tar.xz".toList 0) 1 = some (w1, 1) ∧
      prompts (emitted { lockedWorld with choice := CHOICE_WAITING } w1) = [] ∧
      w1.choice = CHOICE_WAITING :=
  have ⟨w1, h1, _, h3, h4⟩ := question_cb_busy sampleExt []
    { lockedWorld with choice := CHOICE_WAITING }
    (Question.corrupted_pkg "foo.pkg.tar.xz".toList 0) 1 (by decide)
  ⟨w1, h1, h3, h4⟩

theorem select_provider_builder_eq (data1 : List Pkg) (builder : List (List Str)) :
    select_provider_builder data1 builder = builder ++ data1.map provider_triple := by
  induction data1 generalizing builder with
  | nil => simp [select_provider_builder]
  | cons p rest ih => simp [select_provider_builder, ih, provider_triple]

/-- C8: for every list of provider candidates, `question_cb` (called with the bridge
free) emits, before it waits, one `AskSelectProvider` prompt whose array has
exactly one `(repository, name, version)` triple per candidate, as many triples as
candidates and in the same order: entry `k` of the array is the triple of the
`k`-th candidate. -/
theorem question_cb_select_provider (X : Ext) (iters : List (World → World)) (w : World)
    (data1 : List Pkg) (data2 : Depend) (response : Int) (hfree : w.choice = CHOICE_FREE) :
    ∃ rows : List (List Str),
      question_cb X iters w (Question.select_provider data1 data2) response
        = (question_wait iters
            { w with
              choice := CHOICE_WAITING
              out := w.out ++
                [⟨w.client, "Debug".toList, [Arg.s "question %d (%p -- %p -- %p)\n".toList]⟩,
                 ⟨w.client, "AskSelectProvider".toList,
                  [Arg.s (X.dep_compute_string data2), Arg.aas rows]⟩] }).map
            (fun w3 => ({ w3 with choice := CHOICE_FREE }, w3.choice)) ∧
      rows = data1.map (fun p => [p.db, p.name, p.version]) ∧
      rows.length = data1.length ∧
      ∀ (k : Nat) (p : Pkg), data1[k]? = some p → rows[k]? = some [p.db, p.name, p.version] := by
  refine ⟨data1.map (fun p => [p.db, p.name, p.version]), ?_, rfl, by simp, ?_⟩
  · have hb : select_provider_builder data1 [] = data1.map (fun p => [p.db, p.name, p.version]) := by
      rw [select_provider_builder_eq]; rfl
    simp only [question_cb, debug, emit_signal, hfree, ne_eq, not_true_eq_false, if_false,
      question_prompt, hb, List.append_assoc, List.singleton_append]
    cases question_wait iters _ <;> rfl
  · intro k p hk
    simp [List.getElem?_map, hk]

theorem question_cb_select_provider_witness :
    ∃ rows : List (List Str),
      rows = [["repoA".toList, "pkg".toList, "1.0".toList],
              ["repoB".toList, "pkg".toList, "1.1".toList]] ∧
      rows[1]? = some ["repoB".toList, "pkg".toList, "1.1".toList] :=
  have ⟨rows, _, h2, _, h4⟩ := question_cb_select_provider sampleExt [] lockedWorld
    [⟨"pkg".toList, "1.0".toList, "repoA".toList⟩, ⟨"pkg".toList, "1.1".toList, "repoB".toList⟩]
    ⟨"pkg".toList, none, none, 1⟩ 0 (by decide)
  ⟨rows, h2, h4 1 ⟨"pkg".toList, "1.1".toList, "repoB".toList⟩ rfl⟩


/-! ## Engine adapter: `add_db` -/

theorem strstr_isSome_of_contains (needle : Str) (s : Str) (h : needle <:+: s) :
    (strstr s needle).isSome = true := by
  induction s with
  | nil =>
    have : needle = [] := List.eq_nil_of_infix_nil h
    subst this
    rfl
  | cons c cs ih =>
    unfold strstr
    split
    · rfl
    · rename_i hp
      rcases List.infix_cons_iff.mp h with h1 | h1
      · exact absurd (List.isPrefixOf_iff_prefix.mpr h1) hp
      · have := ih h1
        simpa using this

theorem substFrom_cons (needle replace : Str) (c : Char) (cs : Str) :
    substFrom needle replace 0 (c :: cs)
      = if needle.isPrefixOf (c :: cs) then
          replace ++ substFrom needle replace 0 (cs.drop (needle.length - 1))
        else c :: substFrom needle replace 0 cs := by
  simp only [substFrom]
  rw [substFrom_skip]

theorem arch_infix_after_repo (pre post tl : Str)
    (h : pre ++ "$arch".toList ++ post = "$repo".toList ++ tl) : "$arch".toList <:+: tl := by
  simp only [String.toList, List.cons_append, List.nil_append, List.append_assoc] at h
  rcases pre with _ | ⟨a1, _ | ⟨a2, _ | ⟨a3, _ | ⟨a4, _ | ⟨a5, pre5⟩⟩⟩⟩⟩
  all_goals simp at h
  exact ⟨pre5, post, by simp [← h.2.2.2.2.2]⟩

theorem substFrom_repo_arch (name post : Str) :
    substFrom "$repo".toList name 0 ("$arch".toList ++ post)
      = "$arch".toList ++ substFrom "$repo".toList name 0 post := by
  simp [substFrom_cons, List.isPrefixOf]

/-- Substituting `$repo` keeps every occurrence of `$arch`. -/
theorem arch_infix_replaceEvery_repo (name : Str) :
    ∀ (n : Nat) (s : Str), s.length ≤ n → "$arch".toList <:+: s →
      "$arch".toList <:+: replaceEvery s "$repo".toList name := by
  intro n
  induction n with
  | zero =>
    intro s hs h
    have : s = [] := List.length_eq_zero.mp (Nat.le_zero.mp hs)
    subst this
    have := List.eq_nil_of_infix_nil h
    simp at this
  | succ n ih =>
    intro s hs h
    cases s with
    | nil =>
      have := List.eq_nil_of_infix_nil h
      simp at this
    | cons c cs =>
      unfold replaceEvery
      obtain ⟨pre, post, hpp⟩ := h
      rw [substFrom_cons]
      split
      · rename_i hp
        obtain ⟨tl, htl⟩ := List.isPrefixOf_iff_prefix.mp hp
        have hinf : "$arch".toList <:+: tl := arch_infix_after_repo pre post tl (hpp.trans htl.symm)
        have hcs : cs = "repo".toList ++ tl := by
          simp only [String.toList, List.cons_append, List.nil_append, List.cons.injEq] at htl
          exact htl.2.symm
        have hdrop : cs.drop ("$repo".toList.length - 1) = tl := by
          rw [hcs]; rfl
        rw [hdrop]
        have hlen : tl.length ≤ n := by
          have := congrArg List.length hcs
          simp at this hs
          omega
        have := ih tl hlen hinf
        unfold replaceEvery at this
        exact this.trans (List.suffix_append name _).isInfix
      · cases pre with
        | nil =>
          simp only [List.nil_append] at hpp
          have := substFrom_repo_arch name post
          rw [hpp, substFrom_cons] at this
          rename_i hp
          rw [if_neg hp] at this
          rw [this]
          exact List.infix_append' [] _ _
        | cons a pre1 =>
          simp only [List.cons_append, List.cons.injEq] at hpp
          have hlen : cs.length ≤ n := by simp at hs; omega
          have := ih cs hlen ⟨pre1, post, hpp.2⟩
          unfold replaceEvery at this
          exact this.trans (List.infix_cons (List.infix_refl _))


theorem repo_ne_nil : "$repo".toList ≠ [] := by decide

theorem arch_ne_nil : "$arch".toList ≠ [] := by decide

theorem world_out_nil (w : World) : { w with out := w.out ++ [] } = w := by
  cases w; simp

theorem add_db_servers_without_arch (E : AddDbEngine) (name : Str) :
    ∀ (servers : List Str) (w : World) (added : List Str),
      (∀ t ∈ servers, (replaceEvery t "$repo".toList name).length + 1 < SIZE_MOD) →
      ∃ dbgs extra ending,
        add_db_servers E name none servers w added
          = some ({ w with out := w.out ++ dbgs }, added ++ extra, ending) ∧
        (∀ sig ∈ dbgs, sig.name = "Debug".toList) ∧
        ∀ pre t post, servers = pre ++ t :: post → "$arch".toList <:+: t →
          extra <+: pre.map (fun t => replaceEvery t "$repo".toList name) ∧
          ∃ message, ending = ServersEnd.failed message := by
  intro servers
  induction servers with
  | nil =>
    intro w added _
    refine ⟨[], [], ServersEnd.done, by simp [add_db_servers, world_out_nil], by simp, ?_⟩
    intro pre t post h
    simp at h
  | cons value rest ih =>
    intro w added hfit
    have hrep := strreplace_eq_replaceEvery value "$repo".toList name repo_ne_nil
      (hfit value (List.mem_cons_self _ _))
    have hfit' : ∀ t ∈ rest, (replaceEvery t "$repo".toList name).length + 1 < SIZE_MOD :=
      fun t ht => hfit t (List.mem_cons_of_mem _ ht)
    unfold add_db_servers
    simp only [hrep]
    by_cases harch : (strstr (replaceEvery value "$repo".toList name) "$arch".toList).isSome = true
    · refine ⟨[], [], _, by simp only [harch, if_true, List.append_nil]; rfl,
        by simp, ?_⟩
      intro pre t post _ _
      exact ⟨ List.nil_prefix, _, rfl⟩
    · simp only [harch, Bool.false_eq_true, if_false]
      by_cases hadd : E.add_server added (replaceEvery value "$repo".toList name) ≠ 0
      · refine ⟨[⟨w.client, "Debug".toList, _⟩], [], _,
          by simp only [if_pos hadd, debug, emit_signal, List.append_nil]; rfl, by simp, ?_⟩
        intro pre t post _ _
        exact ⟨ List.nil_prefix, _, rfl⟩
      · obtain ⟨dbgs, extra, ending, h1, h2, h3⟩ :=
          ih (debug w (sprintf "add server %s into %s".toList
            [replaceEvery value "$repo".toList name, name]))
            (added ++ [replaceEvery value "$repo".toList name]) hfit'
        refine ⟨⟨w.client, "Debug".toList, [Arg.s (sprintf "add server %s into %s".toList
            [replaceEvery value "$repo".toList name, name])]⟩ :: dbgs,
          replaceEvery value "$repo".toList name :: extra, ending, ?_, ?_, ?_⟩
        · rw [if_neg hadd, h1]
          simp [debug, emit_signal]
        · intro sig hsig
          rcases List.mem_cons.mp hsig with rfl | hsig
          · rfl
          · exact h2 sig hsig
        · intro pre t post hdec hinf
          cases pre with
          | nil =>
            simp only [List.nil_append, List.cons.injEq] at hdec
            obtain ⟨rfl, _⟩ := hdec
            exact absurd (strstr_isSome_of_contains _ _
              (arch_infix_replaceEvery_repo name _ value (Nat.le_refl _) hinf)) harch
          | cons v pre1 =>
            simp only [List.cons_append, List.cons.injEq] at hdec
            obtain ⟨rfl, hrest⟩ := hdec
            obtain ⟨hpre, hend⟩ := h3 pre1 t post hrest hinf
            refine ⟨?_, hend⟩
            simp only [List.map_cons]
            exact List.prefix_cons_inj _ |>.mpr hpre

theorem add_db_servers_with_arch (E : AddDbEngine) (name a : Str)
    (hadd : ∀ reg s, E.add_server reg s = 0) :
    ∀ (servers : List Str) (w : World) (added : List Str),
      (∀ t ∈ servers, (replaceEvery t "$repo".toList name).length + 1 < SIZE_MOD ∧
        (replaceEvery (replaceEvery t "$repo".toList name) "$arch".toList a).length + 1
          < SIZE_MOD) →
      ∃ dbgs,
        add_db_servers E name (some a) servers w added
          = some ({ w with out := w.out ++ dbgs },
              added ++ servers.map (fun t =>
                replaceEvery (replaceEvery t "$repo".toList name) "$arch".toList a),
              ServersEnd.done) ∧
        ∀ sig ∈ dbgs, sig.name = "Debug".toList := by
  intro servers
  induction servers with
  | nil =>
    intro w added _
    exact ⟨[], by simp [add_db_servers, world_out_nil], by simp⟩
  | cons value rest ih =>
    intro w added hfit
    obtain ⟨hf1, hf2⟩ := hfit value (List.mem_cons_self _ _)
    have hrep := strreplace_eq_replaceEvery value "$repo".toList name repo_ne_nil hf1
    have hrep2 := strreplace_eq_replaceEvery (replaceEvery value "$repo".toList name)
      "$arch".toList a arch_ne_nil hf2
    obtain ⟨dbgs, h1, h2⟩ := ih
      (debug w (sprintf "add server %s into %s".toList
        [replaceEvery (replaceEvery value "$repo".toList name) "$arch".toList a, name]))
      (added ++ [replaceEvery (replaceEvery value "$repo".toList name) "$arch".toList a])
      (fun t ht => hfit t (List.mem_cons_of_mem _ ht))
    refine ⟨⟨w.client, "Debug".toList, [Arg.s (sprintf "add server %s into %s".toList
        [replaceEvery (replaceEvery value "$repo".toList name) "$arch".toList a, name])]⟩
      :: dbgs, ?_, ?_⟩
    · unfold add_db_servers
      simp only [hrep, hrep2, Option.map_some', hadd, ne_eq, not_true_eq_false, if_false, h1]
      simp [debug, emit_signal]
    · intro sig hsig
      rcases List.mem_cons.mp hsig with rfl | hsig
      · rfl
      · exact h2 sig hsig


/-- C10: with an architecture `a` configured, for every repository name `r` and
every list of server templates, when the engine accepts the repository and each
server (and each substituted string fits in a `size_t`), `add_db` registers for
the repository, in template order, exactly one server per template `t`: `t` with
every `$repo` replaced by `r` and then every `$arch` replaced by `a`. -/
theorem add_db_registers_substituted_servers (E : AddDbEngine) (w : World) (r a : Str)
    (siglevel : Int) (servers : List Str) (harch : w.arch = some a)
    (hreg : E.register_ok = true) (hadd : ∀ reg s, E.add_server reg s = 0)
    (hfit : ∀ t ∈ servers, (replaceEvery t "$repo".toList r).length + 1 < SIZE_MOD ∧
      (replaceEvery (replaceEvery t "$repo".toList r) "$arch".toList a).length + 1
        < SIZE_MOD) :
    ∃ w1, add_db E w r siglevel servers = some w1 ∧
      w1.syncdbs = w.syncdbs ++ [⟨r, siglevel, servers.map (fun t =>
        replaceEvery (replaceEvery t "$repo".toList r) "$arch".toList a)⟩] := by
  obtain ⟨dbgs, h1, _⟩ := add_db_servers_with_arch E r a hadd servers w [] hfit
  unfold add_db
  rw [if_neg (by simp [hreg]), harch, h1]
  simp only [List.nil_append]
  split <;> exact ⟨_, rfl, rfl⟩

theorem add_db_registers_substituted_servers_witness :
    ∃ w1, add_db acceptingEngine { lockedWorld with arch := some "x86_64".toList }
        "core".toList 0 ["https://host/$repo/$arch".toList] = some w1 ∧
      w1.syncdbs = [⟨"core".toList, 0, ["https://host/core/x86_64".toList]⟩] :=
  have ⟨w1, h1, h2⟩ := add_db_registers_substituted_servers acceptingEngine
    { lockedWorld with arch := some "x86_64".toList } "core".toList "x86_64".toList 0
    ["https://host/$repo/$arch".toList] rfl rfl (fun _ _ => rfl) (by decide)
  ⟨w1, h1, h2.trans (by decide)⟩

/-! ## `strreplace` against its description -/

theorem strstr_some_split (needle : Str) (s : Str) (k : Nat)
    (h : strstr s needle = some k) :
    s = s.take k ++ needle ++ s.drop (k + needle.length) := by
  induction s generalizing k with
  | nil =>
    unfold strstr at h
    split at h
    · rename_i hp
      simp at h
      subst h
      have := List.isPrefixOf_iff_prefix.mp hp
      simp at this
      simp [this]
    · simp at h
  | cons c cs ih =>
    unfold strstr at h
    split at h
    · rename_i hp
      simp at h
      subst h
      obtain ⟨t, ht⟩ := List.isPrefixOf_iff_prefix.mp hp
      simp only [List.take_zero, List.nil_append, Nat.zero_add]
      rw [← ht]
      simp
    · simp only [Option.map_eq_some'] at h
      obtain ⟨k', hk', rfl⟩ := h
      have := ih k' hk'
      simp only [List.take_succ_cons, List.cons_append, List.cons.injEq, true_and]
      have e : k' + 1 + needle.length = (k' + needle.length) + 1 := by omega
      rw [e, List.drop_succ_cons]
      exact this

theorem strstr_none_of_not_contains (needle : Str) (s : Str) (h : ¬ needle <:+: s) :
    strstr s needle = none := by
  cases hs : strstr s needle with
  | none => rfl
  | some k =>
    exfalso
    apply h
    have := strstr_some_split needle s k hs
    exact ⟨s.take k, s.drop (k + needle.length), this.symm⟩

theorem not_contains_of_strstr_none (needle : Str) (s : Str) (h : strstr s needle = none) :
    ¬ needle <:+: s := by
  intro hc
  have := strstr_isSome_of_contains needle s hc
  rw [h] at this
  simp at this

theorem strstr_take_append (needle : Str) (s : Str) (k : Nat)
    (h : strstr s needle = some k) :
    strstr (s.take k ++ needle) needle = some (s.take k).length := by
  induction s generalizing k with
  | nil =>
    have hs := strstr_some_split needle [] k h
    simp at hs
    subst hs
    simp [strstr]
  | cons c cs ih =>
    have hsplit := strstr_some_split needle (c :: cs) k h
    unfold strstr at h
    split at h
    · simp at h
      subst h
      simp only [List.take_zero, List.nil_append, List.length_nil]
      cases needle with
      | nil => simp [strstr]
      | cons a as => simp [strstr]
    · rename_i hp
      simp only [Option.map_eq_some'] at h
      obtain ⟨k', hk', rfl⟩ := h
      have := ih k' hk'
      simp only [List.take_succ_cons, List.cons_append, List.length_cons]
      unfold strstr
      have hnp : ¬ needle.isPrefixOf (c :: (cs.take k' ++ needle)) = true := by
        intro hq
        apply hp
        have h1 := List.isPrefixOf_iff_prefix.mp hq
        apply List.isPrefixOf_iff_prefix.mpr
        refine h1.trans ?_
        refine ⟨cs.drop (k' + needle.length), ?_⟩
        have e : k' + 1 + needle.length = (k' + needle.length) + 1 := by omega
        rw [e] at hsplit
        simp only [List.take_succ_cons, List.cons_append, List.drop_succ_cons] at hsplit
        simp only [List.cons_append, List.append_assoc]
        rw [List.append_assoc] at hsplit
        exact hsplit.symm
      rw [if_neg hnp, this]
      rfl

theorem replaceEvery_joinWith (needle replace : Str) (hn : needle ≠ []) :
    ∀ (n : Nat) (s : Str), s.length ≤ n →
      ∃ gaps last, s = joinWith needle gaps last ∧
        replaceEvery s needle replace = joinWith replace gaps last ∧
        ¬ needle <:+: last ∧
        ∀ g ∈ gaps, strstr (g ++ needle) needle = some g.length := by
  intro n
  induction n with
  | zero =>
    intro s hs
    have : s = [] := List.length_eq_zero.mp (Nat.le_zero.mp hs)
    subst this
    refine ⟨[], [], rfl, rfl, ?_, by simp⟩
    intro h
    exact hn (List.eq_nil_of_infix_nil h)
  | succ n ih =>
    intro s hs
    cases hk : strstr s needle with
    | none =>
      refine ⟨[], s, rfl, ?_, not_contains_of_strstr_none needle s hk, by simp⟩
      simp [replaceEvery, joinWith, substFrom_of_strstr_none _ _ _ hk]
    | some k =>
      have hle := strstr_some_le needle s k hk
      have hpos : 0 < needle.length := List.length_pos.mpr hn
      obtain ⟨gaps, last, h1, h2, h3, h4⟩ := ih (s.drop (k + needle.length))
        (by simp only [List.length_drop]; omega)
      refine ⟨s.take k :: gaps, last, ?_, ?_, h3, ?_⟩
      · simp only [joinWith, ← h1]
        exact strstr_some_split needle s k hk
      · unfold replaceEvery at h2 ⊢
        rw [substFrom_of_strstr_some needle replace hn s k hk, h2]
        rfl
      · intro g hg
        rcases List.mem_cons.mp hg with rfl | hg
        · exact strstr_take_append needle s k hk
        · exact h4 g hg

/-- C11: for every string `str`, every non-empty `needle` and every `replace` (the
result and its NUL fitting in a `size_t`), `strreplace` returns `str` with every
occurrence of `needle`, found scanning from left to right without overlap,
replaced by `replace` and every other character kept in order: `str` splits as
`g₁ ++ needle ++ … ++ gₖ ++ needle ++ last`, each marked `needle` being the first
occurrence in what is left to scan and `last` containing none, and the result is
`g₁ ++ replace ++ … ++ gₖ ++ replace ++ last`. When `needle` does not occur in
`str` the result is `str`. -/
theorem strreplace_replaces_every_occurrence (str needle replace : Str) (hn : needle ≠ [])
    (hfit : (replaceEvery str needle replace).length + 1 < SIZE_MOD) :
    (∃ gaps last, str = joinWith needle gaps last ∧
      strreplace str needle replace = some (joinWith replace gaps last) ∧
      ¬ needle <:+: last ∧
      ∀ g ∈ gaps, strstr (g ++ needle) needle = some g.length) ∧
    (¬ needle <:+: str → strreplace str needle replace = some str) := by
  have hrep := strreplace_eq_replaceEvery str needle replace hn hfit
  obtain ⟨gaps, last, h1, h2, h3, h4⟩ :=
    replaceEvery_joinWith needle replace hn str.length str (Nat.le_refl _)
  refine ⟨⟨gaps, last, h1, by rw [hrep, h2], h3, h4⟩, ?_⟩
  intro hno
  have hnone := strstr_none_of_not_contains needle str hno
  rw [hrep]
  simp [replaceEvery, substFrom_of_strstr_none _ _ _ hnone]

theorem strreplace_replaces_every_occurrence_witness :
    (∃ gaps last, "aXXbXXXc".toList = joinWith "XX".toList gaps last ∧
      strreplace "aXXbXXXc".toList "XX".toList "-".toList = some (joinWith "-".toList gaps last) ∧
      ¬ "XX".toList <:+: last ∧
      ∀ g ∈ gaps, strstr (g ++ "XX".toList) "XX".toList = some g.length) ∧
    (¬ "XX".toList <:+: "aXXbXXXc".toList →
      strreplace "aXXbXXXc".toList "XX".toList "-".toList = some "aXXbXXXc".toList) :=
  strreplace_replaces_every_occurrence "aXXbXXXc".toList "XX".toList "-".toList
    (by decide) (by decide)

/-! ## Event relay -/

theorem world_same (w : World) : { w with out := w.out ++ [], calls := w.calls ++ [] } = w := by
  cases w; simp

theorem emit_frame (w : World) (name : Str) (args : List Arg)
    (hn : name ∈ relay_signal_names) :
    ∃ sigs logs, emit_signal w name args
        = { w with out := w.out ++ sigs, calls := w.calls ++ logs } ∧
      (∀ sig ∈ sigs, sig.name ∈ relay_signal_names) ∧
      (∀ c ∈ logs, ∃ text, c = AlpmCall.logaction text) :=
  ⟨[⟨w.client, name, args⟩], [], by simp [emit_signal], by simpa using hn, by simp⟩

theorem logged_emit_frame (w : World) (text name : Str) (args : List Arg)
    (hn : name ∈ relay_signal_names) :
    ∃ sigs logs, emit_signal (alpm_logaction w text) name args
        = { w with out := w.out ++ sigs, calls := w.calls ++ logs } ∧
      (∀ sig ∈ sigs, sig.name ∈ relay_signal_names) ∧
      (∀ c ∈ logs, ∃ text, c = AlpmCall.logaction text) :=
  ⟨[⟨w.client, name, args⟩], [AlpmCall.logaction text], by simp [emit_signal, alpm_logaction],
    by simpa using hn, by simp⟩

theorem same_frame (w : World) :
    ∃ sigs logs, w = { w with out := w.out ++ sigs, calls := w.calls ++ logs } ∧
      (∀ sig ∈ sigs, sig.name ∈ relay_signal_names) ∧
      (∀ c ∈ logs, ∃ text, c = AlpmCall.logaction text) :=
  ⟨[], [], (world_same w).symm, by simp, by simp⟩

theorem run_relay_frame (X : Ext) (K : Alpm) (V : PkgSets) (w : World) (r : Relay) :
    ∃ sigs logs, run_relay X K V w r
        = { w with out := w.out ++ sigs, calls := w.calls ++ logs } ∧
      (∀ sig ∈ sigs, sig.name ∈ relay_signal_names) ∧
      (∀ c ∈ logs, ∃ text, c = AlpmCall.logaction text) := by
  cases r with
  | event event =>
    cases event <;>
      first
      | exact same_frame w
      | exact logged_emit_frame w _ _ _ (by decide)
      | exact emit_frame w _ _ (by decide)
  | progress e p pc h c =>
    cases e <;>
      first
      | exact same_frame w
      | exact emit_frame w _ _ (by decide)
  | dl_total t => exact emit_frame w _ _ (by decide)
  | dl_progress f x t => exact emit_frame w _ _ (by decide)
  | log l f t =>
    simp only [run_relay, log_cb]
    split
    · exact same_frame w
    · split
      · exact same_frame w
      · split
        · exact same_frame w
        · exact emit_frame w _ _ (by decide)

theorem run_relays_frame (X : Ext) (K : Alpm) (V : PkgSets) (rs : List Relay) (w : World) :
    ∃ sigs logs, run_relays X K V w rs
        = { w with out := w.out ++ sigs, calls := w.calls ++ logs } ∧
      (∀ sig ∈ sigs, sig.name ∈ relay_signal_names) ∧
      (∀ c ∈ logs, ∃ text, c = AlpmCall.logaction text) := by
  induction rs generalizing w with
  | nil => exact ⟨[], [], (world_same w).symm, by simp, by simp⟩
  | cons r rest ih =>
    obtain ⟨s1, l1, h1, hs1, hl1⟩ := run_relay_frame X K V w r
    obtain ⟨s2, l2, h2, hs2, hl2⟩ := ih (run_relay X K V w r)
    refine ⟨s1 ++ s2, l1 ++ l2, ?_, ?_, ?_⟩
    · simp only [run_relays, List.foldl_cons] at h2 ⊢
      rw [h2, h1]
      simp
    · intro sig hsig
      rcases List.mem_append.mp hsig with h | h
      · exact hs1 sig h
      · exact hs2 sig h
    · intro c hc
      rcases List.mem_append.mp hc with h | h
      · exact hl1 c h
      · exact hl2 c h

/-! ## Engine adapter: `sync_dbs` -/

theorem sync_notifications_relay (sigs : List Signal)
    (h : ∀ sig ∈ sigs, sig.name ∈ relay_signal_names) : sync_notifications sigs = [] := by
  have hdisj : ∀ n ∈ relay_signal_names, n ∉
      ["SyncDbStart".toList, "SyncDbEnd".toList, "MethodFinished".toList,
       "MethodFailed".toList] := by decide
  apply List.filter_eq_nil_iff.mpr
  intro sig hsig
  simpa using hdisj sig.name (h sig hsig)

theorem engine_call_frame (X : Ext) (K : Alpm) (V : PkgSets) (w : World) (call : AlpmCall)
    (c : EngineCall) :
    ∃ sigs logs, engine_call X K V w call c
        = { w with out := w.out ++ sigs, calls := w.calls ++ [call] ++ logs } ∧
      (∀ sig ∈ sigs, sig.name ∈ relay_signal_names) ∧
      (∀ l ∈ logs, ∃ text, l = AlpmCall.logaction text) := by
  obtain ⟨sigs, logs, h, hs, hl⟩ :=
    run_relays_frame X K V c.callbacks { w with calls := w.calls ++ [call] }
  exact ⟨sigs, logs, by rw [engine_call, h], hs, hl⟩

theorem sync_dbs_step_trace (X : Ext) (K : Alpm) (V : PkgSets) (E : SyncEngine) (w : World)
    (db : SyncDb) :
    ∃ sigs logs, sync_dbs_step X K V E w db
        = { w with
            out := w.out ++ ([sync_start_signal w.client db] ++ sigs ++
              [sync_end_signal K w.client (sync_outcome (E.db_update db).ret)])
            calls := w.calls ++ logs } ∧
      ∀ sig ∈ sigs, sig.name ∈ relay_signal_names := by
  obtain ⟨sigs, logs, hcall, hsigs, _⟩ := engine_call_frame X K V
    (emit_signal w "SyncDbStart".toList [Arg.s db.name]) (AlpmCall.db_update db.name)
    (E.db_update db)
  refine ⟨sigs, ?_, ?_, hsigs⟩
  · exact if (E.db_update db).ret < 0 then
        [AlpmCall.db_update db.name] ++ logs ++ [AlpmCall.logaction
          (sprintf "Failed to synchronize database %s: %s\n".toList [db.name, E.strerror])]
      else if (E.db_update db).ret = 1 then [AlpmCall.db_update db.name] ++ logs
      else [AlpmCall.db_update db.name] ++ logs ++ [AlpmCall.logaction
          (sprintf "synchronized database %s\n".toList [db.name])]
  · unfold sync_dbs_step
    simp only [hcall]
    by_cases h1 : (E.db_update db).ret < 0
    · simp [h1, sync_outcome, alpm_logaction, emit_signal, sync_start_signal, sync_end_signal]
    · by_cases h2 : (E.db_update db).ret = 1
      · simp [h2, sync_outcome, emit_signal, sync_start_signal, sync_end_signal]
      · simp [h1, h2, sync_outcome, alpm_logaction, emit_signal, sync_start_signal,
          sync_end_signal]

theorem sync_dbs_loop_trace (X : Ext) (K : Alpm) (V : PkgSets) (E : SyncEngine) :
    ∀ (dbs : List SyncDb) (w : World),
      ∃ extra logs, sync_dbs_loop X K V E dbs w
          = { w with out := w.out ++ extra, calls := w.calls ++ logs } ∧
        sync_notifications extra = dbs.flatMap (fun db =>
          [sync_start_signal w.client db,
           sync_end_signal K w.client (sync_outcome (E.db_update db).ret)]) ∧
        ∀ sig ∈ extra, sig.name ∈ relay_signal_names ∨
          sig.name = "SyncDbStart".toList ∨ sig.name = "SyncDbEnd".toList := by
  intro dbs
  induction dbs with
  | nil =>
    intro w
    exact ⟨[], [], (world_same w).symm, rfl, by simp⟩
  | cons db rest ih =>
    intro w
    obtain ⟨sigs, logs2, hstep, hsigs⟩ := sync_dbs_step_trace X K V E w db
    obtain ⟨extra, logs3, h3, h4, h5⟩ := ih (sync_dbs_step X K V E w db)
    refine ⟨[sync_start_signal w.client db] ++ sigs ++
        [sync_end_signal K w.client (sync_outcome (E.db_update db).ret)] ++ extra,
      logs2 ++ logs3, ?_, ?_, ?_⟩
    · rw [sync_dbs_loop, h3, hstep]
      simp
    · have hrel := sync_notifications_relay sigs hsigs
      have hc : (sync_dbs_step X K V E w db).client = w.client := by rw [hstep]
      rw [hc] at h4
      unfold sync_notifications at hrel h4 ⊢
      simp only [List.filter_append, hrel, h4, List.flatMap_cons]
      simp [sync_start_signal, sync_end_signal]
    · intro sig hsig
      simp only [List.mem_append, List.mem_singleton] at hsig
      rcases hsig with ((rfl | h) | rfl) | h
      · exact Or.inr (Or.inl rfl)
      · exact Or.inl (hsigs sig h)
      · exact Or.inr (Or.inr rfl)
      · exact h5 sig h

theorem filter_filter_of_imp {α : Type} (p q : α → Bool)
    (h : ∀ a, p a = true → q a = true) (l : List α) :
    l.filter p = (l.filter q).filter p := by
  rw [List.filter_filter]
  congr 1
  funext a
  cases hp : p a
  · simp
  · simp [h a hp]

theorem sync_dbs_emitted (X : Ext) (K : Alpm) (V : PkgSets) (E : SyncEngine) (w : World) :
    ∃ extra, emitted w (sync_dbs X K V E w)
        = [⟨w.client, "SyncDbs".toList, [Arg.i w.syncdbs.length]⟩] ++ extra ++
          [⟨w.client, "MethodFinished".toList, [Arg.s "SyncDbs".toList]⟩] ∧
      sync_notifications extra = w.syncdbs.flatMap (fun db =>
        [sync_start_signal w.client db,
         sync_end_signal K w.client (sync_outcome (E.db_update db).ret)]) ∧
      ∀ sig ∈ extra, sig.name ∈ relay_signal_names ∨
        sig.name = "SyncDbStart".toList ∨ sig.name = "SyncDbEnd".toList := by
  obtain ⟨extra, logs, h1, h2, h3⟩ := sync_dbs_loop_trace X K V E w.syncdbs
    (emit_signal w "SyncDbs".toList [Arg.i w.syncdbs.length])
  refine ⟨extra, ?_, h2, h3⟩
  apply emitted_append
  show (method_finished (sync_dbs_loop X K V E w.syncdbs
    (emit_signal w "SyncDbs".toList [Arg.i w.syncdbs.length])) "SyncDbs".toList).out = _
  rw [h1]
  simp [method_finished, emit_signal]

theorem flatMap_pairs_eq_zipWith (K : Alpm) (client : Option Str) (f : SyncDb → sync_db_results_t)
    (dbs : List SyncDb) :
    dbs.flatMap (fun db => [sync_start_signal client db, sync_end_signal K client (f db)])
      = (List.zipWith (fun db e => [sync_start_signal client db, e]) dbs
          (dbs.map (fun db => sync_end_signal K client (f db)))).flatten := by
  induction dbs with
  | nil => rfl
  | cons db rest ih => simp [ih]

/-- C12: for every list of `N` registered repositories and every combination of
update results, the synchronisation notifications `sync_dbs` emits are exactly
`N` pairs `SyncDbStart`, `SyncDbEnd`, one pair per repository in registration
order, each start (naming its repository) followed by its end with nothing but
signals relayed from the engine's callbacks in between, and then exactly one
`MethodFinished ("SyncDbs")`; no `MethodFailed` is emitted. The run starts with
the signal `SyncDbs (N)`. -/
theorem sync_dbs_start_end_pairs (X : Ext) (K : Alpm) (V : PkgSets) (E : SyncEngine)
    (w : World) :
    ∃ ends : List Signal,
      ends.length = w.syncdbs.length ∧
      (∀ e ∈ ends, e.name = "SyncDbEnd".toList) ∧
      sync_notifications (emitted w (sync_dbs X K V E w))
        = (List.zipWith (fun db e => [sync_start_signal w.client db, e]) w.syncdbs ends).flatten
          ++ [⟨w.client, "MethodFinished".toList, [Arg.s "SyncDbs".toList]⟩] ∧
      failures (emitted w (sync_dbs X K V E w)) = [] ∧
      (emitted w (sync_dbs X K V E w)).head?
        = some ⟨w.client, "SyncDbs".toList, [Arg.i w.syncdbs.length]⟩ := by
  obtain ⟨extra, h1, h2, _⟩ := sync_dbs_emitted X K V E w
  have hsync : sync_notifications (emitted w (sync_dbs X K V E w))
      = w.syncdbs.flatMap (fun db =>
          [sync_start_signal w.client db,
           sync_end_signal K w.client (sync_outcome (E.db_update db).ret)])
        ++ [⟨w.client, "MethodFinished".toList, [Arg.s "SyncDbs".toList]⟩] := by
    rw [h1]
    unfold sync_notifications at h2 ⊢
    simp only [List.filter_append, h2]
    simp
  refine ⟨w.syncdbs.map (fun db =>
      sync_end_signal K w.client (sync_outcome (E.db_update db).ret)), by simp, ?_, ?_, ?_, ?_⟩
  · intro e he
    obtain ⟨db, _, rfl⟩ := List.mem_map.mp he
    rfl
  · rw [hsync, flatMap_pairs_eq_zipWith]
  · have hff : failures (emitted w (sync_dbs X K V E w))
        = failures (sync_notifications (emitted w (sync_dbs X K V E w))) := by
      unfold failures sync_notifications
      apply filter_filter_of_imp
      intro sig hsig
      simp only [decide_eq_true_eq] at hsig ⊢
      rw [hsig]
      decide
    rw [hff, hsync]
    have hne1 : ¬ ("SyncDbStart".toList = "MethodFailed".toList) := by decide
    have hne2 : ¬ ("SyncDbEnd".toList = "MethodFailed".toList) := by decide
    have hne3 : ¬ ("MethodFinished".toList = "MethodFailed".toList) := by decide
    unfold failures
    rw [List.filter_append]
    have : ∀ dbs : List SyncDb, List.filter (fun sig => decide (sig.name = "MethodFailed".toList))
        (dbs.flatMap (fun db =>
          [sync_start_signal w.client db,
           sync_end_signal K w.client (sync_outcome (E.db_update db).ret)])) = [] := by
      intro dbs
      induction dbs with
      | nil => rfl
      | cons db rest ih =>
        rw [List.flatMap_cons, List.filter_append, ih]
        simp [sync_start_signal, sync_end_signal, hne1, hne2]
    rw [this]
    simp [hne3]
  · rw [h1]
    rfl

/-- C13: the outcomes carried by the `SyncDbEnd` signals of `sync_dbs` are, in
registration order, the classification of each repository's update result:
`SYNC_FAILURE` when the result is negative, `SYNC_NOT_NEEDED` when it is `1`,
`SYNC_SUCCESS` for every other result. -/
theorem sync_dbs_outcomes (X : Ext) (K : Alpm) (V : PkgSets) (E : SyncEngine) (w : World) :
    (emitted w (sync_dbs X K V E w)).filter (fun sig => sig.name = "SyncDbEnd".toList)
      = w.syncdbs.map (fun db =>
          (⟨w.client, "SyncDbEnd".toList,
            [Arg.i (K.sync_code (sync_outcome (E.db_update db).ret))]⟩ : Signal)) ∧
    ∀ ret : Int,
      (ret < 0 → sync_outcome ret = sync_db_results_t.SYNC_FAILURE) ∧
      (ret = 1 → sync_outcome ret = sync_db_results_t.SYNC_NOT_NEEDED) ∧
      (0 ≤ ret → ret ≠ 1 → sync_outcome ret = sync_db_results_t.SYNC_SUCCESS) := by
  constructor
  · obtain ⟨extra, h1, h2, _⟩ := sync_dbs_emitted X K V E w
    have hne1 : ¬ ("SyncDbs".toList = "SyncDbEnd".toList) := by decide
    have hne2 : ¬ ("MethodFinished".toList = "SyncDbEnd".toList) := by decide
    have hne3 : ¬ ("SyncDbStart".toList = "SyncDbEnd".toList) := by decide
    have hee : extra.filter (fun sig => sig.name = "SyncDbEnd".toList)
        = (sync_notifications extra).filter (fun sig => sig.name = "SyncDbEnd".toList) := by
      unfold sync_notifications
      apply filter_filter_of_imp
      intro sig hsig
      simp only [decide_eq_true_eq] at hsig ⊢
      rw [hsig]
      decide
    rw [h1, List.filter_append, List.filter_append, hee, h2]
    have : ∀ dbs : List SyncDb, List.filter (fun sig => decide (sig.name = "SyncDbEnd".toList))
        (dbs.flatMap (fun db =>
          [sync_start_signal w.client db,
           sync_end_signal K w.client (sync_outcome (E.db_update db).ret)]))
        = dbs.map (fun db =>
          (⟨w.client, "SyncDbEnd".toList,
            [Arg.i (K.sync_code (sync_outcome (E.db_update db).ret))]⟩ : Signal)) := by
      intro dbs
      induction dbs with
      | nil => rfl
      | cons db rest ih =>
        rw [List.flatMap_cons, List.filter_append, ih]
        simp [sync_start_signal, sync_end_signal, hne3]
    rw [this]
    simp [hne1, hne2]
  · intro ret
    refine ⟨fun h => by simp [sync_outcome, h], fun h => by simp [sync_outcome, h], ?_⟩
    intro h0 h1
    have : ¬ ret < 0 := by omega
    simp [sync_outcome, this, h1]

/-! ## Event relay: optional dependencies of an upgrade -/

theorem strcmp_eq_zero_iff (a b : Str) : strcmp a b = 0 ↔ a = b := by
  induction a generalizing b with
  | nil => cases b <;> simp [strcmp]
  | cons x xs ih =>
    cases b with
    | nil => simp [strcmp]
    | cons y ys =>
      unfold strcmp
      by_cases hxy : x = y
      · simp [hxy, ih]
      · rw [if_neg hxy]
        split <;> simp [hxy]

theorem depend_cmp_eq_zero_iff (dep1 dep2 : Depend) :
    depend_cmp dep1 dep2 = 0 ↔
      dep1.name = dep2.name ∧ dep1.mod = dep2.mod ∧ dep1.version = dep2.version ∧
        dep1.desc = dep2.desc := by
  unfold depend_cmp
  by_cases hn : strcmp dep1.name dep2.name = 0
  · have hname := (strcmp_eq_zero_iff _ _).mp hn
    simp only [hn, if_true]
    by_cases hm : dep1.mod - dep2.mod = 0
    · have hmod : dep1.mod = dep2.mod := by omega
      simp only [hm, if_true]
      cases hv1 : dep1.version <;> cases hv2 : dep2.version <;>
        cases hd1 : dep1.desc <;> cases hd2 : dep2.desc <;>
        simp only [hname, hmod, true_and] <;>
        first
        | simp [strcmp_eq_zero_iff]; done
        | (rename_i v1 v2 d1 d2
           by_cases hv : v1 = v2
           · simp [hv, strcmp_eq_zero_iff]
           · have := (strcmp_eq_zero_iff v1 v2).not.mpr hv
             simp [hv, this])
        | (rename_i v1 v2 d
           by_cases hv : v1 = v2
           · simp [hv, strcmp_eq_zero_iff]
           · have := (strcmp_eq_zero_iff v1 v2).not.mpr hv
             simp [hv, this])
    · have hmod : dep1.mod ≠ dep2.mod := by omega
      simp only [hm, if_false]
      constructor
      · intro h; exact h.elim
      · intro h; exact absurd h.2.1 hmod
  · have hname : dep1.name ≠ dep2.name := fun h => hn ((strcmp_eq_zero_iff _ _).mpr h)
    simp only [hn, if_false]
    constructor
    · intro h; exact h.elim
    · intro h; exact absurd h.1 hname

theorem depend_cmp_eq_zero_iff_eq (dep1 dep2 : Depend) : depend_cmp dep1 dep2 = 0 ↔ dep1 = dep2 := by
  rw [depend_cmp_eq_zero_iff]
  constructor
  · intro h
    cases dep1
    cases dep2
    simp only at h
    simp [h]
  · intro h
    subst h
    exact ⟨rfl, rfl, rfl, rfl⟩

theorem optdeps_builder_eq (X : Ext) (V : PkgSets) (deps : List Depend) (builder : List Str) :
    optdeps_builder X V deps builder = builder ++ deps.map (make_optstring X V) := by
  induction deps generalizing builder with
  | nil => simp [optdeps_builder]
  | cons d rest ih => simp [optdeps_builder, ih]

theorem sampleAlpm_list_diff : list_diff_contract sampleAlpm := by
  intro lhs rhs _ _ x
  simp [sampleAlpm, List.mem_filter, List.all_eq_true]

theorem make_optstring_eq (X : Ext) (V : PkgSets) (d : Depend) :
    make_optstring X V d = X.dep_compute_string d ++
      (if d.name ∈ V.localdb then " [installed]".toList
       else if d.name ∈ V.trans_add then " [pending]".toList else []) := by
  unfold make_optstring
  split_ifs <;> simp [gettext]

/-- C14: for optional-dependency lists `old` and `new` without duplicates (and
`alpm_list_diff` behaving as libalpm documents it on such lists), the array of
strings of the signal `EventUpgraded` and of the signal `EventDowngraded` holds,
for each member of a delta, its computed dependency string followed by
` [installed]` when a local package has its name, else by ` [pending]` when a
package the transaction adds has its name, else by nothing; the delta contains
exactly the entries of `new` for which no entry of `old` compares equal under
`depend_cmp`, that is has the same name, comparison mode, version and
description. When `new` is `old` with one more entry `c`, the delta is exactly
`c` and the strings of the notice are exactly the string of `c`. -/
theorem event_cb_optdeps_delta (X : Ext) (K : Alpm) (V : PkgSets) (w : World)
    (data1 data2 : EventPkg) (hold : data2.optdepends.Nodup) (hnew : data1.optdepends.Nodup)
    (hdiff : list_diff_contract K) :
    ∃ delta : List Depend,
      emitted w (event_cb X K V w (AlpmEvent.UPGRADE_DONE data1 data2))
        = [⟨w.client, "EventUpgraded".toList,
            [Arg.s data1.name, Arg.s data2.version, Arg.s data1.version,
             Arg.as (delta.map (fun d => X.dep_compute_string d ++
              (if d.name ∈ V.localdb then " [installed]".toList
               else if d.name ∈ V.trans_add then " [pending]".toList else [])))]⟩] ∧
      emitted w (event_cb X K V w (AlpmEvent.DOWNGRADE_DONE data1 data2))
        = [⟨w.client, "EventDowngraded".toList,
            [Arg.s data1.name, Arg.s data2.version, Arg.s data1.version,
             Arg.as (delta.map (fun d => X.dep_compute_string d ++
              (if d.name ∈ V.localdb then " [installed]".toList
               else if d.name ∈ V.trans_add then " [pending]".toList else [])))]⟩] ∧
      (∀ d, d ∈ delta ↔
        d ∈ data1.optdepends ∧ ∀ o ∈ data2.optdepends, depend_cmp d o ≠ 0) ∧
      (∀ d, d ∈ delta ↔
        d ∈ data1.optdepends ∧ ∀ o ∈ data2.optdepends,
          ¬ (d.name = o.name ∧ d.mod = o.mod ∧ d.version = o.version ∧ d.desc = o.desc)) ∧
      (∀ c, data1.optdepends = data2.optdepends ++ [c] →
        (∀ d, d ∈ delta ↔ d = c) ∧
        ∀ s, s ∈ delta.map (fun d => X.dep_compute_string d ++
              (if d.name ∈ V.localdb then " [installed]".toList
               else if d.name ∈ V.trans_add then " [pending]".toList else []))
          ↔ s = X.dep_compute_string c ++
              (if c.name ∈ V.localdb then " [installed]".toList
               else if c.name ∈ V.trans_add then " [pending]".toList else [])) := by
  have hmem := hdiff data1.optdepends data2.optdepends hnew hold
  have hrender : (fun d => X.dep_compute_string d ++
      (if d.name ∈ V.localdb then " [installed]".toList
       else if d.name ∈ V.trans_add then " [pending]".toList else []))
      = make_optstring X V := by
    funext d
    exact (make_optstring_eq X V d).symm
  have hc : ∀ c, data1.optdepends = data2.optdepends ++ [c] →
      ∀ d, d ∈ K.list_diff depend_cmp data1.optdepends data2.optdepends ↔ d = c := by
    intro c hc d
    rw [hmem d]
    have hnd : (data2.optdepends ++ [c]).Nodup := hc ▸ hnew
    have hcnot : c ∉ data2.optdepends := by
      intro hin
      have := List.nodup_append.mp hnd
      exact this.2.2 hin (List.mem_singleton_self c)
    constructor
    · rintro ⟨h1, h2⟩
      rw [hc] at h1
      rcases List.mem_append.mp h1 with h | h
      · exact absurd ((depend_cmp_eq_zero_iff_eq d d).mpr rfl) (h2 d h)
      · exact List.mem_singleton.mp h
    · rintro rfl
      refine ⟨by rw [hc]; simp, ?_⟩
      intro o ho hf
      have := (depend_cmp_eq_zero_iff_eq d o).mp hf
      exact hcnot (this ▸ ho)
  refine ⟨K.list_diff depend_cmp data1.optdepends data2.optdepends, ?_, ?_, hmem, ?_, ?_⟩
  · rw [hrender]
    simp [event_cb, emit_signal, alpm_logaction, emitted, optdeps_builder_eq]
  · rw [hrender]
    simp [event_cb, emit_signal, alpm_logaction, emitted, optdeps_builder_eq]
  · intro d
    rw [hmem d]
    constructor
    · rintro ⟨h1, h2⟩
      exact ⟨h1, fun o ho hf => h2 o ho ((depend_cmp_eq_zero_iff d o).mpr hf)⟩
    · rintro ⟨h1, h2⟩
      exact ⟨h1, fun o ho hf => h2 o ho ((depend_cmp_eq_zero_iff d o).mp hf)⟩
  · intro c hceq
    refine ⟨hc c hceq, ?_⟩
    intro s
    simp only [List.mem_map]
    constructor
    · rintro ⟨d, hd, rfl⟩
      rw [(hc c hceq d).mp hd]
    · rintro rfl
      exact ⟨c, (hc c hceq c).mpr rfl, rfl⟩

theorem event_cb_optdeps_delta_witness :
    emitted lockedWorld (event_cb sampleExt sampleAlpm sampleSets lockedWorld
        (AlpmEvent.UPGRADE_DONE ⟨"vim".toList, "9.1".toList, [depA, depB, depC]⟩
          ⟨"vim".toList, "9.0".toList, [depA, depB]⟩))
      = [⟨some ":1.7".toList, "EventUpgraded".toList,
          [Arg.s "vim".toList, Arg.s "9.0".toList, Arg.s "9.1".toList,
           Arg.as ["zsh [pending]".toList]]⟩] ∧
    ∃ delta : List Depend,
      (∀ d, d ∈ delta ↔ d = depC) ∧
      ∀ s, s ∈ delta.map (fun d => sampleExt.dep_compute_string d ++
            (if d.name ∈ sampleSets.localdb then " [installed]".toList
             else if d.name ∈ sampleSets.trans_add then " [pending]".toList else []))
        ↔ s = "zsh [pending]".toList :=
  have ⟨delta, _, _, _, _, h5⟩ := event_cb_optdeps_delta sampleExt sampleAlpm sampleSets
    lockedWorld ⟨"vim".toList, "9.1".toList, [depA, depB, depC]⟩
    ⟨"vim".toList, "9.0".toList, [depA, depB]⟩ (by decide) (by decide) sampleAlpm_list_diff
  ⟨by decide, delta, (h5 depC rfl).1, (h5 depC rfl).2⟩

/-! ## Session gate: a refused authorization -/

/-- C20: when the verdict of the authority for the first `Init` is a denial or an
error, `init` emits exactly one signal, a `MethodFailed ("Init", ...)`, asks the
main loop to quit and leaves the session unauthorized: `is_init` stays false
and `client` stays as it was (NULL when no client was locked). -/
theorem init_refused (authority : Str → Verdict) (w : World) (sender : Str)
    (hinit : w.is_init = false) (hverdict : authority sender ≠ Verdict.granted) :
    (∃ message, emitted w (init authority w sender)
      = [⟨w.client, "MethodFailed".toList, [Arg.s "Init".toList, Arg.s message]⟩]) ∧
    (init authority w sender).quit = true ∧
    (init authority w sender).is_init = false ∧
    (init authority w sender).client = w.client ∧
    (w.client = none → (init authority w sender).client = none) ∧
    (init authority w sender).auth_checks = w.auth_checks ++ [sender] := by
  unfold init
  simp only [hinit, Bool.false_eq_true, if_false]
  cases hv : authority sender with
  | granted => exact absurd hv hverdict
  | denied =>
    refine ⟨⟨sprintf (gettext "Authorization from PolicyKit failed\n".toList) [], ?_⟩,
      rfl, rfl, rfl, fun h => h, rfl⟩
    simp [method_failed, emit_signal, emitted]
  | error message =>
    refine ⟨⟨sprintf message [], ?_⟩, rfl, rfl, rfl, fun h => h, rfl⟩
    simp [method_failed, emit_signal, emitted]

theorem init_refused_witness :
    (∃ message, emitted freshWorld (init (fun _ => Verdict.denied) freshWorld ":1.7".toList)
      = [⟨none, "MethodFailed".toList, [Arg.s "Init".toList, Arg.s message]⟩]) ∧
    (init (fun _ => Verdict.denied) freshWorld ":1.7".toList).quit = true ∧
    (init (fun _ => Verdict.denied) freshWorld ":1.7".toList).is_init = false ∧
    (init (fun _ => Verdict.denied) freshWorld ":1.7".toList).client = none :=
  have h := init_refused (fun _ => Verdict.denied) freshWorld ":1.7".toList rfl (by decide)
  ⟨h.1, h.2.1, h.2.2.1, h.2.2.2.1⟩

/-! ## Error formatter: the line of a conflict -/

/-- C17 (failing input): an `InitAlpm` for which `alpm_option_set_default_siglevel`
fails. `init_alpm` emits one `MethodFailed` whose first field is the message text
`Unable to set default siglevel: %s` and whose second field is the error string
of the engine; its first field is not `InitAlpm`. -/
theorem init_alpm_siglevel_failure_name :
    failures (emitted lockedWorld (init_alpm siglevelEngine lockedWorld "x86_64".toList))
      = [⟨some ":1.7".toList, "MethodFailed".toList,
          [Arg.s "Unable to set default siglevel: %s\n".toList,
           Arg.s "wrong or NULL argument passed".toList]⟩] ∧
    "Unable to set default siglevel: %s\n".toList ≠ "InitAlpm".toList := by
  decide

/-! ## One completion notification per run -/

theorem completion_quiet (sigs : List Signal) (h : ∀ sig ∈ sigs, sig.name ∈ quiet_names) :
    completion_notifications sigs = [] := by
  have hdisj : ∀ n ∈ quiet_names, n ∉
      ["MethodFinished".toList, "MethodFailed".toList, "GetPackagesFinished".toList] := by
    decide
  apply List.filter_eq_nil_iff.mpr
  intro sig hsig
  simpa using hdisj sig.name (h sig hsig)

theorem relay_quiet (n : Str) (h : n ∈ relay_signal_names) : n ∈ quiet_names :=
  List.mem_append_left _ h

theorem failed_is_completion : "MethodFailed".toList ∈ completion_names := by decide

theorem finished_is_completion : "MethodFinished".toList ∈ completion_names := by decide

theorem get_packages_finished_is_completion :
    "GetPackagesFinished".toList ∈ completion_names := by decide

theorem completion_last (sigs : List Signal) (sig : Signal)
    (h : ∀ s ∈ sigs, s.name ∈ quiet_names) (hsig : sig.name ∈ completion_names) :
    completion_notifications (sigs ++ [sig]) = [sig] := by
  have h0 := completion_quiet sigs h
  unfold completion_notifications at h0 ⊢
  rw [List.filter_append, h0]
  simp only [List.nil_append]
  rw [List.filter_cons_of_pos (by simpa [completion_names] using hsig)]
  rfl

theorem frame_refl (w : World) : Frame w w [] [] w.trans := by
  unfold Frame
  cases w
  simp

theorem frame_client {w w1 : World} {sigs : List Signal} {logs : List AlpmCall} {t : Bool}
    (h : Frame w w1 sigs logs t) : w1.client = w.client := by
  rw [h]

theorem frame_trans_eq {w w1 : World} {sigs : List Signal} {logs : List AlpmCall} {t : Bool}
    (h : Frame w w1 sigs logs t) : w1.trans = t := by
  rw [h]

theorem frame_emitted {w w1 : World} {sigs : List Signal} {logs : List AlpmCall} {t : Bool}
    (h : Frame w w1 sigs logs t) : emitted w w1 = sigs := by
  rw [h]
  simp [emitted]

theorem frame_calls {w w1 : World} {sigs : List Signal} {logs : List AlpmCall} {t : Bool}
    (h : Frame w w1 sigs logs t) : w1.calls.drop w.calls.length = logs := by
  rw [h]
  simp

theorem frame_emit {w w1 : World} {sigs : List Signal} {logs : List AlpmCall} {t : Bool}
    (h : Frame w w1 sigs logs t) (name : Str) (args : List Arg) :
    Frame w (emit_signal w1 name args) (sigs ++ [⟨w.client, name, args⟩]) logs t := by
  unfold Frame at h ⊢
  rw [h]
  simp [emit_signal]

theorem frame_call {w w1 : World} {sigs : List Signal} {logs : List AlpmCall} {t : Bool}
    (h : Frame w w1 sigs logs t) (call : AlpmCall) :
    Frame w { w1 with calls := w1.calls ++ [call] } sigs (logs ++ [call]) t := by
  unfold Frame at h ⊢
  rw [h]
  simp

theorem frame_set_trans {w w1 : World} {sigs : List Signal} {logs : List AlpmCall} {t : Bool}
    (h : Frame w w1 sigs logs t) (b : Bool) :
    Frame w { w1 with trans := b } sigs logs b := by
  unfold Frame at h ⊢
  rw [h]

theorem frame_release {w w1 : World} {sigs : List Signal} {logs : List AlpmCall} {t : Bool}
    (h : Frame w w1 sigs logs t) :
    Frame w (alpm_trans_release w1) sigs (logs ++ [AlpmCall.trans_release]) false := by
  unfold Frame at h ⊢
  rw [h]
  simp [alpm_trans_release]

theorem frame_engine_call (X : Ext) (K : Alpm) (V : PkgSets) {w w1 : World}
    {sigs : List Signal} {logs : List AlpmCall} {t : Bool} (h : Frame w w1 sigs logs t)
    (call : AlpmCall) (c : EngineCall) :
    ∃ sigs2 logs2, Frame w (engine_call X K V w1 call c) (sigs ++ sigs2)
        (logs ++ [call] ++ logs2) t ∧
      (∀ sig ∈ sigs2, sig.name ∈ relay_signal_names) ∧
      (∀ l ∈ logs2, ∃ text, l = AlpmCall.logaction text) := by
  obtain ⟨sigs2, logs2, h2, hs, hl⟩ := engine_call_frame X K V w1 call c
  refine ⟨sigs2, logs2, ?_, hs, hl⟩
  unfold Frame at h ⊢
  rw [h2, h]
  simp

theorem logaction_ne_release (l : List AlpmCall)
    (hl : ∀ c ∈ l, ∃ text, c = AlpmCall.logaction text) :
    ∀ c ∈ l, c ≠ AlpmCall.trans_release := by
  intro c hc
  obtain ⟨text, rfl⟩ := hl c hc
  simp

theorem get_packages_run (X : Ext) (K : Alpm) (V : PkgSets) (E : GetPackagesEngine)
    (w : World) :
    ∃ sigs logs,
      (∀ sig ∈ sigs, sig.name ∈ relay_signal_names) ∧
      (∀ c ∈ logs, c ≠ AlpmCall.trans_release) ∧
      ((E.trans_init.ret = -1 ∧ ∃ message, Frame w (get_packages X K V E w)
          (sigs ++ [⟨w.client, "MethodFailed".toList,
            [Arg.s "GetPackages".toList, Arg.s message]⟩]) logs w.trans) ∨
       (E.trans_init.ret ≠ -1 ∧ (E.sync_sysupgrade.ret = -1 ∨ E.trans_prepare.ret = -1) ∧
         ∃ message, Frame w (get_packages X K V E w)
          (sigs ++ [⟨w.client, "MethodFailed".toList,
            [Arg.s "GetPackages".toList, Arg.s message]⟩])
          (logs ++ [AlpmCall.trans_release]) false) ∨
       (get_packages_ok E ∧ Frame w (get_packages X K V E w)
          (sigs ++ [⟨w.client, "GetPackagesFinished".toList,
            [Arg.pkgs (get_packages_remove E.trans_remove
              (get_packages_add E E.trans_add []))]⟩]) logs true)) := by
  obtain ⟨s1, l1, f1, hs1, hl1⟩ := frame_engine_call X K V (frame_refl w)
    AlpmCall.trans_init E.trans_init
  obtain ⟨s2, l2, f2, hs2, hl2⟩ := frame_engine_call X K V (frame_set_trans f1 true)
    AlpmCall.sync_sysupgrade E.sync_sysupgrade
  obtain ⟨s3, l3, f3, hs3, hl3⟩ := frame_engine_call X K V f2
    AlpmCall.trans_prepare E.trans_prepare
  have hn1 : ∀ c ∈ [] ++ [AlpmCall.trans_init] ++ l1, c ≠ AlpmCall.trans_release := by
    intro c hc
    simp only [List.nil_append, List.mem_append, List.mem_singleton] at hc
    rcases hc with h | h
    · subst h; simp
    · exact logaction_ne_release l1 hl1 c h
  have hn2 : ∀ c ∈ [] ++ [AlpmCall.trans_init] ++ l1 ++ [AlpmCall.sync_sysupgrade] ++ l2,
      c ≠ AlpmCall.trans_release := by
    intro c hc
    rcases List.mem_append.mp hc with h | h
    · rcases List.mem_append.mp h with h | h
      · exact hn1 c h
      · simp only [List.mem_singleton] at h; subst h; simp
    · exact logaction_ne_release l2 hl2 c h
  have hn3 : ∀ c ∈ [] ++ [AlpmCall.trans_init] ++ l1 ++ [AlpmCall.sync_sysupgrade] ++ l2
      ++ [AlpmCall.trans_prepare] ++ l3, c ≠ AlpmCall.trans_release := by
    intro c hc
    rcases List.mem_append.mp hc with h | h
    · rcases List.mem_append.mp h with h | h
      · exact hn2 c h
      · simp only [List.mem_singleton] at h; subst h; simp
    · exact logaction_ne_release l3 hl3 c h
  have hr1 : ∀ sig ∈ [] ++ s1, sig.name ∈ relay_signal_names := by simpa using hs1
  have hr2 : ∀ sig ∈ [] ++ s1 ++ s2, sig.name ∈ relay_signal_names := by
    intro sig hsig
    rcases List.mem_append.mp hsig with h | h
    · exact hr1 sig h
    · exact hs2 sig h
  have hr3 : ∀ sig ∈ [] ++ s1 ++ s2 ++ s3, sig.name ∈ relay_signal_names := by
    intro sig hsig
    rcases List.mem_append.mp hsig with h | h
    · exact hr2 sig h
    · exact hs3 sig h
  by_cases r1 : E.trans_init.ret = -1
  · refine ⟨_, _, hr1, hn1, Or.inl ⟨r1, sprintf (gettext
      "Failed to initiate transaction: %s\n".toList) [E.strerror], ?_⟩⟩
    simp only [get_packages, r1, if_true, method_failed]
    exact frame_emit f1 _ _
  · by_cases r2 : E.sync_sysupgrade.ret = -1
    · refine ⟨_, _, hr2, hn2, Or.inr (Or.inl ⟨r1, Or.inl r2,
        sprintf "%s".toList [E.strerror], ?_⟩)⟩
      simp only [get_packages, r1, r2, if_true, if_false, method_failed]
      exact frame_release (frame_emit f2 _ _)
    · by_cases r3 : E.trans_prepare.ret = -1
      · by_cases hlen : (get_packages_details X K E.prepare_error).2 > 0
        · refine ⟨_, _, hr3, hn3, Or.inr (Or.inl ⟨r1, Or.inr r3,
            sprintf (gettext "Failed to prepare transaction: %s :\n%s\n".toList)
              [E.strerror, strcat_all (get_packages_details X K E.prepare_error).1 []], ?_⟩)⟩
          simp only [get_packages, r1, r2, r3, hlen, if_true, if_false, method_failed]
          exact frame_release (frame_emit f3 _ _)
        · refine ⟨_, _, hr3, hn3, Or.inr (Or.inl ⟨r1, Or.inr r3,
            sprintf (gettext "Failed to prepare transaction: %s\n".toList) [E.strerror], ?_⟩)⟩
          simp only [get_packages, r1, r2, r3, hlen, if_true, if_false, method_failed]
          exact frame_release (frame_emit f3 _ _)
      · refine ⟨_, _, hr3, hn3, Or.inr (Or.inr ⟨⟨r1, r2, r3⟩, ?_⟩)⟩
        simp only [get_packages, r1, r2, r3, if_false]
        exact frame_emit f3 _ _

theorem sysupgrade_run (X : Ext) (K : Alpm) (V : PkgSets) (E : SysupgradeEngine) (w : World) :
    ∃ sigs logs1 logs2 sig,
      (∀ s ∈ sigs, s.name ∈ relay_signal_names) ∧
      (∀ c ∈ logs1, c ≠ AlpmCall.trans_release) ∧
      (∀ c ∈ logs2, c ≠ AlpmCall.trans_release) ∧
      Frame w (sysupgrade X K V E w) (sigs ++ [sig])
        (logs1 ++ [AlpmCall.trans_release] ++ logs2) false ∧
      sig.dest = w.client ∧
      (sig.name = "MethodFinished".toList ∨ sig.name = "MethodFailed".toList) ∧
      sig.args.head? = some (Arg.s "SysUpgrade".toList) ∧
      (E.trans_commit.ret ≠ -1 ↔ sig.name = "MethodFinished".toList) := by
  have f0 : Frame w (alpm_logaction w "starting sysupgrade...\n".toList) []
      ([] ++ [AlpmCall.logaction "starting sysupgrade...\n".toList]) w.trans :=
    frame_call (frame_refl w) _
  obtain ⟨s1, l1, f1, hs1, hl1⟩ := frame_engine_call X K V f0
    AlpmCall.trans_commit E.trans_commit
  have hn1 : ∀ c ∈ [] ++ [AlpmCall.logaction "starting sysupgrade...\n".toList]
      ++ [AlpmCall.trans_commit] ++ l1, c ≠ AlpmCall.trans_release := by
    intro c hc
    rcases List.mem_append.mp hc with h | h
    · simp only [List.nil_append, List.mem_append, List.mem_singleton] at h
      rcases h with h | h <;> (subst h; simp)
    · exact logaction_ne_release l1 hl1 c h
  have hr1 : ∀ sig ∈ [] ++ s1, sig.name ∈ relay_signal_names := by simpa using hs1
  have hfm : ¬ ("MethodFailed".toList = "MethodFinished".toList) := by decide
  have hn2 : ∀ c ∈ [] ++ [AlpmCall.logaction "starting sysupgrade...\n".toList]
      ++ [AlpmCall.trans_commit] ++ l1 ++ [AlpmCall.logaction
        (sprintf "Failed to commit sysupgrade transaction: %s\n".toList [E.strerror])],
      c ≠ AlpmCall.trans_release := by
    intro c hc
    rcases List.mem_append.mp hc with h | h
    · exact hn1 c h
    · simp only [List.mem_singleton] at h; subst h; simp
  by_cases r1 : E.trans_commit.ret = -1
  · by_cases hlen : (sysupgrade_details E.commit_error).2 > 0
    · refine ⟨[] ++ s1, _, [], ⟨w.client, "MethodFailed".toList, [Arg.s "SysUpgrade".toList,
        Arg.s (sprintf (gettext "Failed to commit transaction: %s :\n%s\n".toList)
          [E.strerror, strcat_all (sysupgrade_details E.commit_error).1 []])]⟩,
        hr1, hn2, by simp, ?_, rfl, Or.inr rfl, rfl, by simp [r1, hfm]⟩
      simp only [sysupgrade, r1, hlen, if_true, method_failed, List.append_nil]
      exact frame_release (frame_call (frame_emit f1 _ _) _)
    · refine ⟨[] ++ s1, _, [], ⟨w.client, "MethodFailed".toList, [Arg.s "SysUpgrade".toList,
        Arg.s (sprintf (gettext "Failed to commit transaction: %s\n".toList)
          [E.strerror])]⟩,
        hr1, hn2, by simp, ?_, rfl, Or.inr rfl, rfl, by simp [r1, hfm]⟩
      simp only [sysupgrade, r1, hlen, if_true, if_false, method_failed, List.append_nil]
      exact frame_release (frame_call (frame_emit f1 _ _) _)
  · refine ⟨[] ++ s1, _, [AlpmCall.logaction "sysupgrade completed\n".toList],
      ⟨w.client, "MethodFinished".toList, [Arg.s "SysUpgrade".toList]⟩, hr1, hn1, by simp,
      ?_, rfl, Or.inl rfl, rfl, by simp [r1]⟩
    simp only [sysupgrade, r1, if_false, method_finished]
    exact frame_emit (frame_call (frame_release f1) _) _ _

/-- C18: for every outcome of the commit call of the engine (success, or failure
of any error category with any detail list, whatever callbacks it makes),
`sysupgrade` calls `alpm_trans_release` exactly once before it returns, and no
transaction is left on the handle. -/
theorem sysupgrade_releases_once (X : Ext) (K : Alpm) (V : PkgSets) (E : SysupgradeEngine)
    (w : World) :
    releases w (sysupgrade X K V E w) = 1 ∧ (sysupgrade X K V E w).trans = false := by
  obtain ⟨sigs, logs1, logs2, sig, _, h1, h2, hf, _⟩ := sysupgrade_run X K V E w
  refine ⟨?_, frame_trans_eq hf⟩
  unfold releases
  rw [frame_calls hf]
  simp only [List.count_append, List.count_singleton_self]
  rw [List.count_eq_zero.mpr (fun hin => h1 _ hin rfl),
    List.count_eq_zero.mpr (fun hin => h2 _ hin rfl)]

/-- C19 (counterexample): a run of `get_packages` started while a transaction is
open, in which `alpm_trans_init` fails: the handler ends with one
`MethodFailed ("GetPackages", ...)`, releases nothing, and the transaction is
still open. -/
theorem get_packages_open_failed_keeps_transaction :
    (get_packages sampleExt sampleAlpm sampleSets
        { sampleGetPackages with trans_init := failedCall }
        { lockedWorld with handle := true, trans := true }).trans = true ∧
    (failures (emitted { lockedWorld with handle := true, trans := true }
        (get_packages sampleExt sampleAlpm sampleSets
          { sampleGetPackages with trans_init := failedCall }
          { lockedWorld with handle := true, trans := true }))).map
        (fun sig => sig.args.head?) = [some (Arg.s "GetPackages".toList)] ∧
    releases { lockedWorld with handle := true, trans := true }
      (get_packages sampleExt sampleAlpm sampleSets
        { sampleGetPackages with trans_init := failedCall }
        { lockedWorld with handle := true, trans := true }) = 0 := by
  decide

/-- C19 (amended): after one run of `get_packages`, the success path leaves the
transaction open and does not release it; the failure paths that follow the
opening of the transaction (upgrade computation failed, prepare failed) release
it once and end with no transaction open; the path in which opening the
transaction failed releases nothing and leaves the transaction as it was before
the run. Every failure path emits one `MethodFailed ("GetPackages", ...)`, the
success path one `GetPackagesFinished`. Hence, for a run started with no
transaction open, a transaction is open afterwards if and only if the handler
resolved successfully. -/
theorem get_packages_transaction (X : Ext) (K : Alpm) (V : PkgSets) (E : GetPackagesEngine)
    (w : World) :
    (get_packages_ok E →
      (get_packages X K V E w).trans = true ∧ releases w (get_packages X K V E w) = 0 ∧
      ∃ rows, completion_notifications (emitted w (get_packages X K V E w))
        = [⟨w.client, "GetPackagesFinished".toList, [Arg.pkgs rows]⟩]) ∧
    (¬ get_packages_ok E →
      ∃ message, completion_notifications (emitted w (get_packages X K V E w))
        = [⟨w.client, "MethodFailed".toList,
            [Arg.s "GetPackages".toList, Arg.s message]⟩]) ∧
    (E.trans_init.ret = -1 →
      (get_packages X K V E w).trans = w.trans ∧ releases w (get_packages X K V E w) = 0) ∧
    (E.trans_init.ret ≠ -1 → ¬ get_packages_ok E →
      (get_packages X K V E w).trans = false ∧ releases w (get_packages X K V E w) = 1) ∧
    (w.trans = false → ((get_packages X K V E w).trans = true ↔ get_packages_ok E)) := by
  obtain ⟨sigs, logs, hs, hl, hcase⟩ := get_packages_run X K V E w
  have hq : ∀ s ∈ sigs, s.name ∈ quiet_names := fun s h => relay_quiet _ (hs s h)
  have hcount : List.count AlpmCall.trans_release logs = 0 :=
    List.count_eq_zero.mpr (fun hin => hl _ hin rfl)
  rcases hcase with ⟨r1, message, hf⟩ | ⟨r1, r23, message, hf⟩ | ⟨hok, hf⟩
  · have hnok : ¬ get_packages_ok E := fun h => h.1 r1
    have hrel : releases w (get_packages X K V E w) = 0 := by
      unfold releases
      rw [frame_calls hf, hcount]
    refine ⟨fun h => absurd h hnok, fun _ => ⟨message, ?_⟩, fun _ => ⟨frame_trans_eq hf, hrel⟩,
      fun h => absurd r1 h, fun ht => ?_⟩
    · rw [frame_emitted hf]
      exact completion_last sigs _ hq failed_is_completion
    · rw [frame_trans_eq hf, ht]
      simp [hnok]
  · have hnok : ¬ get_packages_ok E := by
      intro h
      rcases r23 with h2 | h3
      · exact h.2.1 h2
      · exact h.2.2 h3
    have hrel : releases w (get_packages X K V E w) = 1 := by
      unfold releases
      rw [frame_calls hf, List.count_append, hcount]
      rfl
    refine ⟨fun h => absurd h hnok, fun _ => ⟨message, ?_⟩, fun h => absurd h r1,
      fun _ _ => ⟨frame_trans_eq hf, hrel⟩, fun _ => ?_⟩
    · rw [frame_emitted hf]
      exact completion_last sigs _ hq failed_is_completion
    · rw [frame_trans_eq hf]
      simp [hnok]
  · have hrel : releases w (get_packages X K V E w) = 0 := by
      unfold releases
      rw [frame_calls hf, hcount]
    refine ⟨fun _ => ⟨frame_trans_eq hf, hrel,
        get_packages_remove E.trans_remove (get_packages_add E E.trans_add []), ?_⟩,
      fun h => absurd hok h,
      fun h => absurd h hok.1, fun _ h => absurd hok h, fun _ => ?_⟩
    · rw [frame_emitted hf]
      exact completion_last sigs _ hq get_packages_finished_is_completion
    · rw [frame_trans_eq hf]
      simp [hok]

/-! ## One completion notification per run: the handlers -/

theorem completes_once_count (w w1 : World) (h : completes_once w w1) :
    ∃ sig, completion_notifications (emitted w w1) = [sig] ∧ sig.name ∈ completion_names ∧
      (emitted w w1).getLast? = some sig := by
  obtain ⟨pre, sig, hout, hq, hsig⟩ := h
  have he : emitted w w1 = pre ++ [sig] := by
    unfold emitted
    rw [hout, List.append_assoc]
    simp
  refine ⟨sig, ?_, hsig, ?_⟩
  · rw [he]
    exact completion_last pre sig hq hsig
  · rw [he]
    simp

theorem completes_once_emit (w : World) (name : Str) (args : List Arg)
    (h : name ∈ completion_names) : completes_once w (emit_signal w name args) :=
  ⟨[], ⟨w.client, name, args⟩, by simp [emit_signal], by simp, h⟩

theorem completes_once_out {w w1 v v1 : World} (h : completes_once w w1)
    (h1 : v.out = w.out) (h2 : v1.out = w1.out) : completes_once v v1 := by
  obtain ⟨pre, sig, hout, hq, hsig⟩ := h
  exact ⟨pre, sig, by rw [h1, h2, hout], hq, hsig⟩

theorem completes_once_after {w w1 w2 : World} (pre : List Signal)
    (h1 : w1.out = w.out ++ pre) (hq : ∀ s ∈ pre, s.name ∈ quiet_names)
    (h2 : completes_once w1 w2) : completes_once w w2 := by
  obtain ⟨pre2, sig, hout, hq2, hsig⟩ := h2
  refine ⟨pre ++ pre2, sig, by rw [hout, h1]; simp, ?_, hsig⟩
  intro s hs
  rcases List.mem_append.mp hs with h | h
  · exact hq s h
  · exact hq2 s h

theorem completes_once_frame {w w1 : World} {sigs : List Signal} {sig : Signal}
    {logs : List AlpmCall} {t : Bool} (h : Frame w w1 (sigs ++ [sig]) logs t)
    (hs : ∀ s ∈ sigs, s.name ∈ relay_signal_names) (hsig : sig.name ∈ completion_names) :
    completes_once w w1 :=
  ⟨sigs, sig, by rw [h]; simp, fun s hin => relay_quiet _ (hs s hin), hsig⟩

theorem debug_quiet : "Debug".toList ∈ quiet_names := by decide

theorem completes_once_debug {w w2 : World} (text : Str)
    (h : completes_once (debug w text) w2) : completes_once w w2 :=
  completes_once_after [⟨w.client, "Debug".toList, [Arg.s text]⟩] rfl
    (by
      intro s hs
      rw [List.mem_singleton.mp hs]
      exact debug_quiet) h

theorem completes_once_failed (w : World) (name message : Str) :
    completes_once w (method_failed w name message) :=
  completes_once_emit w _ _ failed_is_completion

theorem completes_once_finished (w : World) (name : Str) :
    completes_once w (method_finished w name) :=
  completes_once_emit w _ _ finished_is_completion

theorem completes_once_init (authority : Str → Verdict) (w : World) (sender : Str) :
    completes_once w (init authority w sender) := by
  unfold init
  split
  · exact completes_once_failed w _ _
  · split
    · exact completes_once_out (completes_once_failed w _ _) rfl rfl
    · exact completes_once_out (completes_once_failed w _ _) rfl rfl
    · exact completes_once_out
        (completes_once_debug
          (w := { ({ w with auth_checks := w.auth_checks ++ [sender] } : World) with
            is_init := true, client := some sender })
          (sprintf "client is %s".toList [show_nullable (some sender)])
          (completes_once_finished _ "Init".toList)) rfl rfl

theorem completes_once_answer (w : World) (response : Int) :
    completes_once w (answer w response) := by
  unfold answer
  split
  · exact completes_once_failed w _ _
  · split
    · exact completes_once_out (completes_once_finished w _) rfl rfl
    · exact completes_once_out
        (completes_once_debug (w := w) "Invalid answer, defaulting to no (0)".toList
          (completes_once_finished _ "Answer".toList)) rfl rfl

theorem completes_once_no_sysupgrade (w : World) : completes_once w (no_sysupgrade w) :=
  completes_once_out (completes_once_finished w "NoSysUpgrade".toList) rfl rfl

theorem completes_once_init_alpm (E : InitAlpmEngine) (w : World) (arch : Str) :
    completes_once w (init_alpm E w arch) := by
  apply completes_once_debug "getting alpm params".toList
  apply completes_once_debug "init alpm".toList
  unfold init_alpm
  dsimp only
  split_ifs <;>
    first
    | exact completes_once_out (completes_once_failed
        (debug (debug w "getting alpm params".toList) "init alpm".toList) _ _) rfl rfl
    | exact completes_once_out (completes_once_finished
        (debug (debug w "getting alpm params".toList) "init alpm".toList) _) rfl rfl

theorem completes_once_free_alpm (release : Int) (w : World) :
    completes_once w (free_alpm release w) := by
  unfold free_alpm
  dsimp only
  split_ifs
  · exact ⟨[], ⟨none, "MethodFailed".toList, [Arg.s "FreeAlpm".toList,
      Arg.s (sprintf (gettext "Failed to release alpm library\n".toList) [])]⟩,
      by simp [method_failed, emit_signal], by simp, failed_is_completion⟩
  · exact ⟨[], ⟨none, "MethodFinished".toList, [Arg.s "FreeAlpm".toList]⟩,
      by simp [method_finished, emit_signal], by simp, finished_is_completion⟩
  · exact ⟨[], ⟨none, "MethodFinished".toList, [Arg.s "FreeAlpm".toList]⟩,
      by simp [method_finished, emit_signal], by simp, finished_is_completion⟩

theorem add_db_servers_some_arch (E : AddDbEngine) (name a : Str) :
    ∀ (servers : List Str) (w : World) (added : List Str),
      (∀ t ∈ servers, (replaceEvery t "$repo".toList name).length + 1 < SIZE_MOD ∧
        (replaceEvery (replaceEvery t "$repo".toList name) "$arch".toList a).length + 1
          < SIZE_MOD) →
      ∃ dbgs added1 ending,
        add_db_servers E name (some a) servers w added
          = some ({ w with out := w.out ++ dbgs }, added1, ending) ∧
        ∀ sig ∈ dbgs, sig.name = "Debug".toList := by
  intro servers
  induction servers with
  | nil =>
    intro w added _
    exact ⟨[], added, ServersEnd.done, by simp [add_db_servers, world_out_nil], by simp⟩
  | cons value rest ih =>
    intro w added hfit
    obtain ⟨hf1, hf2⟩ := hfit value (List.mem_cons_self _ _)
    have hrep := strreplace_eq_replaceEvery value "$repo".toList name repo_ne_nil hf1
    have hrep2 := strreplace_eq_replaceEvery (replaceEvery value "$repo".toList name)
      "$arch".toList a arch_ne_nil hf2
    unfold add_db_servers
    simp only [hrep, hrep2, Option.map_some']
    by_cases hadd : E.add_server added
        (replaceEvery (replaceEvery value "$repo".toList name) "$arch".toList a) ≠ 0
    · exact ⟨[⟨w.client, "Debug".toList, _⟩], added, _,
        by simp only [if_pos hadd, debug, emit_signal]; rfl, by simp⟩
    · obtain ⟨dbgs, added1, ending, h1, h2⟩ := ih
        (debug w (sprintf "add server %s into %s".toList
          [replaceEvery (replaceEvery value "$repo".toList name) "$arch".toList a, name]))
        (added ++ [replaceEvery (replaceEvery value "$repo".toList name) "$arch".toList a])
        (fun t ht => hfit t (List.mem_cons_of_mem _ ht))
      refine ⟨⟨w.client, "Debug".toList, [Arg.s (sprintf "add server %s into %s".toList
          [replaceEvery (replaceEvery value "$repo".toList name) "$arch".toList a, name])]⟩
        :: dbgs, added1, ending, ?_, ?_⟩
      · rw [if_neg hadd, h1]
        simp [debug, emit_signal]
      · intro sig hsig
        rcases List.mem_cons.mp hsig with rfl | hsig
        · rfl
        · exact h2 sig hsig

theorem add_db_servers_out (E : AddDbEngine) (name : Str) (arch : Option Str)
    (servers : List Str) (w : World)
    (hfit : ∀ t ∈ servers, (replaceEvery t "$repo".toList name).length + 1 < SIZE_MOD ∧
      ∀ a, arch = some a →
        (replaceEvery (replaceEvery t "$repo".toList name) "$arch".toList a).length + 1
          < SIZE_MOD) :
    ∃ dbgs added1 ending,
      add_db_servers E name arch servers w []
        = some ({ w with out := w.out ++ dbgs }, added1, ending) ∧
      ∀ sig ∈ dbgs, sig.name = "Debug".toList := by
  cases arch with
  | none =>
    obtain ⟨dbgs, extra, ending, h1, h2, _⟩ :=
      add_db_servers_without_arch E name servers w [] (fun t ht => (hfit t ht).1)
    exact ⟨dbgs, _, ending, h1, h2⟩
  | some a =>
    exact add_db_servers_some_arch E name a servers w []
      (fun t ht => ⟨(hfit t ht).1, (hfit t ht).2 a rfl⟩)

theorem completes_once_add_db (E : AddDbEngine) (w : World) (name : Str) (siglevel : Int)
    (servers : List Str) (hfit : strings_fit w (Request.add_db E name siglevel servers)) :
    ∃ w1, add_db E w name siglevel servers = some w1 ∧ completes_once w w1 := by
  unfold add_db
  by_cases hreg : E.register_ok = false
  · rw [if_pos hreg]
    exact ⟨_, rfl, completes_once_failed w _ _⟩
  · rw [if_neg hreg]
    obtain ⟨dbgs, added1, ending, h1, h2⟩ := add_db_servers_out E name w.arch servers w hfit
    have hq : ∀ s ∈ dbgs, s.name ∈ quiet_names := by
      intro s hs
      rw [h2 s hs]
      exact debug_quiet
    rw [h1]
    cases ending with
    | failed message =>
      exact ⟨_, rfl, @completes_once_after w
        { ({ w with out := w.out ++ dbgs } : World) with
          syncdbs := w.syncdbs ++ [⟨name, siglevel, added1⟩] } _ dbgs rfl hq
        (completes_once_failed _ _ _)⟩
    | done =>
      dsimp only
      split_ifs
      · exact ⟨_, rfl, @completes_once_after w
          { ({ w with out := w.out ++ dbgs } : World) with
            syncdbs := w.syncdbs ++ [⟨name, siglevel, added1⟩] } _ dbgs rfl hq
          (completes_once_failed _ _ _)⟩
      · exact ⟨_, rfl, @completes_once_after w
          { ({ w with out := w.out ++ dbgs } : World) with
            syncdbs := w.syncdbs ++ [⟨name, siglevel, added1⟩] } _ dbgs rfl hq
          (completes_once_finished _ _)⟩

theorem sync_names_quiet : "SyncDbs".toList ∈ quiet_names ∧
    "SyncDbStart".toList ∈ quiet_names ∧ "SyncDbEnd".toList ∈ quiet_names := by decide

theorem completes_once_sync_dbs (X : Ext) (K : Alpm) (V : PkgSets) (E : SyncEngine)
    (w : World) : completes_once w (sync_dbs X K V E w) := by
  obtain ⟨extra, logs, h1, _, h3⟩ := sync_dbs_loop_trace X K V E w.syncdbs
    (emit_signal w "SyncDbs".toList [Arg.i w.syncdbs.length])
  refine ⟨[⟨w.client, "SyncDbs".toList, [Arg.i w.syncdbs.length]⟩] ++ extra,
    ⟨w.client, "MethodFinished".toList, [Arg.s "SyncDbs".toList]⟩, ?_, ?_,
    finished_is_completion⟩
  · show (method_finished (sync_dbs_loop X K V E w.syncdbs
      (emit_signal w "SyncDbs".toList [Arg.i w.syncdbs.length])) "SyncDbs".toList).out = _
    rw [h1]
    simp [method_finished, emit_signal]
  · intro s hs
    rcases List.mem_append.mp hs with h | h
    · rw [List.mem_singleton.mp h]
      exact sync_names_quiet.1
    · rcases h3 s h with h | h | h
      · exact relay_quiet _ h
      · rw [h]
        exact sync_names_quiet.2.1
      · rw [h]
        exact sync_names_quiet.2.2

theorem completes_once_get_packages (X : Ext) (K : Alpm) (V : PkgSets)
    (E : GetPackagesEngine) (w : World) : completes_once w (get_packages X K V E w) := by
  obtain ⟨sigs, logs, hs, _, h⟩ := get_packages_run X K V E w
  rcases h with ⟨_, message, f⟩ | ⟨_, _, message, f⟩ | ⟨_, f⟩
  · exact completes_once_frame f hs failed_is_completion
  · exact completes_once_frame f hs failed_is_completion
  · exact completes_once_frame f hs get_packages_finished_is_completion

theorem completes_once_sysupgrade (X : Ext) (K : Alpm) (V : PkgSets)
    (E : SysupgradeEngine) (w : World) : completes_once w (sysupgrade X K V E w) := by
  obtain ⟨sigs, logs1, logs2, sig, hs, _, _, f, _, hname, _, _⟩ := sysupgrade_run X K V E w
  refine completes_once_frame f hs ?_
  rcases hname with h | h
  · rw [h]
    exact finished_is_completion
  · rw [h]
    exact failed_is_completion

/-- C16: for each request handler (`init`, `init_alpm`, `free_alpm`, `add_db`,
`sync_dbs`, `answer`, `get_packages`, `sysupgrade`, `no_sysupgrade`) and every
outcome of the engine and authority calls it makes, one run of the handler returns
and emits exactly one completion notification (a `MethodFinished`, a `MethodFailed`,
or the `GetPackagesFinished` with which `get_packages` reports success): the
completion notifications among the signals of the run are a single signal, and it
is the last signal of the run. For `add_db` the strings built by `strreplace` are
assumed to fit in a `size_t`. -/
theorem handler_completes_once (X : Ext) (K : Alpm) (V : PkgSets) (w : World)
    (r : Request) (hfit : strings_fit w r) :
    ∃ w1, run_handler X K V w r = some w1 ∧
      ∃ sig, completion_notifications (emitted w w1) = [sig] ∧
        sig.name ∈ completion_names ∧ (emitted w w1).getLast? = some sig := by
  cases r with
  | init authority sender =>
    exact ⟨_, rfl, completes_once_count _ _ (completes_once_init authority w sender)⟩
  | init_alpm E arch =>
    exact ⟨_, rfl, completes_once_count _ _ (completes_once_init_alpm E w arch)⟩
  | free_alpm release =>
    exact ⟨_, rfl, completes_once_count _ _ (completes_once_free_alpm release w)⟩
  | add_db E name siglevel servers =>
    obtain ⟨w1, h1, h2⟩ := completes_once_add_db E w name siglevel servers hfit
    exact ⟨w1, h1, completes_once_count _ _ h2⟩
  | sync_dbs E =>
    exact ⟨_, rfl, completes_once_count _ _ (completes_once_sync_dbs X K V E w)⟩
  | answer response =>
    exact ⟨_, rfl, completes_once_count _ _ (completes_once_answer w response)⟩
  | get_packages E =>
    exact ⟨_, rfl, completes_once_count _ _ (completes_once_get_packages X K V E w)⟩
  | sysupgrade E =>
    exact ⟨_, rfl, completes_once_count _ _ (completes_once_sysupgrade X K V E w)⟩
  | no_sysupgrade =>
    exact ⟨_, rfl, completes_once_count _ _ (completes_once_no_sysupgrade w)⟩

theorem handler_completes_once_witness :
    strings_fit lockedWorld
      (Request.add_db acceptingEngine "core".toList 0 ["https://a/$repo".toList]) ∧
    ∃ w1, run_handler sampleExt sampleAlpm sampleSets lockedWorld
        (Request.add_db acceptingEngine "core".toList 0 ["https://a/$repo".toList])
          = some w1 ∧
      ∃ sig, completion_notifications (emitted lockedWorld w1) = [sig] ∧
        sig.name ∈ completion_names ∧ (emitted lockedWorld w1).getLast? = some sig :=
  have hfit : strings_fit lockedWorld
      (Request.add_db acceptingEngine "core".toList 0 ["https://a/$repo".toList]) := by
    intro t ht
    rw [List.mem_singleton.mp ht]
    exact ⟨by decide, fun a ha => by cases ha⟩
  ⟨hfit, handler_completes_once sampleExt sampleAlpm sampleSets lockedWorld _ hfit⟩

/-! ## `strreplace`: the occurrence loop ends -/

theorem strreplace_scan_ends (str needle : Str) (hn : needle ≠ []) :
    ∀ (fuel p : Nat), p ≤ str.length → (str.length - p) / needle.length < fuel →
      ∃ qs, strreplace_scan fuel str needle p = some qs ∧
        qs.length * needle.length ≤ str.length - p ∧
        List.Chain (fun a b => a + needle.length ≤ b) p (qs.map (· + needle.length)) ∧
        ∀ q ∈ qs, q + needle.length ≤ str.length := by
  have hnl : 0 < needle.length := List.length_pos.mpr hn
  intro fuel
  induction fuel with
  | zero => intro p _ h; exact absurd h (Nat.not_lt_zero _)
  | succ fuel ih =>
    intro p hp hfuel
    unfold strreplace_scan
    cases hs : strstr (str.drop p) needle with
    | none => exact ⟨[], rfl, by simp, List.Chain.nil, by simp⟩
    | some k =>
      have hle := strstr_some_le _ _ _ hs
      simp only [List.length_drop] at hle
      have hp1 : p + k + needle.length ≤ str.length := by omega
      have hlt : str.length - p < (fuel + 1) * needle.length :=
        (Nat.div_lt_iff_lt_mul hnl).mp hfuel
      have hfuel1 : (str.length - (p + k + needle.length)) / needle.length < fuel := by
        apply (Nat.div_lt_iff_lt_mul hnl).mpr
        have e : (fuel + 1) * needle.length = fuel * needle.length + needle.length := by ring
        omega
      obtain ⟨qs, hscan, hlen, hchain, hall⟩ := ih (p + k + needle.length) hp1 hfuel1
      refine ⟨(p + k) :: qs, by simp [hscan], ?_, ?_, ?_⟩
      · have e : (qs.length + 1) * needle.length = qs.length * needle.length + needle.length := by
          ring
        simp only [List.length_cons]
        omega
      · simp only [List.map_cons]
        exact List.Chain.cons (by omega) hchain
      · intro q hq
        rcases List.mem_cons.mp hq with rfl | hq
        · exact hp1
        · exact hall q hq

theorem strreplace_scan_more_fuel (str needle : Str) :
    ∀ (fuel p : Nat) (qs : List Nat), strreplace_scan fuel str needle p = some qs →
      ∀ extra, strreplace_scan (fuel + extra) str needle p = some qs := by
  intro fuel
  induction fuel with
  | zero => intro p qs h; simp [strreplace_scan] at h
  | succ fuel ih =>
    intro p qs h extra
    have e : fuel + 1 + extra = (fuel + extra) + 1 := by omega
    rw [e]
    unfold strreplace_scan at h ⊢
    cases hs : strstr (str.drop p) needle with
    | none => simpa [hs] using h
    | some k =>
      simp only [hs, Option.map_eq_some'] at h ⊢
      obtain ⟨qs1, h1, h2⟩ := h
      exact ⟨qs1, ih _ _ h1 extra, h2⟩

/-- C28: for every string and every non-empty needle, the occurrence loop of
`strreplace` ends: it finds its occurrences `qs` within
`strlen (str) / strlen (needle) + 1` evaluations of its condition, so it runs at
most `strlen (str) / strlen (needle)` iterations; each iteration moves the scan
position `p = q + needlesz` at least `needlesz >= 1` characters past the previous
one. The outcome of `strreplace` is the same for any larger number of
evaluations allowed, the `strlen (str) + 1` of the model included. -/
theorem strreplace_scan_terminates (str needle replace : Str) (hn : needle ≠ []) :
    1 ≤ needle.length ∧
    ∃ qs, strreplace_scan (str.length / needle.length + 1) str needle 0 = some qs ∧
      qs.length ≤ str.length / needle.length ∧
      List.Chain (fun a b => a + needle.length ≤ b) 0 (qs.map (· + needle.length)) ∧
      (∀ extra, strreplace_scan (str.length / needle.length + 1 + extra) str needle 0
        = some qs) ∧
      (∀ extra, strreplace_fuel (str.length / needle.length + 1 + extra) str needle replace
        = strreplace_fuel (str.length / needle.length + 1) str needle replace) ∧
      strreplace str needle replace
        = strreplace_fuel (str.length / needle.length + 1) str needle replace := by
  have hnl : 0 < needle.length := List.length_pos.mpr hn
  obtain ⟨qs, hscan, hlen, hchain, _⟩ := strreplace_scan_ends str needle hn
    (str.length / needle.length + 1) 0 (Nat.zero_le _) (by simp)
  have hmore := strreplace_scan_more_fuel str needle _ 0 qs hscan
  have hfuel : ∀ extra, strreplace_fuel (str.length / needle.length + 1 + extra) str needle
      replace = strreplace_fuel (str.length / needle.length + 1) str needle replace := by
    intro extra
    unfold strreplace_fuel
    rw [hmore extra, hscan]
  refine ⟨hnl, qs, hscan, ?_, hchain, hmore, hfuel, ?_⟩
  · exact (Nat.le_div_iff_mul_le hnl).mpr (by simpa using hlen)
  · unfold strreplace
    have hle : str.length / needle.length ≤ str.length := Nat.div_le_self _ _
    have e : str.length + 1
        = str.length / needle.length + 1 + (str.length - str.length / needle.length) := by
      omega
    rw [e]
    exact hfuel _

theorem strreplace_scan_terminates_witness :
    ∃ qs, strreplace_scan ("a$repo/$repo".toList.length / "$repo".toList.length + 1)
        "a$repo/$repo".toList "$repo".toList 0 = some qs ∧
      qs.length ≤ 2 :=
  have h := strreplace_scan_terminates "a$repo/$repo".toList "$repo".toList "core".toList
    (by decide)
  match h.2 with
  | ⟨qs, h1, h2, _⟩ => ⟨qs, h1, h2⟩

/-! ## `depend_cmp` as an order -/

theorem char_toNat_inj (x y : Char) (h : x.toNat = y.toNat) : x = y := by
  have := congrArg Char.ofNat h
  simpa using this

theorem strcmp_swap (a b : Str) : strcmp b a = - strcmp a b := by
  induction a generalizing b with
  | nil => cases b <;> simp [strcmp]
  | cons x xs ih =>
    cases b with
    | nil => simp [strcmp]
    | cons y ys =>
      unfold strcmp
      by_cases hxy : x = y
      · subst hxy
        simp [ih]
      · have hyx : ¬ y = x := fun h => hxy h.symm
        have hne : x.toNat ≠ y.toNat := fun h => hxy (char_toNat_inj _ _ h)
        rw [if_neg hxy, if_neg hyx]
        by_cases hlt : x.toNat < y.toNat
        · have : ¬ y.toNat < x.toNat := by omega
          simp [hlt, this]
        · have : y.toNat < x.toNat := by omega
          simp [hlt, this]

theorem depend_cmp_swap (dep1 dep2 : Depend) :
    depend_cmp dep2 dep1 = - depend_cmp dep1 dep2 := by
  unfold depend_cmp
  rw [strcmp_swap dep1.name dep2.name]
  by_cases hn : strcmp dep1.name dep2.name = 0
  · simp only [hn, neg_zero, if_true]
    by_cases hm : dep1.mod - dep2.mod = 0
    · have hm2 : dep2.mod - dep1.mod = 0 := by omega
      simp only [hm, hm2, if_true]
      rcases dep1.version with _ | v1 <;> rcases dep2.version with _ | v2 <;>
        rcases dep1.desc with _ | d1 <;> rcases dep2.desc with _ | d2 <;>
        dsimp only <;>
        (try rw [strcmp_swap v1 v2]) <;>
        (try rw [strcmp_swap d1 d2]) <;>
        split_ifs <;> first | rfl | contradiction | omega
    · have hm2 : ¬ dep2.mod - dep1.mod = 0 := by omega
      simp only [hm, hm2, if_false]
      omega
  · have hn2 : ¬ - strcmp dep1.name dep2.name = 0 := by omega
    simp only [hn, hn2, if_false]

/-- C29: for every two dependency records, `depend_cmp (d1, d2)` is 0 exactly when
they have the same name, the same comparison mode, versions that are both absent
or both present and equal, and descriptions that are both absent or both present
and equal; and `depend_cmp (d2, d1)` has the opposite sign of
`depend_cmp (d1, d2)`. -/
theorem depend_cmp_zero_and_sign (d1 d2 : Depend) :
    (depend_cmp d1 d2 = 0 ↔
      d1.name = d2.name ∧ d1.mod = d2.mod ∧
      ((d1.version = none ∧ d2.version = none) ∨
        ∃ v, d1.version = some v ∧ d2.version = some v) ∧
      ((d1.desc = none ∧ d2.desc = none) ∨ ∃ d, d1.desc = some d ∧ d2.desc = some d)) ∧
    Int.sign (depend_cmp d2 d1) = - Int.sign (depend_cmp d1 d2) := by
  have hopt : ∀ a b : Option Str,
      a = b ↔ ((a = none ∧ b = none) ∨ ∃ v, a = some v ∧ b = some v) := by
    intro a b
    cases a <;> cases b <;> simp [eq_comm]
  constructor
  · rw [depend_cmp_eq_zero_iff, hopt d1.version d2.version, hopt d1.desc d2.desc]
  · rw [depend_cmp_swap, Int.sign_neg]

/-! ## `strreplace`: the length of the result -/

theorem countFrom_skip (needle : Str) (m : Nat) (s : Str) :
    countFrom needle m s = countFrom needle 0 (s.drop m) := by
  induction m generalizing s with
  | zero => simp
  | succ m ih =>
    cases s with
    | nil => simp [countFrom]
    | cons c cs => simp [countFrom, ih]

theorem countFrom_of_strstr_none (needle : Str) (s : Str) (h : strstr s needle = none) :
    countFrom needle 0 s = 0 := by
  induction s with
  | nil => simp [countFrom]
  | cons c cs ih =>
    unfold strstr at h
    split at h
    · simp at h
    · rename_i hp
      simp only [Option.map_eq_none'] at h
      simp [countFrom, hp, ih h]

theorem countFrom_of_strstr_some (needle : Str) (hn : needle ≠ []) (s : Str) (k : Nat)
    (h : strstr s needle = some k) :
    countFrom needle 0 s = 1 + countFrom needle 0 (s.drop (k + needle.length)) := by
  induction s generalizing k with
  | nil =>
    unfold strstr at h
    rw [isPrefixOf_nil_right hn] at h
    simp at h
  | cons c cs ih =>
    unfold strstr at h
    split at h
    · rename_i hp
      simp at h
      subst h
      obtain ⟨a, as, rfl⟩ := List.exists_cons_of_ne_nil hn
      simp only [countFrom, hp, if_true]
      rw [countFrom_skip]
      simp
    · rename_i hp
      simp only [Option.map_eq_some'] at h
      obtain ⟨k1, hk1, rfl⟩ := h
      have := ih k1 hk1
      simp only [countFrom, hp]
      rw [this]
      simp [Nat.add_right_comm]

theorem strreplace_scan_count (str needle : Str) (hn : needle ≠ []) :
    ∀ (fuel p : Nat) (qs : List Nat), strreplace_scan fuel str needle p = some qs →
      qs.length = occurrences (str.drop p) needle := by
  intro fuel
  induction fuel with
  | zero => intro p qs h; simp [strreplace_scan] at h
  | succ fuel ih =>
    intro p qs h
    unfold strreplace_scan at h
    cases hs : strstr (str.drop p) needle with
    | none =>
      simp only [hs, Option.some.injEq] at h
      subst h
      simp [occurrences, countFrom_of_strstr_none _ _ hs]
    | some k =>
      simp only [hs, Option.map_eq_some'] at h
      obtain ⟨qs1, h1, rfl⟩ := h
      have hrec := ih _ _ h1
      unfold occurrences at hrec ⊢
      rw [countFrom_of_strstr_some needle hn _ _ hs, List.drop_drop]
      have e : p + (k + needle.length) = p + k + needle.length := by omega
      simp only [List.length_cons, hrec, e]
      omega

/-- C27: for every string, every non-empty needle and every replacement, with `k`
the number of non-overlapping occurrences of the needle (the count of the list
the first loop collects), the result of `strreplace` has
`strlen (str) + k * (replacesz - needlesz)` characters, and the size computed in
`size_t` arithmetic modulo `2 ^ 64` is that length plus 1, also when `replace` is
shorter than `needle`; no write passes the end of the buffer, so `strreplace`
returns the string. The length with its NUL is assumed to fit in a `size_t`. -/
theorem strreplace_length (str needle replace : Str) (hn : needle ≠ [])
    (hfit : (str.length : Int)
      + (occurrences str needle : Int) * ((replace.length : Int) - needle.length) + 1
        < SIZE_MOD) :
    ∃ qs result,
      strreplace_scan (str.length + 1) str needle 0 = some qs ∧
      qs.length = occurrences str needle ∧
      strreplace str needle replace = some result ∧
      (result.length : Int) = (str.length : Int)
        + (occurrences str needle : Int) * ((replace.length : Int) - needle.length) ∧
      strreplace_newsz str needle replace (occurrences str needle) = result.length + 1 := by
  obtain ⟨qs, hscan, hlen, _⟩ :=
    strreplace_scan_fill str needle replace hn (str.length + 1) 0 (Nat.zero_le _) (by omega)
  have hcount := strreplace_scan_count str needle hn _ _ _ hscan
  simp only [List.drop_zero, Nat.sub_zero] at hlen hcount
  rw [hcount] at hlen
  have hL : ((replaceEvery str needle replace).length : Int) = (str.length : Int)
      + (occurrences str needle : Int) * ((replace.length : Int) - needle.length) := by
    have h := congrArg (fun n : Nat => (n : Int)) hlen
    simp only [Nat.cast_add, Nat.cast_mul] at h
    linarith
  have hfitN : (replaceEvery str needle replace).length + 1 < SIZE_MOD := by
    have h : ((replaceEvery str needle replace).length : Int) + 1 < SIZE_MOD := by
      rw [hL]
      exact hfit
    exact_mod_cast h
  exact ⟨qs, replaceEvery str needle replace, hscan, hcount,
    strreplace_eq_replaceEvery str needle replace hn hfitN, hL,
    strreplace_newsz_eq str needle replace _ _ hlen hfitN⟩

theorem strreplace_length_witness :
    ∃ qs result,
      strreplace_scan ("https://host/$repo/$arch".toList.length + 1)
        "https://host/$repo/$arch".toList "$repo".toList 0 = some qs ∧
      qs.length = occurrences "https://host/$repo/$arch".toList "$repo".toList ∧
      strreplace "https://host/$repo/$arch".toList "$repo".toList "core".toList
        = some result ∧
      (result.length : Int) = ("https://host/$repo/$arch".toList.length : Int)
        + (occurrences "https://host/$repo/$arch".toList "$repo".toList : Int)
          * (("core".toList.length : Int) - "$repo".toList.length) ∧
      strreplace_newsz "https://host/$repo/$arch".toList "$repo".toList "core".toList
        (occurrences "https://host/$repo/$arch".toList "$repo".toList) = result.length + 1 :=
  strreplace_length "https://host/$repo/$arch".toList "$repo".toList "core".toList
    (by decide) (by decide)

/-! ## Error formatter: categories that are not itemised -/

theorem sprintf_prepare_bare (s : Str) :
    sprintf (gettext "Failed to prepare transaction: %s\n".toList) [s]
      = "Failed to prepare transaction: ".toList ++ s ++ "\n".toList := by
  simp [sprintf, gettext]

theorem sprintf_commit_bare (s : Str) :
    sprintf (gettext "Failed to commit transaction: %s\n".toList) [s]
      = "Failed to commit transaction: ".toList ++ s ++ "\n".toList := by
  simp [sprintf, gettext]

theorem get_packages_other_category (X : Ext) (K : Alpm) (V : PkgSets)
    (E : GetPackagesEngine) (w : World) (alpm_data : List Str)
    (r1 : E.trans_init.ret ≠ -1) (r2 : E.sync_sysupgrade.ret ≠ -1)
    (r3 : E.trans_prepare.ret = -1) (herr : E.prepare_error = PrepareError.other alpm_data) :
    completion_notifications (emitted w (get_packages X K V E w))
      = [⟨w.client, "MethodFailed".toList, [Arg.s "GetPackages".toList,
          Arg.s ("Failed to prepare transaction: ".toList ++ E.strerror ++ "\n".toList)]⟩] := by
  obtain ⟨s1, l1, f1, hs1, _⟩ := frame_engine_call X K V (frame_refl w)
    AlpmCall.trans_init E.trans_init
  obtain ⟨s2, l2, f2, hs2, _⟩ := frame_engine_call X K V (frame_set_trans f1 true)
    AlpmCall.sync_sysupgrade E.sync_sysupgrade
  obtain ⟨s3, l3, f3, hs3, _⟩ := frame_engine_call X K V f2
    AlpmCall.trans_prepare E.trans_prepare
  have hq : ∀ sig ∈ [] ++ s1 ++ s2 ++ s3, sig.name ∈ quiet_names := by
    intro sig hsig
    rcases List.mem_append.mp hsig with h | h
    · rcases List.mem_append.mp h with h | h
      · exact relay_quiet _ (hs1 sig (by simpa using h))
      · exact relay_quiet _ (hs2 sig h)
    · exact relay_quiet _ (hs3 sig h)
  have hlen : ¬ (get_packages_details X K E.prepare_error).2 > 0 := by
    rw [herr]
    simp [get_packages_details]
  have he : emitted w (get_packages X K V E w) = ([] ++ s1 ++ s2 ++ s3) ++
      [⟨w.client, "MethodFailed".toList, [Arg.s "GetPackages".toList,
        Arg.s (sprintf (gettext "Failed to prepare transaction: %s\n".toList)
          [E.strerror])]⟩] := by
    simp only [get_packages, r1, r2, r3, hlen, if_true, if_false, method_failed]
    exact frame_emitted (frame_release (frame_emit f3 _ _))
  rw [he, sprintf_prepare_bare]
  exact completion_last _ _ hq failed_is_completion

theorem sysupgrade_other_category (X : Ext) (K : Alpm) (V : PkgSets)
    (E : SysupgradeEngine) (w : World) (alpm_data : List Str)
    (r1 : E.trans_commit.ret = -1) (herr : E.commit_error = CommitError.other alpm_data) :
    completion_notifications (emitted w (sysupgrade X K V E w))
      = [⟨w.client, "MethodFailed".toList, [Arg.s "SysUpgrade".toList,
          Arg.s ("Failed to commit transaction: ".toList ++ E.strerror ++ "\n".toList)]⟩] := by
  have f0 : Frame w (alpm_logaction w "starting sysupgrade...\n".toList) []
      ([] ++ [AlpmCall.logaction "starting sysupgrade...\n".toList]) w.trans :=
    frame_call (frame_refl w) _
  obtain ⟨s1, l1, f1, hs1, _⟩ := frame_engine_call X K V f0
    AlpmCall.trans_commit E.trans_commit
  have hq : ∀ sig ∈ [] ++ s1, sig.name ∈ quiet_names := by
    intro sig hsig
    exact relay_quiet _ (hs1 sig (by simpa using hsig))
  have hlen : ¬ (sysupgrade_details E.commit_error).2 > 0 := by
    rw [herr]
    simp [sysupgrade_details]
  have he : emitted w (sysupgrade X K V E w) = ([] ++ s1) ++
      [⟨w.client, "MethodFailed".toList, [Arg.s "SysUpgrade".toList,
        Arg.s (sprintf (gettext "Failed to commit transaction: %s\n".toList)
          [E.strerror])]⟩] := by
    simp only [sysupgrade, r1, hlen, if_true, if_false, method_failed]
    exact frame_emitted (frame_release (frame_call (frame_emit f1 _ _) _))
  rw [he, sprintf_commit_bare]
  exact completion_last _ _ hq failed_is_completion

/-- C21: for a failed prepare of `get_packages` and a failed commit of `sysupgrade`
whose error is not one of those the handler itemises, and for every detail list
the engine returned, the message of the `MethodFailed` is
`Failed to prepare transaction: ` (respectively `Failed to commit transaction: `)
followed by the error description of the engine and a newline: no itemised line
is added. -/
theorem other_category_bare_description (X : Ext) (K : Alpm) (V : PkgSets) (w : World)
    (EG : GetPackagesEngine) (ES : SysupgradeEngine) :
    (∀ alpm_data, EG.trans_init.ret ≠ -1 → EG.sync_sysupgrade.ret ≠ -1 →
      EG.trans_prepare.ret = -1 → EG.prepare_error = PrepareError.other alpm_data →
      completion_notifications (emitted w (get_packages X K V EG w))
        = [⟨w.client, "MethodFailed".toList, [Arg.s "GetPackages".toList,
            Arg.s ("Failed to prepare transaction: ".toList ++ EG.strerror
              ++ "\n".toList)]⟩]) ∧
    (∀ alpm_data, ES.trans_commit.ret = -1 →
      ES.commit_error = CommitError.other alpm_data →
      completion_notifications (emitted w (sysupgrade X K V ES w))
        = [⟨w.client, "MethodFailed".toList, [Arg.s "SysUpgrade".toList,
            Arg.s ("Failed to commit transaction: ".toList ++ ES.strerror
              ++ "\n".toList)]⟩]) :=
  ⟨fun alpm_data r1 r2 r3 herr => get_packages_other_category X K V EG w alpm_data r1 r2 r3 herr,
    fun alpm_data r1 herr => sysupgrade_other_category X K V ES w alpm_data r1 herr⟩

theorem other_category_bare_description_witness :
    completion_notifications (emitted lockedWorld
        (get_packages sampleExt sampleAlpm sampleSets otherPrepare lockedWorld))
      = [⟨some ":1.7".toList, "MethodFailed".toList, [Arg.s "GetPackages".toList,
          Arg.s "Failed to prepare transaction: unexpected error\n".toList]⟩] ∧
    completion_notifications (emitted lockedWorld
        (sysupgrade sampleExt sampleAlpm sampleSets otherCommit lockedWorld))
      = [⟨some ":1.7".toList, "MethodFailed".toList, [Arg.s "SysUpgrade".toList,
          Arg.s "Failed to commit transaction: unexpected error\n".toList]⟩] :=
  have h := other_category_bare_description sampleExt sampleAlpm sampleSets lockedWorld
    otherPrepare otherCommit
  ⟨h.1 ["a".toList, "b".toList] (by decide) (by decide) rfl rfl, h.2 ["a".toList] rfl rfl⟩

/-! ## Staged packages of `get_packages` -/

/-- C22 (counterexample): `vim` is in the add set and not installed locally; the
entry `get_packages` reports for it has old version `-`, not `none`, and its old
size is the `guint` of what `alpm_pkg_get_isize (NULL)` returns, here 4294967295. -/
theorem get_packages_new_package_old_version :
    sampleGetPackages.localdb "vim".toList = none ∧
    completion_notifications (emitted lockedWorld
        (get_packages sampleExt sampleAlpm sampleSets sampleGetPackages lockedWorld))
      = [⟨some ":1.7".toList, "GetPackagesFinished".toList,
          [Arg.pkgs [⟨"vim".toList, "editor".toList, "-".toList, "9.1".toList,
            100, 4294967295, 200⟩]]⟩] ∧
    "-".toList ≠ "none".toList := by
  decide

theorem to_guint_of_fits (v : Int) (h0 : 0 ≤ v) (h1 : v < 2 ^ 32) : (to_guint v : Int) = v := by
  unfold to_guint
  rw [Int.emod_eq_of_lt h0 h1]
  exact Int.toNat_of_nonneg h0

theorem get_packages_add_append (E : GetPackagesEngine) :
    ∀ (pkgs : List TransPkg) (builder : List PkgRow),
      get_packages_add E pkgs builder = builder ++ get_packages_add E pkgs [] := by
  intro pkgs
  induction pkgs with
  | nil => intro builder; simp [get_packages_add]
  | cons pkg rest ih =>
    intro builder
    unfold get_packages_add
    dsimp only
    rw [ih (builder ++ [_]), ih ([] ++ [_])]
    simp

theorem get_packages_add_rows (E : GetPackagesEngine) :
    ∀ (pkgs : List TransPkg),
      List.Forall₂ (fun (pkg : TransPkg) (row : PkgRow) =>
        row.name = pkg.name ∧ row.new_version = pkg.version ∧
        (E.localdb pkg.name = none → row.old_version = "-".toList) ∧
        ∀ l, E.localdb pkg.name = some l →
          row.old_version = l.version ∧ row.old_size = to_guint l.isize)
        pkgs (get_packages_add E pkgs []) := by
  intro pkgs
  induction pkgs with
  | nil => exact List.Forall₂.nil
  | cons pkg rest ih =>
    unfold get_packages_add
    dsimp only
    rw [get_packages_add_append]
    simp only [List.nil_append, List.singleton_append]
    refine List.Forall₂.cons ⟨rfl, rfl, ?_, ?_⟩ ih
    · intro hnone
      simp only [hnone]
    · intro l hsome
      simp [hsome]

theorem get_packages_remove_append :
    ∀ (pkgs : List TransPkg) (builder : List PkgRow),
      get_packages_remove pkgs builder = builder ++ get_packages_remove pkgs [] := by
  intro pkgs
  induction pkgs with
  | nil => intro builder; simp [get_packages_remove]
  | cons pkg rest ih =>
    intro builder
    unfold get_packages_remove
    dsimp only
    rw [ih (builder ++ [_]), ih ([] ++ [_])]
    simp

/-- C22 (amended): when `get_packages` resolves, the array of its
`GetPackagesFinished` starts with one entry per package of the add set, in the
order of the add set. The entry of a package that has no locally installed package
of the same name carries old version `-`; the entry of a package that is installed
locally carries the version of the local package and its installed size
converted to `guint` (the size itself when it is below `2 ^ 32`). -/
theorem get_packages_add_entries (X : Ext) (K : Alpm) (V : PkgSets)
    (E : GetPackagesEngine) (w : World) (hok : get_packages_ok E) :
    ∃ rows removed,
      completion_notifications (emitted w (get_packages X K V E w))
        = [⟨w.client, "GetPackagesFinished".toList, [Arg.pkgs (rows ++ removed)]⟩] ∧
      List.Forall₂ (fun (pkg : TransPkg) (row : PkgRow) =>
        row.name = pkg.name ∧ row.new_version = pkg.version ∧
        (E.localdb pkg.name = none → row.old_version = "-".toList) ∧
        ∀ l, E.localdb pkg.name = some l →
          row.old_version = l.version ∧ row.old_size = to_guint l.isize ∧
          (0 ≤ l.isize → l.isize < 2 ^ 32 → (row.old_size : Int) = l.isize))
        E.trans_add rows := by
  have h2 := get_packages_add_rows E E.trans_add
  have h3 := get_packages_remove_append E.trans_remove (get_packages_add E E.trans_add [])
  obtain ⟨sigs, logs, hs, _, hcase⟩ := get_packages_run X K V E w
  have hq : ∀ s ∈ sigs, s.name ∈ quiet_names := fun s h => relay_quiet _ (hs s h)
  refine ⟨get_packages_add E E.trans_add [], get_packages_remove E.trans_remove [], ?_, ?_⟩
  · rcases hcase with ⟨r1, _⟩ | ⟨_, r23, _⟩ | ⟨_, hf⟩
    · exact absurd r1 hok.1
    · rcases r23 with r2 | r3
      · exact absurd r2 hok.2.1
      · exact absurd r3 hok.2.2
    · rw [frame_emitted hf, h3]
      exact completion_last sigs _ hq get_packages_finished_is_completion
  · refine h2.imp ?_
    intro pkg row h
    refine ⟨h.1, h.2.1, h.2.2.1, ?_⟩
    intro l hl
    obtain ⟨hv, hsz⟩ := h.2.2.2 l hl
    refine ⟨hv, hsz, fun h0 hlt => ?_⟩
    rw [hsz]
    exact to_guint_of_fits _ h0 hlt

theorem get_packages_add_entries_witness :
    ∃ rows removed,
      completion_notifications (emitted lockedWorld
          (get_packages sampleExt sampleAlpm sampleSets splitGetPackages lockedWorld))
        = [⟨some ":1.7".toList, "GetPackagesFinished".toList,
            [Arg.pkgs (rows ++ removed)]⟩] ∧
      List.Forall₂ (fun (pkg : TransPkg) (row : PkgRow) =>
        row.name = pkg.name ∧ row.new_version = pkg.version ∧
        (splitGetPackages.localdb pkg.name = none → row.old_version = "-".toList) ∧
        ∀ l, splitGetPackages.localdb pkg.name = some l →
          row.old_version = l.version ∧ row.old_size = to_guint l.isize ∧
          (0 ≤ l.isize → l.isize < 2 ^ 32 → (row.old_size : Int) = l.isize))
        splitGetPackages.trans_add rows :=
  get_packages_add_entries sampleExt sampleAlpm sampleSets splitGetPackages lockedWorld
    ⟨by decide, by decide, by decide⟩

/-! ## The updater: packages of `kalu_alpm_has_updates` -/

theorem has_updates_add_append (E : HasUpdatesEngine) :
    ∀ (pkgs : List TransPkg) (packages : List kalu_package_t),
      has_updates_add E pkgs packages = packages ++ has_updates_add E pkgs [] := by
  intro pkgs
  induction pkgs with
  | nil => intro packages; simp [has_updates_add]
  | cons pkg rest ih =>
    intro packages
    unfold has_updates_add
    dsimp only
    rw [ih (packages ++ [_]), ih ([] ++ [_])]
    simp

theorem has_updates_add_rows (E : HasUpdatesEngine) :
    ∀ (pkgs : List TransPkg),
      List.Forall₂ (fun (pkg : TransPkg) (package : kalu_package_t) =>
        package.name = pkg.name ∧ package.new_version = pkg.version ∧
        (E.localdb pkg.name = none →
          package.old_version = "none".toList ∧ package.old_size = 0) ∧
        ∀ o, E.localdb pkg.name = some o →
          package.old_version = o.version ∧ package.old_size = to_guint o.isize)
        pkgs (has_updates_add E pkgs []) := by
  intro pkgs
  induction pkgs with
  | nil => exact List.Forall₂.nil
  | cons pkg rest ih =>
    unfold has_updates_add
    dsimp only
    rw [has_updates_add_append]
    simp only [List.nil_append, List.singleton_append]
    refine List.Forall₂.cons ⟨rfl, rfl, ?_, ?_⟩ ih
    · intro hnone
      simp [hnone, gettext]
    · intro o hsome
      simp [hsome]

/-- C23 (counterexample): the local `vim` has an installed size of 5 GiB
(5368709120 bytes); the record `kalu_alpm_has_updates` appends for `vim` has
`old_size` 1073741824, the size reduced modulo `2 ^ 32` by the cast to `guint`. -/
theorem has_updates_large_package_old_size :
    largeLocal.localdb "vim".toList = some ⟨"9.0".toList, 5368709120⟩ ∧
    (kalu_alpm_has_updates sampleExt sampleAlpm largeLocal []).packages
      = [⟨"vim".toList, "editor".toList, "9.0".toList, "9.1".toList,
          100, 1073741824, 200⟩] ∧
    (1073741824 : Int) ≠ 5368709120 := by
  decide

/-- C23 (amended): when `kalu_alpm_has_updates` reaches its loop over the add set of the
transaction, it appends to `*packages` one record per package of the add set, in
the order of the add set; the record of a package has `old_version` `none` and
`old_size` 0 when no local package of that name exists, and otherwise the version
of the local package and its installed size converted to `guint` (the size itself
when it is below `2 ^ 32`). -/
theorem has_updates_records (X : Ext) (K : Alpm) (E : HasUpdatesEngine)
    (packages : List kalu_package_t) (hcheck : E.check_syncdbs = true)
    (hsync : E.sync_sysupgrade ≠ -1) (hprepare : E.trans_prepare ≠ -1) :
    ∃ records,
      (kalu_alpm_has_updates X K E packages).packages = packages ++ records ∧
      records.length = E.trans_add.length ∧
      List.Forall₂ (fun (pkg : TransPkg) (package : kalu_package_t) =>
        package.name = pkg.name ∧ package.new_version = pkg.version ∧
        (E.localdb pkg.name = none →
          package.old_version = "none".toList ∧ package.old_size = 0) ∧
        ∀ o, E.localdb pkg.name = some o →
          package.old_version = o.version ∧ package.old_size = to_guint o.isize ∧
          (0 ≤ o.isize → o.isize < 2 ^ 32 → (package.old_size : Int) = o.isize))
        E.trans_add records := by
  have h2 := has_updates_add_rows E E.trans_add
  have hneg : ¬ ((if E.trans_init = 0 then (1 : Int) else 0) = -1) := by
    split <;> decide
  refine ⟨has_updates_add E E.trans_add [], ?_, h2.length_eq.symm, ?_⟩
  · simp only [kalu_alpm_has_updates, hcheck, hneg, hsync, hprepare, if_false,
      Bool.true_eq_false, has_updates_cleanup]
    exact has_updates_add_append E E.trans_add packages
  · refine h2.imp ?_
    intro pkg package h
    refine ⟨h.1, h.2.1, h.2.2.1, ?_⟩
    intro o ho
    obtain ⟨hv, hsz⟩ := h.2.2.2 o ho
    refine ⟨hv, hsz, fun h0 hlt => ?_⟩
    rw [hsz]
    exact to_guint_of_fits _ h0 hlt

theorem has_updates_records_witness :
    (kalu_alpm_has_updates sampleExt sampleAlpm sampleHasUpdates []).packages
      = [⟨"vim".toList, "editor".toList, "9.0".toList, "9.1".toList, 100, 150, 200⟩,
         ⟨"vim-runtime".toList, "runtime".toList, "none".toList, "9.1".toList,
           300, 0, 400⟩] ∧
    ∃ records,
      (kalu_alpm_has_updates sampleExt sampleAlpm sampleHasUpdates []).packages
        = [] ++ records ∧
      records.length = sampleHasUpdates.trans_add.length :=
  have h := has_updates_records sampleExt sampleAlpm sampleHasUpdates [] rfl
    (by decide) (by decide)
  match h with
  | ⟨records, h1, h2, _⟩ => ⟨by decide, records, h1, h2⟩

/-! ## The updater: the detail string of a failed prepare -/

theorem to_int_of_fits (v : Int) (h0 : -(2 ^ 31) ≤ v) (h1 : v < 2 ^ 31) : to_int v = v := by
  unfold to_int
  omega

set_option maxRecDepth 1000000 in
/-- C25 (failing input): four packages without a valid architecture whose lines
have 250 characters each. No line is cut by `snprintf` and the lines have 1000
characters together, but `err` is not their concatenation: it has 773 characters,
the fourth line being cut to its first 23 characters, the value of `len` after
the subtraction. -/
theorem has_updates_details_cuts_fitting_line :
    (has_updates_lines sampleExt sampleAlpm fourLongNames).length = 4 ∧
    (has_updates_lines sampleExt sampleAlpm fourLongNames).all
      (fun l => l.1.length = 250 ∧ l.2 = 250) = true ∧
    ((has_updates_lines sampleExt sampleAlpm fourLongNames).map (fun l => l.1.length)).sum
      = 1000 ∧
    (has_updates_details sampleExt sampleAlpm fourLongNames).1
      ≠ ((has_updates_lines sampleExt sampleAlpm fourLongNames).map (fun l => l.1)).flatten ∧
    (has_updates_details sampleExt sampleAlpm fourLongNames).1
      = (((has_updates_lines sampleExt sampleAlpm fourLongNames).take 3).map
          (fun l => l.1)).flatten
        ++ (("- Package ".toList ++ List.replicate 204 'a'
          ++ " does not have a valid architecture\n".toList).take 23) ∧
    (has_updates_details sampleExt sampleAlpm fourLongNames).1.length = 773 := by
  decide

/-- C26 (failing input): a run of `kalu_alpm_has_updates` in which `trans_init`
returns FALSE. The test `!trans_init (...) == -1` compares 0 or 1 with -1, so it
never holds: the function goes on to `alpm_sync_sysupgrade`, the error of
`trans_init` is not propagated, and `*error` is the error of the later call. For
every answer of the engine, once `check_syncdbs` has passed,
`alpm_sync_sysupgrade` is called. -/
theorem has_updates_ignores_trans_init_failure :
    failedInit.trans_init = 0 ∧
    (kalu_alpm_has_updates sampleExt sampleAlpm failedInit []).calls
      = [HasUpdatesCall.check_syncdbs, HasUpdatesCall.trans_init,
          HasUpdatesCall.alpm_sync_sysupgrade, HasUpdatesCall.trans_release] ∧
    (kalu_alpm_has_updates sampleExt sampleAlpm failedInit []).error
      = some ⟨1, "transaction not initialized".toList⟩ ∧
    (kalu_alpm_has_updates sampleExt sampleAlpm failedInit []).error
      ≠ some failedInit.trans_init_error ∧
    ∀ (X : Ext) (K : Alpm) (E : HasUpdatesEngine) (packages : List kalu_package_t),
      E.check_syncdbs = true →
      HasUpdatesCall.alpm_sync_sysupgrade ∈ (kalu_alpm_has_updates X K E packages).calls := by
  refine ⟨rfl, by decide, by decide, by decide, ?_⟩
  intro X K E packages hcheck
  have hneg : ¬ ((if E.trans_init = 0 then (1 : Int) else 0) = -1) := by
    split <;> decide
  simp only [kalu_alpm_has_updates, hcheck, hneg, if_false, Bool.true_eq_false]
  split
  · simp [has_updates_cleanup]
  · split <;> simp [has_updates_cleanup]

/-! ## The updater: `kalu_alpm_syncdbs` -/

theorem syncdbs_loop_all_ok (E : SyncdbsEngine) :
    ∀ (dbs : List (Str × Int)) (r : SyncdbsResult),
      (∀ p ∈ dbs, 0 ≤ p.2) → 0 ≤ r.nb_dbs_synced →
      r.nb_dbs_synced + dbs.length < 2 ^ 31 →
      (kalu_alpm_syncdbs_loop E dbs r).ret = true ∧
      (kalu_alpm_syncdbs_loop E dbs r).nb_dbs_synced
        = r.nb_dbs_synced + (dbs.filter (fun p => decide (p.2 ≠ 1))).length ∧
      (kalu_alpm_syncdbs_loop E dbs r).error = r.error ∧
      (kalu_alpm_syncdbs_loop E dbs r).updated = r.updated ++ dbs.map (fun p => p.1) := by
  intro dbs
  induction dbs with
  | nil => intro r _ _ _; simp [kalu_alpm_syncdbs_loop]
  | cons db rest ih =>
    intro r hok hnb hlen
    obtain ⟨name, ret⟩ := db
    have hret : 0 ≤ ret := hok (name, ret) (List.mem_cons_self _ _)
    have hrest : ∀ p ∈ rest, 0 ≤ p.2 := fun p h => hok p (List.mem_cons_of_mem _ h)
    simp only [List.length_cons, Nat.cast_add, Nat.cast_one] at hlen
    unfold kalu_alpm_syncdbs_loop
    have hneg : ¬ ret < 0 := by omega
    simp only [hneg, if_false]
    by_cases h1 : ret = 1
    · simp only [h1, if_true]
      obtain ⟨a, b, c, d⟩ := ih
        { r with updated := r.updated ++ [name],
                 debugs := r.debugs ++ [sprintf "%s is up to date".toList [name]] }
        hrest hnb (by simp only; omega)
      refine ⟨a, ?_, c, ?_⟩
      · rw [b]
        simp
      · rw [d]
        simp
    · simp only [h1, if_false]
      have hwrap : to_int (r.nb_dbs_synced + 1) = r.nb_dbs_synced + 1 :=
        to_int_of_fits _ (by omega) (by omega)
      obtain ⟨a, b, c, d⟩ := ih
        { r with updated := r.updated ++ [name],
                 nb_dbs_synced := to_int (r.nb_dbs_synced + 1),
                 debugs := r.debugs ++ [sprintf "%s was updated".toList [name]] }
        hrest (by simp only [hwrap]; omega) (by simp only [hwrap]; omega)
      refine ⟨a, ?_, c, ?_⟩
      · rw [b]
        simp only [hwrap]
        simp [h1]
        omega
      · rw [d]
        simp

theorem syncdbs_loop_first_failure (E : SyncdbsEngine) (name : Str) (ret : Int)
    (post : List (Str × Int)) (hret : ret < 0) :
    ∀ (pre : List (Str × Int)) (r : SyncdbsResult),
      (∀ p ∈ pre, 0 ≤ p.2) → 0 ≤ r.nb_dbs_synced →
      r.nb_dbs_synced + pre.length < 2 ^ 31 →
      (kalu_alpm_syncdbs_loop E (pre ++ (name, ret) :: post) r).ret = false ∧
      (kalu_alpm_syncdbs_loop E (pre ++ (name, ret) :: post) r).updated
        = r.updated ++ pre.map (fun p => p.1) ++ [name] ∧
      (kalu_alpm_syncdbs_loop E (pre ++ (name, ret) :: post) r).error
        = some ⟨1, sprintf (gettext "Failed to update %s: %s".toList) [name, E.strerror]⟩ := by
  intro pre
  induction pre with
  | nil =>
    intro r _ _ _
    simp [kalu_alpm_syncdbs_loop, hret]
  | cons db rest ih =>
    intro r hok hnb hlen
    obtain ⟨name1, ret1⟩ := db
    have hret1 : 0 ≤ ret1 := hok (name1, ret1) (List.mem_cons_self _ _)
    have hrest : ∀ p ∈ rest, 0 ≤ p.2 := fun p h => hok p (List.mem_cons_of_mem _ h)
    simp only [List.length_cons, Nat.cast_add, Nat.cast_one] at hlen
    simp only [List.cons_append]
    unfold kalu_alpm_syncdbs_loop
    have hneg : ¬ ret1 < 0 := by omega
    simp only [hneg, if_false]
    by_cases h1 : ret1 = 1
    · simp only [h1, if_true]
      obtain ⟨a, b, c⟩ := ih
        { r with updated := r.updated ++ [name1],
                 debugs := r.debugs ++ [sprintf "%s is up to date".toList [name1]] }
        hrest hnb (by simp only; omega)
      exact ⟨a, by rw [b]; simp, c⟩
    · simp only [h1, if_false]
      have hwrap : to_int (r.nb_dbs_synced + 1) = r.nb_dbs_synced + 1 :=
        to_int_of_fits _ (by omega) (by omega)
      obtain ⟨a, b, c⟩ := ih
        { r with updated := r.updated ++ [name1],
                 nb_dbs_synced := to_int (r.nb_dbs_synced + 1),
                 debugs := r.debugs ++ [sprintf "%s was updated".toList [name1]] }
        hrest (by simp only [hwrap]; omega) (by simp only [hwrap]; omega)
      exact ⟨a, by rw [b]; simp, c⟩

/-- C30 (counterexample): with no update result negative (no repository is
registered), a run in which `check_syncdbs` fails returns FALSE, not TRUE, and
leaves `*nb_dbs_synced` at the 7 it held on entry; with one repository whose
update would succeed, it returns FALSE without updating it. -/
theorem syncdbs_check_failure_returns_false :
    (kalu_alpm_syncdbs uncheckedSyncdbs [] 7).ret = false ∧
    (kalu_alpm_syncdbs uncheckedSyncdbs [] 7).nb_dbs_synced = 7 ∧
    (kalu_alpm_syncdbs uncheckedSyncdbs [("core".toList, 0)] 7).ret = false ∧
    (kalu_alpm_syncdbs uncheckedSyncdbs [("core".toList, 0)] 7).updated = [] ∧
    (kalu_alpm_syncdbs uncheckedSyncdbs [("core".toList, 0)] 7).nb_dbs_synced = 7 := by
  decide

/-- C30 (amended): once `check_syncdbs` has passed, for every list of registered
repositories and every sequence of update results, `kalu_alpm_syncdbs` returns
FALSE at the first repository whose update result is negative, with the error
`Failed to update NAME: ...`, having updated the repositories up to that one and
none after it; when no update result is negative it returns TRUE, has updated
every repository in order, sets no error, and `*nb_dbs_synced` is the number of
repositories whose update result was neither negative nor 1. The number of
repositories is assumed to be below `2 ^ 31`. -/
theorem syncdbs_first_failure_or_count (E : SyncdbsEngine) (sync_dbs : List (Str × Int))
    (nb_dbs_synced : Int) (hcheck : E.check_syncdbs = true)
    (hlen : sync_dbs.length < 2 ^ 31) :
    (∀ pre name ret post, sync_dbs = pre ++ (name, ret) :: post →
      (∀ p ∈ pre, 0 ≤ p.2) → ret < 0 →
      (kalu_alpm_syncdbs E sync_dbs nb_dbs_synced).ret = false ∧
      (kalu_alpm_syncdbs E sync_dbs nb_dbs_synced).updated
        = pre.map (fun p => p.1) ++ [name] ∧
      (kalu_alpm_syncdbs E sync_dbs nb_dbs_synced).error
        = some ⟨1, "Failed to update ".toList ++ name ++ ": ".toList ++ E.strerror⟩) ∧
    ((∀ p ∈ sync_dbs, 0 ≤ p.2) →
      (kalu_alpm_syncdbs E sync_dbs nb_dbs_synced).ret = true ∧
      (kalu_alpm_syncdbs E sync_dbs nb_dbs_synced).nb_dbs_synced
        = (sync_dbs.filter (fun p => decide (¬ p.2 < 0 ∧ p.2 ≠ 1))).length ∧
      (kalu_alpm_syncdbs E sync_dbs nb_dbs_synced).error = none ∧
      (kalu_alpm_syncdbs E sync_dbs nb_dbs_synced).updated
        = sync_dbs.map (fun p => p.1)) := by
  have hrun : kalu_alpm_syncdbs E sync_dbs nb_dbs_synced
      = kalu_alpm_syncdbs_loop E sync_dbs ⟨true, 0, none, [], []⟩ := by
    simp [kalu_alpm_syncdbs, hcheck]
  have hmsg : ∀ name : Str, sprintf (gettext "Failed to update %s: %s".toList)
      [name, E.strerror] = "Failed to update ".toList ++ name ++ ": ".toList ++ E.strerror := by
    intro name
    simp [sprintf, gettext]
  rw [hrun]
  constructor
  · intro pre name ret post hsplit hpre hret
    subst hsplit
    have hl : ((0 : Int)) + pre.length < 2 ^ 31 := by
      simp only [List.length_append, List.length_cons] at hlen
      have : ((pre.length : Nat) : Int) < 2 ^ 31 := by exact_mod_cast (by omega : pre.length < 2 ^ 31)
      omega
    obtain ⟨a, b, c⟩ := syncdbs_loop_first_failure E name ret post hret pre
      ⟨true, 0, none, [], []⟩ hpre (by simp) hl
    exact ⟨a, by rw [b]; simp, by rw [c, hmsg]⟩
  · intro hall
    have hl : ((0 : Int)) + sync_dbs.length < 2 ^ 31 := by
      have : ((sync_dbs.length : Nat) : Int) < 2 ^ 31 := by exact_mod_cast hlen
      omega
    obtain ⟨a, b, c, d⟩ := syncdbs_loop_all_ok E sync_dbs ⟨true, 0, none, [], []⟩ hall
      (by simp) hl
    refine ⟨a, ?_, c, by rw [d]; simp⟩
    rw [b]
    simp only [zero_add, Nat.cast_inj]
    congr 1
    apply List.filter_congr
    intro p hp
    have := hall p hp
    simp only [decide_eq_decide]
    constructor
    · intro h
      exact ⟨by omega, h⟩
    · intro h
      exact h.2

theorem syncdbs_first_failure_or_count_witness :
    (kalu_alpm_syncdbs checkedSyncdbs
        [("core".toList, 0), ("extra".toList, 1), ("community".toList, -1),
          ("multilib".toList, 0)] 0).ret = false ∧
    (kalu_alpm_syncdbs checkedSyncdbs
        [("core".toList, 0), ("extra".toList, 1), ("community".toList, -1),
          ("multilib".toList, 0)] 0).updated
      = ["core".toList, "extra".toList] ++ ["community".toList] :=
  have h := (syncdbs_first_failure_or_count checkedSyncdbs
    [("core".toList, 0), ("extra".toList, 1), ("community".toList, -1),
      ("multilib".toList, 0)] 0 rfl (by decide)).1
    [("core".toList, 0), ("extra".toList, 1)] "community".toList (-1)
    [("multilib".toList, 0)] rfl (by decide) (by decide)
  ⟨h.1, h.2.1⟩

end Kalu
